import Mathlib

/-! The ordered merge join of `src/merge.c`.

A shallow embedding of the merge of two tables (`merge_index_length`,
`do_merge_xts`) and of the n-way merge (`mergeXts`), followed by the
properties proved about them. `do_merge_xts` is the merge of two tables with
an integer index and `do_merge_xts_double` the merge of two tables with a
double index, the two cases of the switch on the type of the index.

Conventions of the embedding:

* an R vector is a list; `INTEGER(v)[k]` is `v.getD k _` and a store
  `INTEGER(v)[k] = a` is `v.set k a` (a store outside of the vector, which is
  undefined in C, leaves the list as it is);
* a C `int` that holds a length or a position is a `Nat`: all of them stay
  between `0` and `nrx + nry + 2`, which is taken to fit a C `int`;
  `merge_index_length_int` is the count pass with the arithmetic of C `int`s
  for lengths up to `INT_MAX`, equal to `merge_index_length` when
  `nx + ny + 2 ≤ INT_MAX` (`merge_index_length_int_eq`);
* `coerceVector` converts cell by cell and is taken to succeed, as it does
  between the logical, integer, double, complex and character types; R stops
  with an error of its own when a cell of a list that is not a single value
  is converted;
* a loop is a function that is recursive on a bound on the number of its
  iterations; it answers `MergeError.fuel` when the bound is used up before
  the loop guard fails, so that a result `Except.ok _` always is the result
  of the loop of the source;
* a call of `error(...)` is `Except.error _`.
-/

namespace XtsMerge

/-! ## Data model -/

/-- The ways a merge stops without a result. -/
inductive MergeError
  /-- `error("invalid comparison function output; should not happen")` and
  `error("invalid comparison, should never happen")`. -/
  | invalid_comparison
  /-- `error("'index' cannot contain 'NA'")`. -/
  | invalid_index
  /-- `error("unsupported data type")`. -/
  | unsupported_type
  /-- `error("no xts object to merge")`. -/
  | no_xts_object
  /-- A read outside of a vector (undefined behaviour in C). -/
  | out_of_bounds
  /-- A store through a pointer that was left `NULL`. -/
  | null_pointer
  /-- R's `nrows` of a value that has no rows (`NULL`). -/
  | not_a_matrix
  /-- The iteration bound of a loop of the embedding was used up. -/
  | fuel
  deriving DecidableEq, Repr

/-- A single xts index is a vector of index values (`double *d` or `int *i`);
the set of xts indices (result, x, y) involved in the merge. -/
structure xts_indices (α : Type) where
  r : List α
  x : List α
  y : List α
  deriving DecidableEq, Repr

/-- `idx->r.i[rp] = idx->x.i[xp]`. -/
def set_index_from_x_int (idx : xts_indices Int) (rp xp : Nat) : xts_indices Int :=
  { idx with r := idx.r.set rp (idx.x.getD xp 0) }

/-- `idx->r.i[rp] = idx->y.i[yp]`. -/
def set_index_from_y_int (idx : xts_indices Int) (rp yp : Nat) : xts_indices Int :=
  { idx with r := idx.r.set rp (idx.y.getD yp 0) }

/-- Compare the indices for x and y: `1` when `x[xp] > y[yp]`, `-1` when
`x[xp] < y[yp]`, else `0`. -/
def compare_indexes_int (idx : xts_indices Int) (xp yp : Nat) : Int :=
  if idx.x.getD xp 0 > idx.y.getD yp 0 then 1
  else if idx.x.getD xp 0 < idx.y.getD yp 0 then -1
  else 0

/-! ## Length of the merged index -/

/-- The loop of `merge_index_length` that is taken when `rjoin && ljoin`. -/
def merge_index_length_both {α : Type} (idx : xts_indices α)
    (cmpfn : xts_indices α → Nat → Nat → Int) (nx ny : Nat) :
    Nat → Nat → Nat → Nat → Except MergeError Nat
  | 0, i, xi, yi =>
    if xi + yi ≤ nx + ny + 1 then
      if xi > nx then .ok (i + (ny - yi + 1))
      else if yi > ny then .ok (i + (nx - xi + 1))
      else .error .fuel
    else .ok i
  | fuel + 1, i, xi, yi =>
    if xi + yi ≤ nx + ny + 1 then
      if xi > nx then .ok (i + (ny - yi + 1))
      else if yi > ny then .ok (i + (nx - xi + 1))
      else
        let comp := cmpfn idx (xi - 1) (yi - 1)
        if comp = 0 then merge_index_length_both idx cmpfn nx ny fuel (i + 1) (xi + 1) (yi + 1)
        else if comp < 0 then merge_index_length_both idx cmpfn nx ny fuel (i + 1) (xi + 1) yi
        else if comp > 0 then merge_index_length_both idx cmpfn nx ny fuel (i + 1) xi (yi + 1)
        else .error .invalid_comparison
    else .ok i

/-- The loop of the generic algorithm of `merge_index_length`. -/
def merge_index_length_generic {α : Type} (idx : xts_indices α)
    (cmpfn : xts_indices α → Nat → Nat → Int) (nx ny : Nat) (ljoin rjoin : Bool) :
    Nat → Nat → Nat → Nat → Except MergeError Nat
  | 0, i, xi, yi => if xi + yi ≤ nx + ny + 1 then .error .fuel else .ok i
  | fuel + 1, i, xi, yi =>
    if xi + yi ≤ nx + ny + 1 then
      if xi > nx then
        merge_index_length_generic idx cmpfn nx ny ljoin rjoin fuel
          (if rjoin then i + 1 else i) xi (yi + 1)
      else if yi > ny then
        merge_index_length_generic idx cmpfn nx ny ljoin rjoin fuel
          (if ljoin then i + 1 else i) (xi + 1) yi
      else
        let comp := cmpfn idx (xi - 1) (yi - 1)
        if comp = 0 then
          merge_index_length_generic idx cmpfn nx ny ljoin rjoin fuel (i + 1) (xi + 1) (yi + 1)
        else if comp < 0 then
          merge_index_length_generic idx cmpfn nx ny ljoin rjoin fuel
            (if ljoin then i + 1 else i) (xi + 1) yi
        else if comp > 0 then
          merge_index_length_generic idx cmpfn nx ny ljoin rjoin fuel
            (if rjoin then i + 1 else i) xi (yi + 1)
        else .error .invalid_comparison
    else .ok i

/-- Calculate merge result index length: `i = 0, xi = 1, yi = 1`,
`max_length = nx + ny + 1`, then the loop for `rjoin && ljoin` or the generic
one. Every iteration adds at least one to `xi + yi`, so `nx + ny + 1`
iterations are a bound. -/
def merge_index_length {α : Type} (idx : xts_indices α)
    (cmpfn : xts_indices α → Nat → Nat → Int) (nx ny : Nat) (ljoin rjoin : Bool) :
    Except MergeError Nat :=
  if rjoin && ljoin then
    merge_index_length_both idx cmpfn nx ny (nx + ny + 1) 0 1 1
  else
    merge_index_length_generic idx cmpfn nx ny ljoin rjoin (nx + ny + 1) 0 1 1

/-- One pass through the body of the loop of the generic algorithm of
`merge_index_length`: the variables `i`, `xi` and `yi` at the next test of
the loop guard. -/
def merge_index_length_generic_step {α : Type} (idx : xts_indices α)
    (cmpfn : xts_indices α → Nat → Nat → Int) (nx ny : Nat) (ljoin rjoin : Bool)
    (i xi yi : Nat) : Except MergeError (Nat × Nat × Nat) :=
  if xi > nx then .ok (if rjoin then i + 1 else i, xi, yi + 1)
  else if yi > ny then .ok (if ljoin then i + 1 else i, xi + 1, yi)
  else
    let comp := cmpfn idx (xi - 1) (yi - 1)
    if comp = 0 then .ok (i + 1, xi + 1, yi + 1)
    else if comp < 0 then .ok (if ljoin then i + 1 else i, xi + 1, yi)
    else if comp > 0 then .ok (if rjoin then i + 1 else i, xi, yi + 1)
    else .error .invalid_comparison

/-- The value of a C `int` expression whose exact value is `z`: `z` when it
is between `INT_MIN` and `INT_MAX`, else `z` wrapped around modulo `2^32`
(the overflow of a signed `int` is undefined in C; the usual
implementations wrap around, and a position `xi - 1` that is passed to the
comparison function is a position of a list, `0` when it is negative). -/
def wrap_int (z : Int) : Int :=
  (z + 2147483648) % 4294967296 - 2147483648

/-- The loop of `merge_index_length` that is taken when `rjoin && ljoin`, with
the arithmetic of C `int`s. -/
def merge_index_length_both_int {α : Type} (idx : xts_indices α)
    (cmpfn : xts_indices α → Nat → Nat → Int) (nx ny max_length : Int) :
    Nat → Int → Int → Int → Except MergeError Int
  | 0, i, xi, yi =>
    if wrap_int (xi + yi) ≤ max_length then
      if xi > nx then .ok (wrap_int (i + wrap_int (wrap_int (ny - yi) + 1)))
      else if yi > ny then .ok (wrap_int (i + wrap_int (wrap_int (nx - xi) + 1)))
      else .error .fuel
    else .ok i
  | fuel + 1, i, xi, yi =>
    if wrap_int (xi + yi) ≤ max_length then
      if xi > nx then .ok (wrap_int (i + wrap_int (wrap_int (ny - yi) + 1)))
      else if yi > ny then .ok (wrap_int (i + wrap_int (wrap_int (nx - xi) + 1)))
      else
        let comp := cmpfn idx (wrap_int (xi - 1)).toNat (wrap_int (yi - 1)).toNat
        if comp = 0 then
          merge_index_length_both_int idx cmpfn nx ny max_length fuel
            (wrap_int (i + 1)) (wrap_int (xi + 1)) (wrap_int (yi + 1))
        else if comp < 0 then
          merge_index_length_both_int idx cmpfn nx ny max_length fuel
            (wrap_int (i + 1)) (wrap_int (xi + 1)) yi
        else if comp > 0 then
          merge_index_length_both_int idx cmpfn nx ny max_length fuel
            (wrap_int (i + 1)) xi (wrap_int (yi + 1))
        else .error .invalid_comparison
    else .ok i

/-- The loop of the generic algorithm of `merge_index_length`, with the
arithmetic of C `int`s. -/
def merge_index_length_generic_int {α : Type} (idx : xts_indices α)
    (cmpfn : xts_indices α → Nat → Nat → Int) (nx ny max_length : Int) (ljoin rjoin : Bool) :
    Nat → Int → Int → Int → Except MergeError Int
  | 0, i, xi, yi => if wrap_int (xi + yi) ≤ max_length then .error .fuel else .ok i
  | fuel + 1, i, xi, yi =>
    if wrap_int (xi + yi) ≤ max_length then
      if xi > nx then
        merge_index_length_generic_int idx cmpfn nx ny max_length ljoin rjoin fuel
          (if rjoin then wrap_int (i + 1) else i) xi (wrap_int (yi + 1))
      else if yi > ny then
        merge_index_length_generic_int idx cmpfn nx ny max_length ljoin rjoin fuel
          (if ljoin then wrap_int (i + 1) else i) (wrap_int (xi + 1)) yi
      else
        let comp := cmpfn idx (wrap_int (xi - 1)).toNat (wrap_int (yi - 1)).toNat
        if comp = 0 then
          merge_index_length_generic_int idx cmpfn nx ny max_length ljoin rjoin fuel
            (wrap_int (i + 1)) (wrap_int (xi + 1)) (wrap_int (yi + 1))
        else if comp < 0 then
          merge_index_length_generic_int idx cmpfn nx ny max_length ljoin rjoin fuel
            (if ljoin then wrap_int (i + 1) else i) (wrap_int (xi + 1)) yi
        else if comp > 0 then
          merge_index_length_generic_int idx cmpfn nx ny max_length ljoin rjoin fuel
            (if rjoin then wrap_int (i + 1) else i) xi (wrap_int (yi + 1))
        else .error .invalid_comparison
    else .ok i

/-- Calculate merge result index length, with the arithmetic of C `int`s:
`int i = 0, xi = 1, yi = 1; int max_length = nx + ny + 1;`, then the loop for
`rjoin && ljoin` or the generic one. The bound on the number of passes is
the one of `merge_index_length`, `nx + ny + 1`: it is enough when
`nx + ny + 2 ≤ INT_MAX`, where no `int` overflows, and when
`INT_MAX ≤ nx + ny`, where the guard fails before the first pass. -/
def merge_index_length_int {α : Type} (idx : xts_indices α)
    (cmpfn : xts_indices α → Nat → Nat → Int) (nx ny : Int) (ljoin rjoin : Bool) :
    Except MergeError Int :=
  let max_length := wrap_int (wrap_int (nx + ny) + 1)
  if rjoin && ljoin then
    merge_index_length_both_int idx cmpfn nx ny max_length (nx + ny + 1).toNat 0 1 1
  else
    merge_index_length_generic_int idx cmpfn nx ny max_length ljoin rjoin
      (nx + ny + 1).toNat 0 1 1

/-- One pass through the body of the loop of the generic algorithm of
`merge_index_length`, with the arithmetic of C `int`s: the variables `i`,
`xi` and `yi` at the next test of the loop guard. -/
def merge_index_length_generic_int_step {α : Type} (idx : xts_indices α)
    (cmpfn : xts_indices α → Nat → Nat → Int) (nx ny : Int) (ljoin rjoin : Bool)
    (i xi yi : Int) : Except MergeError (Int × Int × Int) :=
  if xi > nx then .ok (if rjoin then wrap_int (i + 1) else i, xi, wrap_int (yi + 1))
  else if yi > ny then .ok (if ljoin then wrap_int (i + 1) else i, wrap_int (xi + 1), yi)
  else
    let comp := cmpfn idx (wrap_int (xi - 1)).toNat (wrap_int (yi - 1)).toNat
    if comp = 0 then .ok (wrap_int (i + 1), wrap_int (xi + 1), wrap_int (yi + 1))
    else if comp < 0 then .ok (if ljoin then wrap_int (i + 1) else i, wrap_int (xi + 1), yi)
    else if comp > 0 then .ok (if rjoin then wrap_int (i + 1) else i, xi, wrap_int (yi + 1))
    else .error .invalid_comparison

/-! ## R vectors -/

/-- The type tags of R values that the merge tells apart (`TYPEOF`). -/
inductive SEXPTYPE
  | NILSXP | LGLSXP | INTSXP | REALSXP | CPLXSXP | STRSXP | VECSXP | RAWSXP
  deriving DecidableEq, Repr

/-- An R vector with the attributes that the merge reads and writes: its type
tag, its cells (a matrix is stored column after column), the `dim` attribute
and the xts `index` attribute (an integer index). R's `NULL` is `none` of
`Option (SEXP β)`. -/
structure SEXP (β : Type) where
  type : SEXPTYPE
  data : List β
  dim : Option (Nat × Nat)
  index : List Int
  deriving DecidableEq, Repr

/-- What the merge takes from the R runtime: the conversion of one cell that
`coerceVector` does between two types, the logical `NA`, and the content of a
cell of a vector that `allocVector` has just allocated. -/
structure RApi (β : Type) where
  coerce : SEXPTYPE → SEXPTYPE → β → β
  na_logical : β
  uninit : β

/-- `NA_INTEGER`, which is `INT_MIN`. -/
def NA_INTEGER : Int := -2147483648

/-- `LENGTH(x)`. -/
def LENGTH {β : Type} (x : SEXP β) : Nat := x.data.length

/-- R's `nrows`: the first extent of a matrix, the length of a plain vector. -/
def nrows {β : Type} (x : SEXP β) : Nat :=
  match x.dim with
  | some d => d.1
  | none => x.data.length

/-- R's `ncols`: the second extent of a matrix, `1` for a plain vector. -/
def ncols {β : Type} (x : SEXP β) : Nat :=
  match x.dim with
  | some d => d.2
  | none => 1

/-- R's `coerceVector`: the same vector when the type is the one asked for,
else a vector of the new type with every cell converted; attributes are kept.
The conversion of a cell is taken to succeed: the error with which R stops
when a cell of a list that is not a single value is converted is not part of
the embedding. -/
def coerceVector {β : Type} (R : RApi β) (x : SEXP β) (t : SEXPTYPE) : SEXP β :=
  if x.type = t then x else { x with type := t, data := x.data.map (R.coerce x.type t) }

/-- `ScalarLogical(NA_LOGICAL)`. -/
def ScalarLogicalNA {β : Type} (R : RApi β) : SEXP β :=
  { type := .LGLSXP, data := [R.na_logical], dim := none, index := [] }

/-! ## Set merge result methods -/

/-- `REAL(_result)[iresult] = REAL(_x)[ix]`. -/
def set_result_dbl {β : Type} (R : RApi β) (result x : List β) (iresult ix : Nat) : List β :=
  result.set iresult (x.getD ix R.uninit)

/-- `INTEGER(_result)[iresult] = INTEGER(_x)[ix]`. -/
def set_result_int {β : Type} (R : RApi β) (result x : List β) (iresult ix : Nat) : List β :=
  result.set iresult (x.getD ix R.uninit)

/-- `LOGICAL(_result)[iresult] = LOGICAL(_x)[ix]`. -/
def set_result_lgl {β : Type} (R : RApi β) (result x : List β) (iresult ix : Nat) : List β :=
  result.set iresult (x.getD ix R.uninit)

/-- `COMPLEX(_result)[iresult] = COMPLEX(_x)[ix]`. -/
def set_result_cplx {β : Type} (R : RApi β) (result x : List β) (iresult ix : Nat) : List β :=
  result.set iresult (x.getD ix R.uninit)

/-- `SET_STRING_ELT(_result, iresult, STRING_ELT(_x, ix))`. -/
def set_result_str {β : Type} (R : RApi β) (result x : List β) (iresult ix : Nat) : List β :=
  result.set iresult (x.getD ix R.uninit)

/-! ## The fill pass of `do_merge_xts` -/

/-- The variables that the loop `for(i = 0; i < num_rows; i++)` of
`do_merge_xts` changes: the slot `i` (its value at the loop guard), the
positions `xp` and `yp`, the indices and the cells of the result. -/
structure merge_state (α β : Type) where
  i : Nat
  xp : Nat
  yp : Nat
  idx : xts_indices α
  result : List β

/-- The constants of the fill loop of `do_merge_xts`. -/
structure merge_env (α β : Type) where
  compare_indexes : xts_indices α → Nat → Nat → Int
  set_index_from_x : xts_indices α → Nat → Nat → xts_indices α
  set_index_from_y : xts_indices α → Nat → Nat → xts_indices α
  set_result : List β → List β → Nat → Nat → List β
  x : List β
  y : List β
  fill : List β
  nrx : Nat
  ncx : Nat
  nry : Nat
  ncy : Nat
  left_join : Bool
  right_join : Bool
  num_rows : Nat

/-- `for(j = 0; j < ncx; j++) set_result(result, fill, i + j * num_rows, 0)`. -/
def fill_x_values {α β : Type} (e : merge_env α β) (i : Nat) (result : List β) : List β :=
  (List.range e.ncx).foldl (fun res j => e.set_result res e.fill (i + j * e.num_rows) 0) result

/-- `for(j = 0; j < ncx; j++)
set_result(result, x, i + j * num_rows, (xp-1) + j * nrx)`. -/
def copy_x_values {α β : Type} (e : merge_env α β) (i xp : Nat) (result : List β) : List β :=
  (List.range e.ncx).foldl
    (fun res j => e.set_result res e.x (i + j * e.num_rows) ((xp - 1) + j * e.nrx)) result

/-- `for(j = 0; j < ncy; j++)
set_result(result, fill, i + (j+ncx) * num_rows, 0)`. -/
def fill_y_values {α β : Type} (e : merge_env α β) (i : Nat) (result : List β) : List β :=
  (List.range e.ncy).foldl
    (fun res j => e.set_result res e.fill (i + (j + e.ncx) * e.num_rows) 0) result

/-- `for(j = 0; j < ncy; j++)
set_result(result, y, i + (j+ncx) * num_rows, (yp-1) + j * nry)`. -/
def copy_y_values {α β : Type} (e : merge_env α β) (i yp : Nat) (result : List β) : List β :=
  (List.range e.ncy).foldl
    (fun res j => e.set_result res e.y (i + (j + e.ncx) * e.num_rows) ((yp - 1) + j * e.nry))
    result

/-- The row written from a row of y alone: the index from y, the fill value in
the columns of x, the cells of y. -/
def write_y_row {α β : Type} (e : merge_env α β) (s : merge_state α β) : merge_state α β :=
  { s with idx := e.set_index_from_y s.idx s.i (s.yp - 1)
           result := copy_y_values e s.i s.yp (fill_x_values e s.i s.result) }

/-- The row written from a row of x alone: the index from x, the cells of x,
the fill value in the columns of y. -/
def write_x_row {α β : Type} (e : merge_env α β) (s : merge_state α β) : merge_state α β :=
  { s with idx := e.set_index_from_x s.idx s.i (s.xp - 1)
           result := fill_y_values e s.i (copy_x_values e s.i s.xp s.result) }

/-- The row written for matching index values: the index from x, the cells of
x, the cells of y. -/
def write_xy_row {α β : Type} (e : merge_env α β) (s : merge_state α β) : merge_state α β :=
  { s with idx := e.set_index_from_x s.idx s.i (s.xp - 1)
           result := copy_y_values e s.i s.yp (copy_x_values e s.i s.xp s.result) }

/-- One pass through the body of the fill loop, with the `i++` of the `for`
that follows it. Where the body ends in `i--` (a row that is not part of the
result) the two cancel and the slot is kept. -/
def merge_loop_body {α β : Type} (e : merge_env α β) (s : merge_state α β) :
    Except MergeError (merge_state α β) :=
  if s.xp > e.nrx then
    let s1 := if e.right_join then write_y_row e s else s
    .ok { s1 with yp := s.yp + 1, i := if e.right_join then s.i + 1 else s.i }
  else if s.yp > e.nry then
    let s1 := if e.left_join then write_x_row e s else s
    .ok { s1 with xp := s.xp + 1, i := if e.left_join then s.i + 1 else s.i }
  else
    let comp := e.compare_indexes s.idx (s.xp - 1) (s.yp - 1)
    if comp = 0 then
      .ok { write_xy_row e s with xp := s.xp + 1, yp := s.yp + 1, i := s.i + 1 }
    else if comp < 0 then
      let s1 := if e.left_join then write_x_row e s else s
      .ok { s1 with xp := s.xp + 1, i := if e.left_join then s.i + 1 else s.i }
    else if comp > 0 then
      let s1 := if e.right_join then write_y_row e s else s
      .ok { s1 with yp := s.yp + 1, i := if e.right_join then s.i + 1 else s.i }
    else .error .invalid_comparison

/-- The loop `for(i = 0; i < num_rows; i++)` of `do_merge_xts`, from the state
`s` on. -/
def merge_loop {α β : Type} (e : merge_env α β) :
    Nat → merge_state α β → Except MergeError (merge_state α β)
  | 0, s => if s.i < e.num_rows then .error .fuel else .ok s
  | fuel + 1, s =>
    if s.i < e.num_rows then
      match merge_loop_body e s with
      | .ok s1 => merge_loop e fuel s1
      | .error err => .error err
    else .ok s

/-- An access of the fill loop of `do_merge_xts` to a row: a read of the
index of x and of the cells of x at row `p` (`idx->x.i[p]`,
`x[p + j * nrx]`), the same for y, or a store to the index and to the cells
of the result at row `i` (`idx->r.i[i]`, `result[i + j * num_rows]`). -/
inductive Access
  | x_row (p : Int)
  | y_row (p : Int)
  | result_row (i : Int)
  deriving DecidableEq, Repr

/-- The rows that one pass through the body of the fill loop reads and
writes in the state `s`: the comparison reads the rows `xp-1` of x and
`yp-1` of y, and a row that is part of the result reads its row of x or of y
or both and writes the row `i` of the result. -/
def merge_loop_body_accesses {α β : Type} (e : merge_env α β) (s : merge_state α β) :
    List Access :=
  if s.xp > e.nrx then
    if e.right_join then [.y_row ((s.yp : Int) - 1), .result_row s.i] else []
  else if s.yp > e.nry then
    if e.left_join then [.x_row ((s.xp : Int) - 1), .result_row s.i] else []
  else
    let comp := e.compare_indexes s.idx (s.xp - 1) (s.yp - 1)
    [Access.x_row ((s.xp : Int) - 1), Access.y_row ((s.yp : Int) - 1)] ++
    (if comp = 0 then
      [.x_row ((s.xp : Int) - 1), .result_row s.i, .y_row ((s.yp : Int) - 1)]
    else if comp < 0 then
      if e.left_join then [.x_row ((s.xp : Int) - 1), .result_row s.i] else []
    else if comp > 0 then
      if e.right_join then [.y_row ((s.yp : Int) - 1), .result_row s.i] else []
    else [])

/-- The rows that the fill loop of `do_merge_xts` reads and writes from the
state `s` on, in the order of the passes. -/
def merge_loop_accesses {α β : Type} (e : merge_env α β) :
    Nat → merge_state α β → Except MergeError (List Access)
  | 0, s => if s.i < e.num_rows then .error .fuel else .ok []
  | fuel + 1, s =>
    if s.i < e.num_rows then
      match merge_loop_body e s with
      | .ok s1 =>
        match merge_loop_accesses e fuel s1 with
        | .ok acc => .ok (merge_loop_body_accesses e s ++ acc)
        | .error err => .error err
      | .error err => .error err
    else .ok []

/-- An access is inside of the vectors: a row of x is one of the `nrx` rows,
a row of y one of the `nry` rows and a row of the result one of the
`num_rows` rows. -/
def Access.in_bounds (nrx nry num_rows : Nat) : Access → Prop
  | .x_row p => 0 ≤ p ∧ p < nrx
  | .y_row p => 0 ≤ p ∧ p < nry
  | .result_row i => 0 ≤ i ∧ i < num_rows

/-- The constants of the fill loop for an integer index (`case INTSXP` of the
switch on the type of the index). -/
def merge_env_int {β : Type} (set_result : List β → List β → Nat → Nat → List β)
    (x y fill : List β) (nrx ncx nry ncy : Nat) (left_join right_join : Bool)
    (num_rows : Nat) : merge_env Int β :=
  { compare_indexes := compare_indexes_int
    set_index_from_x := set_index_from_x_int
    set_index_from_y := set_index_from_y_int
    set_result := set_result
    x := x, y := y, fill := fill
    nrx := nrx, ncx := ncx, nry := nry, ncy := ncy
    left_join := left_join, right_join := right_join
    num_rows := num_rows }

/-- The state in which the fill loop is entered: `i = 0`, `xp = 1; yp = 1`,
`index = allocVector(TYPEOF(xindex), num_rows)` and
`result = allocVector(TYPEOF(x), (ncx + ncy) * num_rows)`. -/
def merge_init {β : Type} (R : RApi β) (xindex yindex : List Int) (ncx ncy num_rows : Nat) :
    merge_state Int β :=
  { i := 0, xp := 1, yp := 1
    idx := { r := List.replicate num_rows 0, x := xindex, y := yindex }
    result := List.replicate ((ncx + ncy) * num_rows) R.uninit }

/-- The switch of `do_merge_xts` on the type of the cells, which picks the
function that stores a cell. -/
def set_result_of {β : Type} (R : RApi β) :
    SEXPTYPE → Except MergeError (List β → List β → Nat → Nat → List β)
  | .LGLSXP => .ok (set_result_lgl R)
  | .INTSXP => .ok (set_result_int R)
  | .REALSXP => .ok (set_result_dbl R)
  | .CPLXSXP => .ok (set_result_cplx R)
  | .STRSXP => .ok (set_result_str R)
  | _ => .error .unsupported_type

/-- The check of the integer index before the loops,
`xi.i[nrx-1] == NA_INTEGER || yi.i[nry-1] == NA_INTEGER`. With `nrx = 0` the
left operand reads `xi.i[-1]`, outside of the vector; the right operand is
evaluated when the left one is false. -/
def check_index_int (xindex yindex : List Int) (nrx nry : Nat) : Except MergeError Unit :=
  if nrx = 0 then .error .out_of_bounds
  else
    match xindex[nrx - 1]? with
    | none => .error .out_of_bounds
    | some vx =>
      if vx = NA_INTEGER then .error .invalid_index
      else if nry = 0 then .error .out_of_bounds
      else
        match yindex[nry - 1]? with
        | none => .error .out_of_bounds
        | some vy => if vy = NA_INTEGER then .error .invalid_index else .ok ()

/-- A value of a double index: a finite number, an infinity, or a value that
is not a number (`NaN`; R's `NA_real_` is one of these values). -/
inductive RDouble
  | finite (q : ℚ)
  | pos_inf
  | neg_inf
  | nan
  deriving DecidableEq

/-- R's `R_FINITE`: true for a finite number, false for `NA`, `NaN`, `Inf` and
`-Inf`. -/
def R_FINITE : RDouble → Bool
  | .finite _ => true
  | _ => false

/-- The check of the double index before the loops,
`!R_FINITE(xd.d[0]) || !R_FINITE(xd.d[nrx-1]) || !R_FINITE(yd.d[0]) ||
!R_FINITE(yd.d[nry-1])`: an operand of `||` is evaluated when the operands
before it are false. A read at a position that the index does not have is
outside of the vector. -/
def check_index_double (xindex yindex : List RDouble) (nrx nry : Nat) :
    Except MergeError Unit :=
  match xindex[0]? with
  | none => .error .out_of_bounds
  | some x0 =>
    if !R_FINITE x0 then .error .invalid_index
    else if nrx = 0 then .error .out_of_bounds
    else
      match xindex[nrx - 1]? with
      | none => .error .out_of_bounds
      | some x1 =>
        if !R_FINITE x1 then .error .invalid_index
        else
          match yindex[0]? with
          | none => .error .out_of_bounds
          | some y0 =>
            if !R_FINITE y0 then .error .invalid_index
            else if nry = 0 then .error .out_of_bounds
            else
              match yindex[nry - 1]? with
              | none => .error .out_of_bounds
              | some y1 => if !R_FINITE y1 then .error .invalid_index else .ok ()

/-- The operands of `do_merge_xts` after the test for zero-width objects: the
numbers of rows and of columns that the merge uses, and the two objects. -/
structure merge_operands (β : Type) where
  nrx : Nat
  ncx : Nat
  nry : Nat
  ncy : Nat
  x : SEXP β
  y : SEXP β

/-- The test `LENGTH(x)==0 || INTEGER(retside)[0]==0` of `do_merge_xts` for an
object that is zero-width. -/
def zero_width {β : Type} (x : SEXP β) (side : Bool) : Bool :=
  LENGTH x = 0 || !side

/-- The part of `do_merge_xts` that sets `nrx`, `ncx`, `nry` and `ncy`:
`nrows` and `ncols` of the object, but `nrows` of its index and `0` when the
object is zero-width, in which case it is coerced to the type of the other
object. -/
def zero_width_operands {β : Type} (R : RApi β) (x y : SEXP β) (retside : Bool × Bool) :
    merge_operands β :=
  let nrx := if zero_width x retside.1 then x.index.length else nrows x
  let ncx := if zero_width x retside.1 then 0 else ncols x
  let x1 := if zero_width x retside.1 then coerceVector R x y.type else x
  let nry := if zero_width y retside.2 then y.index.length else nrows y
  let ncy := if zero_width y retside.2 then 0 else ncols y
  let y1 := if zero_width y retside.2 then coerceVector R y x1.type else y
  { nrx := nrx, ncx := ncx, nry := nry, ncy := ncy, x := x1, y := y1 }

/-- The part of `do_merge_xts` under "If objects are not the same type,
convert to REALSXP", for the operand `z` of the two operands `x` and `y`. -/
def coerce_operand {β : Type} (R : RApi β) (coerce : Bool) (x y z : SEXP β) : SEXP β :=
  if coerce || x.type ≠ y.type then coerceVector R z .REALSXP else z

/-- The part of `do_merge_xts` under "Ensure fill is the correct length and
type": a logical `NA` for an empty `fill`, coerced to the type `t` of the
result. -/
def ensure_fill {β : Type} (R : RApi β) (fill : SEXP β) (t : SEXPTYPE) : SEXP β :=
  let fill := if fill.data.length < 1 then ScalarLogicalNA R else fill
  if fill.type ≠ t then coerceVector R fill t else fill

/-- The part of `do_merge_xts` that sets the `dim` attribute of the result of
`num_rows` rows: none for a dimensionless object when only its side is
returned, else `num_rows` and `ncx + ncy`. -/
def result_dim {β : Type} (retside : Bool × Bool) (x y : SEXP β) (num_rows ncx ncy : Nat) :
    Option (Nat × Nat) :=
  if retside.1 && !retside.2 && x.dim.isNone then none
  else if retside.2 && !retside.1 && y.dim.isNone then none
  else some (num_rows, ncx + ncy)

/-- The merge of two xts objects with an integer index along their common
index, `do_merge_xts` where the switch on the type of the index takes
`case INTSXP` (`do_merge_xts_double` is the function for `case REALSXP`).
`all` holds `left_join` and `right_join`, `retside`
says which sides keep their columns. An operand that is not `NULL` is an xts
object (the conversion of another value by `try.xts` is done in R); the names
of the columns and the attributes of the class, the time zone and the format
are not part of the embedding. -/
def do_merge_xts {β : Type} (R : RApi β) (x y : Option (SEXP β)) (all : Bool × Bool)
    (fill : SEXP β) (retside : Bool × Bool) (coerce : Bool) :
    Except MergeError (Option (SEXP β)) :=
  match x, y with
  | none, y => .ok y
  | some x, none => .ok (some x)
  | some x, some y =>
    let xindex := x.index
    let yindex := y.index
    let o := zero_width_operands R x y retside
    let left_join := all.1
    let right_join := all.2
    match check_index_int xindex yindex o.nrx o.nry with
    | .error err => .error err
    | .ok _ =>
      -- determine num_rows of final merged xts object
      match merge_index_length { r := [], x := xindex, y := yindex } compare_indexes_int
          o.nrx o.nry left_join right_join with
      | .error err => .error err
      | .ok i =>
        if i = 0 then
          -- if no rows match, return an empty xts object
          .ok (some { type := o.x.type, data := [], dim := none, index := [] })
        else
          let num_rows := i
          let cx := coerce_operand R coerce o.x o.y o.x
          let cy := coerce_operand R coerce o.x o.y o.y
          let fill := ensure_fill R fill cx.type
          match set_result_of R cx.type with
          | .error err => .error err
          | .ok set_result =>
            match merge_loop
                (merge_env_int set_result cx.data cy.data fill.data o.nrx o.ncx o.nry o.ncy
                  left_join right_join num_rows)
                (o.nrx + o.nry) (merge_init R xindex yindex o.ncx o.ncy num_rows) with
            | .error err => .error err
            | .ok s =>
              .ok (some { type := cx.type, data := s.result
                          dim := result_dim retside cx cy num_rows o.ncx o.ncy
                          index := s.idx.r })

/-! ## The merge for a double index -/

/-- The comparison `a > b` of two doubles in C: false when one of them is not
a number. -/
def RDouble.gt : RDouble → RDouble → Bool
  | .finite a, .finite b => decide (a > b)
  | .pos_inf, .finite _ => true
  | .pos_inf, .neg_inf => true
  | .finite _, .neg_inf => true
  | _, _ => false

/-- The comparison `a < b` of two doubles in C. -/
def RDouble.lt (a b : RDouble) : Bool := RDouble.gt b a

/-- `idx->r.d[rp] = idx->x.d[xp]`. -/
def set_index_from_x_double (idx : xts_indices RDouble) (rp xp : Nat) : xts_indices RDouble :=
  { idx with r := idx.r.set rp (idx.x.getD xp (.finite 0)) }

/-- `idx->r.d[rp] = idx->y.d[yp]`. -/
def set_index_from_y_double (idx : xts_indices RDouble) (rp yp : Nat) : xts_indices RDouble :=
  { idx with r := idx.r.set rp (idx.y.getD yp (.finite 0)) }

/-- Compare the indices for x and y (double index): `1` when
`x[xp] > y[yp]`, `-1` when `x[xp] < y[yp]`, else `0`; a value that is not a
number is neither greater nor less than any value. -/
def compare_indexes_double (idx : xts_indices RDouble) (xp yp : Nat) : Int :=
  if RDouble.gt (idx.x.getD xp (.finite 0)) (idx.y.getD yp (.finite 0)) then 1
  else if RDouble.lt (idx.x.getD xp (.finite 0)) (idx.y.getD yp (.finite 0)) then -1
  else 0

/-- The constants of the fill loop for a double index (`case REALSXP` of the
switch on the type of the index). -/
def merge_env_double {β : Type} (set_result : List β → List β → Nat → Nat → List β)
    (x y fill : List β) (nrx ncx nry ncy : Nat) (left_join right_join : Bool)
    (num_rows : Nat) : merge_env RDouble β :=
  { compare_indexes := compare_indexes_double
    set_index_from_x := set_index_from_x_double
    set_index_from_y := set_index_from_y_double
    set_result := set_result
    x := x, y := y, fill := fill
    nrx := nrx, ncx := ncx, nry := nry, ncy := ncy
    left_join := left_join, right_join := right_join
    num_rows := num_rows }

/-- The state in which the fill loop is entered for a double index. -/
def merge_init_double {β : Type} (R : RApi β) (xindex yindex : List RDouble)
    (ncx ncy num_rows : Nat) : merge_state RDouble β :=
  { i := 0, xp := 1, yp := 1
    idx := { r := List.replicate num_rows (.finite 0), x := xindex, y := yindex }
    result := List.replicate ((ncx + ncy) * num_rows) R.uninit }

/-- An xts object whose index is of the double kind: the type tag, the cells,
the `dim` attribute and the `index` attribute. -/
structure SEXP_double (β : Type) where
  type : SEXPTYPE
  data : List β
  dim : Option (Nat × Nat)
  index : List RDouble
  deriving DecidableEq

/-- The vector of an object with a double index, with its `dim` attribute and
without its index. -/
def SEXP_double.vector {β : Type} (x : SEXP_double β) : SEXP β :=
  { type := x.type, data := x.data, dim := x.dim, index := [] }

/-- The part of `do_merge_xts` that sets `nrx`, `ncx`, `nry` and `ncy`, for
objects with a double index: `nrows` and `ncols` of the object, but `nrows`
of its index and `0` when the object is zero-width, in which case it is
coerced to the type of the other object. -/
def zero_width_operands_double {β : Type} (R : RApi β) (x y : SEXP_double β)
    (retside : Bool × Bool) : merge_operands β :=
  let nrx := if zero_width x.vector retside.1 then x.index.length else nrows x.vector
  let ncx := if zero_width x.vector retside.1 then 0 else ncols x.vector
  let x1 := if zero_width x.vector retside.1 then coerceVector R x.vector y.type else x.vector
  let nry := if zero_width y.vector retside.2 then y.index.length else nrows y.vector
  let ncy := if zero_width y.vector retside.2 then 0 else ncols y.vector
  let y1 := if zero_width y.vector retside.2 then coerceVector R y.vector x1.type else y.vector
  { nrx := nrx, ncx := ncx, nry := nry, ncy := ncy, x := x1, y := y1 }

/-- The merge of two xts objects with a double index along their common
index: `do_merge_xts` where the switch on the type of the index takes
`case REALSXP`. The statements are those of `do_merge_xts` for the integer
index, with the check of the index, the comparison and the stores to the
index of the double kind. Two objects whose indices are of different types,
which the source coerces to double before the switch, are not part of the
embedding. -/
def do_merge_xts_double {β : Type} (R : RApi β) (x y : Option (SEXP_double β))
    (all : Bool × Bool) (fill : SEXP β) (retside : Bool × Bool) (coerce : Bool) :
    Except MergeError (Option (SEXP_double β)) :=
  match x, y with
  | none, y => .ok y
  | some x, none => .ok (some x)
  | some x, some y =>
    let xindex := x.index
    let yindex := y.index
    let o := zero_width_operands_double R x y retside
    let left_join := all.1
    let right_join := all.2
    match check_index_double xindex yindex o.nrx o.nry with
    | .error err => .error err
    | .ok _ =>
      -- determine num_rows of final merged xts object
      match merge_index_length { r := [], x := xindex, y := yindex } compare_indexes_double
          o.nrx o.nry left_join right_join with
      | .error err => .error err
      | .ok i =>
        if i = 0 then
          -- if no rows match, return an empty xts object
          .ok (some { type := o.x.type, data := [], dim := none, index := [] })
        else
          let num_rows := i
          let cx := coerce_operand R coerce o.x o.y o.x
          let cy := coerce_operand R coerce o.x o.y o.y
          let fill := ensure_fill R fill cx.type
          match set_result_of R cx.type with
          | .error err => .error err
          | .ok set_result =>
            match merge_loop
                (merge_env_double set_result cx.data cy.data fill.data o.nrx o.ncx o.nry o.ncy
                  left_join right_join num_rows)
                (o.nrx + o.nry) (merge_init_double R xindex yindex o.ncx o.ncy num_rows) with
            | .error err => .error err
            | .ok s =>
              .ok (some { type := cx.type, data := s.result
                          dim := result_dim retside cx cy num_rows o.ncx o.ncy
                          index := s.idx.r })

/-! ## The n-way merge -/

/-- `TYPEOF` of a value that may be `NULL`. -/
def TYPEOF {β : Type} : Option (SEXP β) → SEXPTYPE
  | none => .NILSXP
  | some x => x.type

/-- R's `length` of a value that may be `NULL`. -/
def length {β : Type} : Option (SEXP β) → Nat
  | none => 0
  | some x => x.data.length

/-- The first loop of `mergeXts` over the objects: the sum `ncs` of the
numbers of columns of the objects that have cells, and `coerce_to_double`,
which is set when such an object has another type than the first object. -/
def mergeXts_scan {β : Type} (type_of : SEXPTYPE) :
    List (Option (SEXP β)) → Nat → Bool → Nat × Bool
  | [], ncs, coerce_to_double => (ncs, coerce_to_double)
  | none :: args, ncs, coerce_to_double => mergeXts_scan type_of args ncs coerce_to_double
  | some a :: args, ncs, coerce_to_double =>
    if a.data.length > 0 then
      mergeXts_scan type_of args (ncs + ncols a)
        (if a.type ≠ type_of then true else coerce_to_double)
    else mergeXts_scan type_of args ncs coerce_to_double

/-- The loop `while( !isXts(_x) )` of `mergeXts`: the first xts object, the
objects after it and `leading_non_xts`. A value is an xts object when it is
not `NULL`. -/
def mergeXts_skip {β : Type} :
    Option (SEXP β) → List (Option (SEXP β)) → Bool →
      Except MergeError (SEXP β × List (Option (SEXP β)) × Bool)
  | some x, args, leading_non_xts => .ok (x, args, leading_non_xts)
  | none, [], _ => .error .no_xts_object
  | none, a :: args, _ => mergeXts_skip a args true

/-- The loop of `mergeXts` that merges all objects into one zero-width
common index. -/
def mergeXts_index {β : Type} (R : RApi β) (all : Bool × Bool) (fill : SEXP β)
    (coerce_to_double : Bool) :
    Option (SEXP β) → List (Option (SEXP β)) → Except MergeError (Option (SEXP β))
  | _INDEX, [] => .ok _INDEX
  | _INDEX, none :: args => mergeXts_index R all fill coerce_to_double _INDEX args
  | _INDEX, some a :: args =>
    match do_merge_xts R _INDEX (some a) all fill (false, false) coerce_to_double with
    | .error err => .error err
    | .ok _INDEX1 => mergeXts_index R all fill coerce_to_double _INDEX1 args

/-- The two loops of `mergeXts` that insert the merged data of one object into
the result object: `result[ii + (i+jj) * nr] = xtmp[ii + jj * nr]` for
`jj < nc` and `ii < nr`. -/
def mergeXts_insert {β : Type} (R : RApi β) (xtmp : List β) (nr nc i : Nat) (result : List β) :
    List β :=
  (List.range nc).foldl
    (fun res jj =>
      (List.range nr).foldl
        (fun res ii => res.set (ii + (i + jj) * nr) (xtmp.getD (ii + jj * nr) R.uninit)) res)
    result

/-- The loop of `mergeXts` that merges each object with the index and copies
its columns to the result: the final `ncs` and the cells of the result.
`int_result` and `real_result` say which of the two pointers to the result is
set. A `NULL` object is skipped and keeps `i` (`i = i-nc; continue;`, then
`i = i+nc`). -/
def mergeXts_each {β : Type} (R : RApi β) (all : Bool × Bool) (fill : SEXP β)
    (retside : Bool × Bool) (coerce_to_double : Bool) (_INDEX : Option (SEXP β))
    (int_result real_result : Bool) :
    List (Option (SEXP β)) → Nat → Nat → List β → Except MergeError (Nat × List β)
  | [], _, ncs, result => .ok (ncs, result)
  | none :: args, i, ncs, result =>
    mergeXts_each R all fill retside coerce_to_double _INDEX int_result real_result
      args i ncs result
  | some a :: args, i, ncs, result =>
    match do_merge_xts R _INDEX (some a) all fill retside coerce_to_double with
    | .error err => .error err
    | .ok none => .error .not_a_matrix
    | .ok (some xtmp) =>
      let nr := nrows xtmp
      let nc := if 0 = nr then 0 else ncols xtmp
      let stored := 0 < nc ∧ 0 < nr
      let copied : Except MergeError (List β) :=
        match xtmp.type with
        | .LGLSXP | .INTSXP =>
          if stored ∧ int_result = false then .error .null_pointer
          else .ok (mergeXts_insert R xtmp.data nr nc i result)
        | .REALSXP =>
          if stored ∧ real_result = false then .error .null_pointer
          else .ok (mergeXts_insert R xtmp.data nr nc i result)
        | _ => .ok result
      match copied with
      | .error err => .error err
      | .ok result1 =>
        mergeXts_each R all fill retside coerce_to_double _INDEX int_result real_result
          args (i + nc) (ncs + nc) result1

/-- The n-way merge `mergeXts` of the objects `args` (the `...` of the call).
The names of the columns and the attributes of the time zone are not part
of the embedding. -/
def mergeXts {β : Type} (R : RApi β) (all : Bool × Bool) (fill : SEXP β)
    (retside : Bool × Bool) (args : List (Option (SEXP β))) :
    Except MergeError (Option (SEXP β)) :=
  let argstart := args
  let n := args.length
  let type_of := TYPEOF (args.headD none)
  let scan := mergeXts_scan type_of args 0 false
  let ncs := scan.1
  let coerce_to_double := scan.2
  -- build an index to be used in all subsequent calls
  match mergeXts_skip (args.headD none) args.tail false with
  | .error err => .error err
  | .ok (_x, args, leading_non_xts) =>
    if !leading_non_xts && (decide (n < 3) &&
        (args.isEmpty || ((args.headD none).isNone && args.length = 1))) then
      -- no y arg or y==NULL
      .ok (some _x)
    else
      let _y : Option (SEXP β) := if args.isEmpty then some _x else args.headD none
      let args := args.tail
      if decide (n > 2) || leading_non_xts then
        let _y : Option (SEXP β) := if _y.isNone then some _x else _y
        match do_merge_xts R (some _x) _y all fill (false, false) coerce_to_double with
        | .error err => .error err
        | .ok _INDEX0 =>
          -- merge all objects into one zero-width common index
          match mergeXts_index R all fill coerce_to_double _INDEX0 args with
          | .error err => .error err
          | .ok _INDEX =>
            let index := match _INDEX with
              | none => []
              | some v => v.index
            let index_len := index.length
            let result := List.replicate (index_len * ncs) R.uninit
            match (match TYPEOF _INDEX with
                | .LGLSXP | .INTSXP => Except.ok (true, false)
                | .REALSXP => Except.ok (false, true)
                | _ => Except.error MergeError.unsupported_type) with
            | .error err => .error err
            | .ok (int_result, real_result) =>
              -- merge each object with index
              match mergeXts_each R all fill retside coerce_to_double _INDEX
                  int_result real_result argstart 0 0 result with
              | .error err => .error err
              | .ok (ncs, result) =>
                .ok (some { type := TYPEOF _INDEX, data := result
                            dim := if ncs > 0 then some (index_len, ncs) else none
                            index := index })
      else
        -- 2-case optimization --- simply call main routine
        do_merge_xts R (some _x) _y all fill retside coerce_to_double

/-- The cell in row `row` and column `col` of a matrix of `nr` rows that is
stored column after column. -/
def cell {β : Type} (R : RApi β) (data : List β) (nr row col : Nat) : β :=
  data.getD (row + col * nr) R.uninit

/-! ## The join walker of the specification -/

/-- The two inclusion flags of a join. -/
structure JoinSpec where
  includeLeftOnly : Bool
  includeRightOnly : Bool
  deriving DecidableEq, Repr

/-- The kind of a conceptual output row. -/
inductive SourceKind
  | LeftOnly | RightOnly | Matched
  deriving DecidableEq, Repr

/-- An emitted row: its kind and the positions (from 0) in the left and in the
right index it comes from. The output slot of a row is its place in the list
of the emitted rows. -/
structure JoinRow where
  kind : SourceKind
  leftPos : Option Nat
  rightPos : Option Nat
  deriving DecidableEq, Repr

/-- The comparator of the specification (section 4.1): `>`, `<`, else equal. -/
def IndexComparator (a b : Int) : Ordering :=
  if a > b then .gt else if a < b then .lt else .eq

/-- The rows that a step emits: the row when its kind is included in the
join, else none. -/
def JoinWalker.emit (included : Bool) (row : JoinRow) : List JoinRow :=
  if included then [row] else []

/-- The traversal of section 4.2 of the specification from the cursors `xp`
and `yp` on: the rows that are emitted, in the order of the traversal. Every
step moves a cursor forward, so the number of the elements not yet passed
bounds the number of steps. -/
def JoinWalker.walk (left right : List Int) (spec : JoinSpec) : Nat → Nat → Nat → List JoinRow
  | 0, _, _ => []
  | fuel + 1, xp, yp =>
    if left.length ≤ xp ∧ right.length ≤ yp then []
    else if left.length ≤ xp then
      JoinWalker.emit spec.includeRightOnly ⟨.RightOnly, none, some yp⟩
        ++ JoinWalker.walk left right spec fuel xp (yp + 1)
    else if right.length ≤ yp then
      JoinWalker.emit spec.includeLeftOnly ⟨.LeftOnly, some xp, none⟩
        ++ JoinWalker.walk left right spec fuel (xp + 1) yp
    else
      match IndexComparator (left.getD xp 0) (right.getD yp 0) with
      | .eq =>
        JoinWalker.emit true ⟨.Matched, some xp, some yp⟩
          ++ JoinWalker.walk left right spec fuel (xp + 1) (yp + 1)
      | .lt =>
        JoinWalker.emit spec.includeLeftOnly ⟨.LeftOnly, some xp, none⟩
          ++ JoinWalker.walk left right spec fuel (xp + 1) yp
      | .gt =>
        JoinWalker.emit spec.includeRightOnly ⟨.RightOnly, none, some yp⟩
          ++ JoinWalker.walk left right spec fuel xp (yp + 1)

/-- The complete traversal of section 4.2 of the specification: from the first
element of each side until both cursors have exhausted their sides. -/
def JoinWalker (left right : List Int) (spec : JoinSpec) : List JoinRow :=
  JoinWalker.walk left right spec (left.length + right.length) 0 0

/-- The index value that section 4.5 of the specification writes for a row. -/
def JoinRow.index (left right : List Int) (row : JoinRow) : Int :=
  match row.kind with
  | .RightOnly => right.getD (row.rightPos.getD 0) 0
  | _ => left.getD (row.leftPos.getD 0) 0

/-- The value that section 4.5 of the specification writes for a row in
column `col` of the left table: the cell at `leftPos`, or the fill value for
a row of the right table alone. -/
def JoinRow.left_cell {β : Type} (R : RApi β) (x fill : List β) (nrx : Nat) (row : JoinRow)
    (col : Nat) : β :=
  match row.leftPos with
  | some p => cell R x nrx p col
  | none => fill.getD 0 R.uninit

/-- The value that section 4.5 of the specification writes for a row in
column `col` of the right table. -/
def JoinRow.right_cell {β : Type} (R : RApi β) (y fill : List β) (nry : Nat) (row : JoinRow)
    (col : Nat) : β :=
  match row.rightPos with
  | some p => cell R y nry p col
  | none => fill.getD 0 R.uninit

/-- An R runtime whose cells are integers: a conversion keeps the value, the
logical `NA` is `NA_INTEGER` and a fresh cell holds `0`. It serves for the
concrete examples. -/
def RInt : RApi Int :=
  { coerce := fun _ _ v => v, na_logical := NA_INTEGER, uninit := 0 }

/-- The left table of the concrete scenario of the specification: the index
`[1, 2, 3]` and one column `[10, 20, 30]` of integers. -/
def scenario_left : SEXP Int :=
  { type := .INTSXP, data := [10, 20, 30], dim := some (3, 1), index := [1, 2, 3] }

/-- The right table of the concrete scenario of the specification: the index
`[2, 3, 4]` and one column `[200, 300, 400]` of integers. -/
def scenario_right : SEXP Int :=
  { type := .INTSXP, data := [200, 300, 400], dim := some (3, 1), index := [2, 3, 4] }

/-- A third table for the three-way merges of the examples: the index
`[3, 4, 5]` and one column `[3000, 4000, 5000]` of integers. -/
def scenario_third : SEXP Int :=
  { type := .INTSXP, data := [3000, 4000, 5000], dim := some (3, 1), index := [3, 4, 5] }

/-- A table of one row for the examples: the index `[5]` and one column
`[5000]` of integers. -/
def scenario_last : SEXP Int :=
  { type := .INTSXP, data := [5000], dim := some (1, 1), index := [5] }

/-- The fill value of the concrete scenario: the integer `-1` stands for
`FILL`. -/
def scenario_fill : SEXP Int :=
  { type := .INTSXP, data := [-1], dim := none, index := [] }

/-- The left table of the concrete scenario with a double index that holds a
value that is not a number between its first and its last value. -/
def scenario_left_nan : SEXP_double Int :=
  { type := .INTSXP, data := [10, 20, 30], dim := some (3, 1)
    index := [.finite 1, .nan, .finite 3] }

/-- The cells after the two loops over the columns that write one row. -/
def write_cells {β : Type} (n ncx ncy i : Nat) (lv rv : Nat → β) (res : List β) : List β :=
  (List.range ncy).foldl (fun acc j => acc.set (i + (j + ncx) * n) (rv j))
    ((List.range ncx).foldl (fun acc j => acc.set (i + j * n) (lv j)) res)

/-- The rows `rows` are stored, from slot 0 on, in the index `r` and in the
matrix `result` of `n` rows. -/
def RowsStored {β : Type} (R : RApi β) (X Y : List Int) (dx dy df : List β)
    (nrx ncx nry ncy n : Nat) (rows : List JoinRow) (r : List Int) (result : List β) : Prop :=
  ∀ k (hk : k < rows.length),
    r[k]? = some ((rows.get ⟨k, hk⟩).index X Y) ∧
    (∀ c, c < ncx → result[k + c * n]? = some ((rows.get ⟨k, hk⟩).left_cell R dx df nrx c)) ∧
    (∀ c, c < ncy →
      result[k + (c + ncx) * n]? = some ((rows.get ⟨k, hk⟩).right_cell R dy df nry c))

/-- The invariant of the fill loop: the rows emitted so far are stored. -/
structure FillInv {β : Type} (R : RApi β) (X Y : List Int) (dx dy df : List β)
    (nrx ncx nry ncy n : Nat) (rows : List JoinRow) (s : merge_state Int β) : Prop where
  hx : s.idx.x = X
  hy : s.idx.y = Y
  hr : s.idx.r.length = n
  hres : s.result.length = (ncx + ncy) * n
  hi : s.i = rows.length
  stored : RowsStored R X Y dx dy df nrx ncx nry ncy n rows s.idx.r s.result

/-- The index values of the rows of a traversal. -/
def rows_index (X Y : List Int) (rows : List JoinRow) : List Int :=
  rows.map (JoinRow.index X Y)

/-- What a row of a traversal is: a matched row names equal index values, a
row of one side is part of the join. -/
def row_wf (X Y : List Int) (spec : JoinSpec) (row : JoinRow) : Prop :=
  match row.kind with
  | .Matched => ∃ i j, row.leftPos = some i ∧ row.rightPos = some j ∧ i < X.length ∧
      j < Y.length ∧ X.getD i 0 = Y.getD j 0
  | .LeftOnly => spec.includeLeftOnly = true ∧
      ∃ i, row.leftPos = some i ∧ row.rightPos = none ∧ i < X.length
  | .RightOnly => spec.includeRightOnly = true ∧
      ∃ j, row.leftPos = none ∧ row.rightPos = some j ∧ j < Y.length

/-- The position of the index value `v` in the index `X`, if it occurs. -/
def index_pos (X : List Int) (v : Int) : Option Nat :=
  if v ∈ X then some (X.indexOf v) else none

/-- The cursors of the walker have passed every value that is smaller than
the values under the cursors. -/
def walk_inv (X Y : List Int) (xp yp : Nat) : Prop :=
  (xp < X.length → ∀ j, j < yp → j < Y.length → Y.getD j 0 < X.getD xp 0) ∧
  (yp < Y.length → ∀ i, i < xp → i < X.length → X.getD i 0 < Y.getD yp 0)

/-- The merged index of the two indices `X` and `Y` for the flags `all`. -/
def merged_index (X Y : List Int) (all : Bool × Bool) : List Int :=
  rows_index X Y (JoinWalker X Y ⟨all.1, all.2⟩)

/-- The cell of column `c` that the table with the index `X` and the cells
`data` holds for the index value `v`: the cell of the row of `v`, or the fill
value when `v` does not occur in `X`. -/
def lookup_cell {β : Type} (R : RApi β) (data : List β) (X : List Int) (fillv : β) (v : Int)
    (c : Nat) : β :=
  match index_pos X v with
  | some p => cell R data X.length p c
  | none => fillv

/-- A table: an object with as many index values as rows and with the cells
of its rows and columns. -/
def Table {β : Type} (x : SEXP β) : Prop :=
  x.index.length = nrows x ∧ x.data.length = nrows x * ncols x

/-- A table with a double index: an object with as many index values as rows
and with the cells of its rows and columns. -/
def Table_double {β : Type} (x : SEXP_double β) : Prop :=
  x.index.length = nrows x.vector ∧ x.data.length = nrows x.vector * ncols x.vector

/-- The invariant of the cursors of the fill loop: the indices are those of
the operands, the cursors are between 1 and one past the last row, and the
slot and the rows that the traversal has yet to emit add up to `n`. -/
structure CursorInv {β : Type} (X Y : List Int) (lj rj : Bool) (n fuel : Nat)
    (s : merge_state Int β) : Prop where
  hx : s.idx.x = X
  hy : s.idx.y = Y
  hx1 : 1 ≤ s.xp
  hx2 : s.xp ≤ X.length + 1
  hy1 : 1 ≤ s.yp
  hy2 : s.yp ≤ Y.length + 1
  hfuel : (X.length + 1 - s.xp) + (Y.length + 1 - s.yp) ≤ fuel
  hlen : s.i + (JoinWalker.walk X Y ⟨lj, rj⟩ fuel (s.xp - 1) (s.yp - 1)).length = n
/-! ## The walker and the loops of the source -/

theorem walk_succ (left right : List Int) (spec : JoinSpec) (fuel xp yp : Nat) :
    JoinWalker.walk left right spec (fuel + 1) xp yp =
      if left.length ≤ xp ∧ right.length ≤ yp then []
      else if left.length ≤ xp then
        JoinWalker.emit spec.includeRightOnly ⟨.RightOnly, none, some yp⟩
          ++ JoinWalker.walk left right spec fuel xp (yp + 1)
      else if right.length ≤ yp then
        JoinWalker.emit spec.includeLeftOnly ⟨.LeftOnly, some xp, none⟩
          ++ JoinWalker.walk left right spec fuel (xp + 1) yp
      else
        match IndexComparator (left.getD xp 0) (right.getD yp 0) with
        | .eq =>
          JoinWalker.emit true ⟨.Matched, some xp, some yp⟩
            ++ JoinWalker.walk left right spec fuel (xp + 1) (yp + 1)
        | .lt =>
          JoinWalker.emit spec.includeLeftOnly ⟨.LeftOnly, some xp, none⟩
            ++ JoinWalker.walk left right spec fuel (xp + 1) yp
        | .gt =>
          JoinWalker.emit spec.includeRightOnly ⟨.RightOnly, none, some yp⟩
            ++ JoinWalker.walk left right spec fuel xp (yp + 1) := rfl

theorem walk_fuel_aux (left right : List Int) (spec : JoinSpec) :
    ∀ f1 f2 xp yp, (left.length - xp) + (right.length - yp) ≤ f1 →
      (left.length - xp) + (right.length - yp) ≤ f2 →
      JoinWalker.walk left right spec f1 xp yp = JoinWalker.walk left right spec f2 xp yp := by
  intro f1
  induction f1 with
  | zero =>
    intro f2 xp yp h1 _
    cases f2 with
    | zero => rfl
    | succ f2 =>
      have : left.length ≤ xp ∧ right.length ≤ yp := by omega
      simp [JoinWalker.walk, this]
  | succ f1 ih =>
    intro f2 xp yp h1 h2
    cases f2 with
    | zero =>
      have : left.length ≤ xp ∧ right.length ≤ yp := by omega
      simp [JoinWalker.walk, this]
    | succ f2 =>
      rw [walk_succ, walk_succ]
      by_cases ha : left.length ≤ xp ∧ right.length ≤ yp
      · rw [if_pos ha, if_pos ha]
      rw [if_neg ha, if_neg ha]
      by_cases hb : left.length ≤ xp
      · rw [if_pos hb, if_pos hb, ih f2 xp (yp+1) (by omega) (by omega)]
      rw [if_neg hb, if_neg hb]
      by_cases hc : right.length ≤ yp
      · rw [if_pos hc, if_pos hc, ih f2 (xp+1) yp (by omega) (by omega)]
      rw [if_neg hc, if_neg hc]
      rw [ih f2 (xp+1) (yp+1) (by omega) (by omega), ih f2 (xp+1) yp (by omega) (by omega),
          ih f2 xp (yp+1) (by omega) (by omega)]

theorem emit_length (b : Bool) (row : JoinRow) :
    (JoinWalker.emit b row).length = if b then 1 else 0 := by
  cases b <;> rfl

theorem compare_indexes_int_eq (idx : xts_indices Int) (xp yp : Nat) :
    compare_indexes_int idx xp yp =
      match IndexComparator (idx.x.getD xp 0) (idx.y.getD yp 0) with
      | .gt => 1
      | .lt => -1
      | .eq => 0 := by
  unfold compare_indexes_int IndexComparator
  split_ifs <;> rfl

theorem count_generic_walk (idx : xts_indices Int) (lj rj : Bool) :
    ∀ fuel i xp yp, xp ≤ idx.x.length → yp ≤ idx.y.length →
      (idx.x.length - xp) + (idx.y.length - yp) ≤ fuel →
      merge_index_length_generic idx compare_indexes_int idx.x.length idx.y.length lj rj
          fuel i (xp + 1) (yp + 1)
        = .ok (i + (JoinWalker.walk idx.x idx.y ⟨lj, rj⟩ fuel xp yp).length) := by
  intro fuel
  induction fuel with
  | zero =>
    intro i xp yp hx hy hf
    have : ¬ (xp + 1 + (yp + 1) ≤ idx.x.length + idx.y.length + 1) := by omega
    simp [merge_index_length_generic, JoinWalker.walk, this]
  | succ fuel ih =>
    intro i xp yp hx hy hf
    rw [merge_index_length_generic, JoinWalker.walk]
    by_cases ha : idx.x.length ≤ xp ∧ idx.y.length ≤ yp
    · have : ¬ (xp + 1 + (yp + 1) ≤ idx.x.length + idx.y.length + 1) := by omega
      rw [if_neg this, if_pos ha]; rfl
    have hg : xp + 1 + (yp + 1) ≤ idx.x.length + idx.y.length + 1 := by omega
    rw [if_pos hg, if_neg ha]
    by_cases hb : idx.x.length ≤ xp
    · have : xp + 1 > idx.x.length := by omega
      rw [if_pos this, if_pos hb, ih _ _ _ hx (by omega) (by omega), List.length_append,
        emit_length]
      cases rj <;> simp <;> omega
    have hb' : ¬ (xp + 1 > idx.x.length) := by omega
    rw [if_neg hb', if_neg hb]
    by_cases hc : idx.y.length ≤ yp
    · have : yp + 1 > idx.y.length := by omega
      rw [if_pos this, if_pos hc, ih _ _ _ (by omega) hy (by omega), List.length_append,
        emit_length]
      cases lj <;> simp <;> omega
    have hc' : ¬ (yp + 1 > idx.y.length) := by omega
    rw [if_neg hc', if_neg hc]
    simp only [Nat.add_sub_cancel]
    rw [compare_indexes_int_eq]
    cases hcmp : IndexComparator (idx.x.getD xp 0) (idx.y.getD yp 0)
    · -- lt
      simp only [List.length_append, emit_length]
      rw [if_neg (by decide), if_pos (by decide), ih _ _ _ (by omega) hy (by omega)]
      cases lj <;> simp <;> omega
    · -- eq
      simp only [List.length_append, emit_length]
      rw [if_pos trivial, ih _ _ _ (by omega) (by omega) (by omega)]
      simp; omega
    · simp only [List.length_append, emit_length]
      rw [if_neg (by decide), if_neg (by decide), if_pos (by decide),
        ih _ _ _ hx (by omega) (by omega)]
      cases rj <;> simp <;> omega

theorem generic_x_exhausted {α : Type} (idx : xts_indices α)
    (cmpfn : xts_indices α → Nat → Nat → Int) (nx ny : Nat) (lj rj : Bool) :
    ∀ fuel i yi, yi ≤ ny + 1 → ny + 1 - yi ≤ fuel →
      merge_index_length_generic idx cmpfn nx ny lj rj fuel i (nx + 1) yi
        = .ok (i + if rj then ny + 1 - yi else 0) := by
  intro fuel
  induction fuel with
  | zero =>
    intro i yi h1 h2
    have : ¬ (nx + 1 + yi ≤ nx + ny + 1) := by omega
    have h0 : ny + 1 - yi = 0 := by omega
    simp [merge_index_length_generic, this, h0]
  | succ fuel ih =>
    intro i yi h1 h2
    rw [merge_index_length_generic]
    by_cases hg : nx + 1 + yi ≤ nx + ny + 1
    · rw [if_pos hg, if_pos (by omega), ih _ _ (by omega) (by omega)]
      cases rj
      · simp
      · simp only [if_true]; congr 1; omega
    · rw [if_neg hg]
      have h0 : ny + 1 - yi = 0 := by omega
      simp [h0]

theorem generic_y_exhausted {α : Type} (idx : xts_indices α)
    (cmpfn : xts_indices α → Nat → Nat → Int) (nx ny : Nat) (lj rj : Bool) :
    ∀ fuel i xi, xi ≤ nx → nx + 1 - xi ≤ fuel →
      merge_index_length_generic idx cmpfn nx ny lj rj fuel i xi (ny + 1)
        = .ok (i + if lj then nx + 1 - xi else 0) := by
  intro fuel
  induction fuel with
  | zero =>
    intro i xi h1 h2
    omega
  | succ fuel ih =>
    intro i xi h1 h2
    rw [merge_index_length_generic]
    have hg : xi + (ny + 1) ≤ nx + ny + 1 := by omega
    rw [if_pos hg, if_neg (by omega), if_pos (by omega)]
    by_cases hx : xi + 1 ≤ nx
    · rw [ih _ _ hx (by omega)]
      cases lj
      · simp
      · simp only [if_true]; congr 1; omega
    · have hx1 : xi + 1 = nx + 1 := by omega
      rw [hx1, generic_x_exhausted idx cmpfn nx ny lj rj fuel _ (ny + 1) (by omega) (by omega)]
      have hx2 : xi = nx := by omega
      subst hx2
      cases lj <;> cases rj <;> simp

theorem both_eq_generic {α : Type} (idx : xts_indices α)
    (cmpfn : xts_indices α → Nat → Nat → Int) (nx ny : Nat) :
    ∀ fuel i xi yi, xi ≤ nx + 1 → yi ≤ ny + 1 → (nx + 1 - xi) + (ny + 1 - yi) ≤ fuel →
      merge_index_length_both idx cmpfn nx ny fuel i xi yi
        = merge_index_length_generic idx cmpfn nx ny true true fuel i xi yi := by
  intro fuel
  induction fuel with
  | zero =>
    intro i xi yi h1 h2 h3
    have : ¬ (xi + yi ≤ nx + ny + 1) := by omega
    simp [merge_index_length_both, merge_index_length_generic, this]
  | succ fuel ih =>
    intro i xi yi h1 h2 h3
    rw [merge_index_length_both]
    by_cases hg : xi + yi ≤ nx + ny + 1
    · rw [if_pos hg]
      by_cases hx : xi > nx
      · have hx1 : xi = nx + 1 := by omega
        subst hx1
        rw [if_pos hx, generic_x_exhausted idx cmpfn nx ny true true _ _ _ h2 (by omega)]
        simp only [if_true]; congr 1; omega
      rw [if_neg hx]
      by_cases hy : yi > ny
      · have hy1 : yi = ny + 1 := by omega
        subst hy1
        rw [if_pos hy, generic_y_exhausted idx cmpfn nx ny true true _ _ _ (by omega) (by omega)]
        simp only [if_true]; congr 1; omega
      rw [if_neg hy, merge_index_length_generic, if_pos hg, if_neg hx, if_neg hy]
      simp only [if_true]
      rw [ih _ _ _ (by omega) (by omega) (by omega), ih _ _ _ (by omega) (by omega) (by omega),
        ih _ _ _ (by omega) (by omega) (by omega)]
    · rw [if_neg hg, merge_index_length_generic, if_neg hg]

/-! ## The cells written by the fill loop -/


theorem foldl_set_length {β : Type} (pos : Nat → Nat) (v : Nat → β) (m : Nat) (res : List β) :
    ((List.range m).foldl (fun acc j => acc.set (pos j) (v j)) res).length = res.length := by
  induction m with
  | zero => rfl
  | succ m ih => rw [List.range_succ, List.foldl_append]; simp [ih]

theorem foldl_set_frame {β : Type} (pos : Nat → Nat) (v : Nat → β) (m : Nat) (res : List β)
    (p : Nat) (hp : ∀ j, j < m → pos j ≠ p) :
    ((List.range m).foldl (fun acc j => acc.set (pos j) (v j)) res)[p]? = res[p]? := by
  induction m with
  | zero => rfl
  | succ m ih =>
    rw [List.range_succ, List.foldl_append]
    simp only [List.foldl_cons, List.foldl_nil]
    rw [List.getElem?_set_ne (hp m (Nat.lt_succ_self m))]
    exact ih (fun j hj => hp j (Nat.lt_succ_of_lt hj))

theorem foldl_set_effect {β : Type} (pos : Nat → Nat) (v : Nat → β) (m : Nat) (res : List β)
    (hinj : ∀ j k, j < m → k < m → pos j = pos k → j = k) (j : Nat) (hj : j < m)
    (hlen : pos j < res.length) :
    ((List.range m).foldl (fun acc j => acc.set (pos j) (v j)) res)[pos j]? = some (v j) := by
  induction m with
  | zero => omega
  | succ m ih =>
    rw [List.range_succ, List.foldl_append]
    simp only [List.foldl_cons, List.foldl_nil]
    by_cases hjm : j = m
    · subst hjm
      rw [List.getElem?_set_self]
      simp [foldl_set_length, hlen]
    · have hj' : j < m := by omega
      rw [List.getElem?_set_ne]
      · exact ih (fun a b ha hb => hinj a b (by omega) (by omega)) hj'
      · intro h
        exact hjm (hinj m j (by omega) hj h).symm

theorem slot_inj {n i k a b : Nat} (hi : i < n) (hk : k < n) (h : i + a * n = k + b * n) :
    i = k ∧ a = b := by
  have h1 : (i + a * n) % n = i := by
    rw [Nat.add_mul_mod_self_right]; exact Nat.mod_eq_of_lt hi
  have h2 : (k + b * n) % n = k := by
    rw [Nat.add_mul_mod_self_right]; exact Nat.mod_eq_of_lt hk
  have hik : i = k := by rw [← h1, ← h2, h]
  subst hik
  refine ⟨rfl, ?_⟩
  have : a * n = b * n := by omega
  exact Nat.eq_of_mul_eq_mul_right (by omega) this

theorem slot_lt {n m i c : Nat} (hi : i < n) (hc : c < m) : i + c * n < m * n := by
  have : (c + 1) * n ≤ m * n := Nat.mul_le_mul_right n hc
  rw [Nat.add_mul] at this
  omega

theorem write_cells_length {β : Type} (n ncx ncy i : Nat) (lv rv : Nat → β) (res : List β) :
    (write_cells n ncx ncy i lv rv res).length = res.length := by
  unfold write_cells
  rw [foldl_set_length, foldl_set_length]

theorem write_cells_frame {β : Type} (n ncx ncy i : Nat) (lv rv : Nat → β) (res : List β)
    (hi : i < n) (k c : Nat) (hk : k < n) (hne : k ≠ i) :
    (write_cells n ncx ncy i lv rv res)[k + c * n]? = res[k + c * n]? := by
  unfold write_cells
  rw [foldl_set_frame, foldl_set_frame]
  · intro j _ h
    exact hne (slot_inj hi hk h).1.symm
  · intro j _ h
    exact hne (slot_inj hi hk h).1.symm

theorem write_cells_left {β : Type} (n ncx ncy i : Nat) (lv rv : Nat → β) (res : List β)
    (hi : i < n) (hlen : res.length = (ncx + ncy) * n) (c : Nat) (hc : c < ncx) :
    (write_cells n ncx ncy i lv rv res)[i + c * n]? = some (lv c) := by
  unfold write_cells
  rw [foldl_set_frame]
  · apply foldl_set_effect (fun j => i + j * n) lv ncx res _ c hc
    · rw [hlen]; exact slot_lt hi (by omega)
    · intro a b _ _ h
      exact (slot_inj hi hi h).2
  · intro j _ h
    have := (slot_inj hi hi h).2
    omega

theorem write_cells_right {β : Type} (n ncx ncy i : Nat) (lv rv : Nat → β) (res : List β)
    (hi : i < n) (hlen : res.length = (ncx + ncy) * n) (c : Nat) (hc : c < ncy) :
    (write_cells n ncx ncy i lv rv res)[i + (c + ncx) * n]? = some (rv c) := by
  unfold write_cells
  apply foldl_set_effect (fun j => i + (j + ncx) * n) rv ncy _ _ c hc
  · rw [foldl_set_length, hlen]; exact slot_lt hi (by omega)
  · intro a b _ _ h
    have := (slot_inj hi hi h).2
    omega

theorem RowsStored.snoc {β : Type} {R : RApi β} {X Y : List Int} {dx dy df : List β}
    {nrx ncx nry ncy n : Nat} {rows : List JoinRow} {r : List Int} {result : List β}
    (h : RowsStored R X Y dx dy df nrx ncx nry ncy n rows r result)
    (hn : rows.length < n) (hr : r.length = n) (hres : result.length = (ncx + ncy) * n)
    (row : JoinRow) :
    RowsStored R X Y dx dy df nrx ncx nry ncy n (rows ++ [row])
      (r.set rows.length (row.index X Y))
      (write_cells n ncx ncy rows.length (row.left_cell R dx df nrx)
        (row.right_cell R dy df nry) result) := by
  intro k hk
  rw [List.length_append, List.length_singleton] at hk
  by_cases hkl : k < rows.length
  · have hget : (rows ++ [row]).get ⟨k, by simp; omega⟩ = rows.get ⟨k, hkl⟩ := by
      simp [List.getElem_append_left hkl]
    rw [hget]
    obtain ⟨h1, h2, h3⟩ := h k hkl
    refine ⟨?_, ?_, ?_⟩
    · rw [List.getElem?_set_ne (by omega)]; exact h1
    · intro c hc
      rw [write_cells_frame _ _ _ _ _ _ _ hn k c (by omega) (by omega)]
      exact h2 c hc
    · intro c hc
      rw [write_cells_frame _ _ _ _ _ _ _ hn k (c + ncx) (by omega) (by omega)]
      exact h3 c hc
  · have hkeq : k = rows.length := by omega
    subst hkeq
    have hget : (rows ++ [row]).get ⟨rows.length, by simp⟩ = row := by
      simp
    rw [hget]
    refine ⟨?_, ?_, ?_⟩
    · rw [List.getElem?_set_self (by omega)]
    · intro c hc
      exact write_cells_left _ _ _ _ _ _ _ hn hres c hc
    · intro c hc
      exact write_cells_right _ _ _ _ _ _ _ hn hres c hc

theorem write_x_row_eq {β : Type} (R : RApi β) (setr : List β → List β → Nat → Nat → List β)
    (hset : ∀ res src a b, setr res src a b = res.set a (src.getD b R.uninit))
    (dx dy df : List β) (nrx ncx nry ncy : Nat) (lj rj : Bool) (n : Nat)
    (s : merge_state Int β) :
    write_x_row (merge_env_int setr dx dy df nrx ncx nry ncy lj rj n) s =
      { s with
        idx := { s.idx with
          r := s.idx.r.set s.i
            ((⟨.LeftOnly, some (s.xp - 1), none⟩ : JoinRow).index s.idx.x s.idx.y) }
        result := write_cells n ncx ncy s.i
          ((⟨.LeftOnly, some (s.xp - 1), none⟩ : JoinRow).left_cell R dx df nrx)
          ((⟨.LeftOnly, some (s.xp - 1), none⟩ : JoinRow).right_cell R dy df nry) s.result } := by
  simp only [write_x_row, fill_y_values, copy_x_values, write_cells, merge_env_int, hset]
  rfl

theorem write_y_row_eq {β : Type} (R : RApi β) (setr : List β → List β → Nat → Nat → List β)
    (hset : ∀ res src a b, setr res src a b = res.set a (src.getD b R.uninit))
    (dx dy df : List β) (nrx ncx nry ncy : Nat) (lj rj : Bool) (n : Nat)
    (s : merge_state Int β) :
    write_y_row (merge_env_int setr dx dy df nrx ncx nry ncy lj rj n) s =
      { s with
        idx := { s.idx with
          r := s.idx.r.set s.i
            ((⟨.RightOnly, none, some (s.yp - 1)⟩ : JoinRow).index s.idx.x s.idx.y) }
        result := write_cells n ncx ncy s.i
          ((⟨.RightOnly, none, some (s.yp - 1)⟩ : JoinRow).left_cell R dx df nrx)
          ((⟨.RightOnly, none, some (s.yp - 1)⟩ : JoinRow).right_cell R dy df nry) s.result } := by
  simp only [write_y_row, fill_x_values, copy_y_values, write_cells, merge_env_int, hset]
  rfl

theorem write_xy_row_eq {β : Type} (R : RApi β) (setr : List β → List β → Nat → Nat → List β)
    (hset : ∀ res src a b, setr res src a b = res.set a (src.getD b R.uninit))
    (dx dy df : List β) (nrx ncx nry ncy : Nat) (lj rj : Bool) (n : Nat)
    (s : merge_state Int β) :
    write_xy_row (merge_env_int setr dx dy df nrx ncx nry ncy lj rj n) s =
      { s with
        idx := { s.idx with
          r := s.idx.r.set s.i
            ((⟨.Matched, some (s.xp - 1), some (s.yp - 1)⟩ : JoinRow).index s.idx.x s.idx.y) }
        result := write_cells n ncx ncy s.i
          ((⟨.Matched, some (s.xp - 1), some (s.yp - 1)⟩ : JoinRow).left_cell R dx df nrx)
          ((⟨.Matched, some (s.xp - 1), some (s.yp - 1)⟩ : JoinRow).right_cell R dy df nry)
          s.result } := by
  simp only [write_xy_row, copy_x_values, copy_y_values, write_cells, merge_env_int, hset]
  rfl

theorem FillInv.emit {β : Type} {R : RApi β} {X Y : List Int} {dx dy df : List β}
    {nrx ncx nry ncy n : Nat} {rows : List JoinRow} {s : merge_state Int β}
    (h : FillInv R X Y dx dy df nrx ncx nry ncy n rows s) (hn : s.i < n) (b : Bool)
    (row : JoinRow) (w : merge_state Int β)
    (hw1 : w.idx = { s.idx with r := s.idx.r.set s.i (row.index s.idx.x s.idx.y) })
    (hw2 : w.result = write_cells n ncx ncy s.i (row.left_cell R dx df nrx)
      (row.right_cell R dy df nry) s.result) (xp yp : Nat) :
    FillInv R X Y dx dy df nrx ncx nry ncy n (rows ++ JoinWalker.emit b row)
      { (if b then w else s) with xp := xp, yp := yp, i := if b then s.i + 1 else s.i } := by
  cases b
  · simp only [JoinWalker.emit, List.append_nil, Bool.false_eq_true, if_false]
    exact ⟨h.hx, h.hy, h.hr, h.hres, h.hi, h.stored⟩
  · simp only [JoinWalker.emit, if_true]
    have hs := h.stored.snoc (by rw [← h.hi]; exact hn) h.hr h.hres row
    refine ⟨?_, ?_, ?_, ?_, ?_, ?_⟩
    · simp [hw1, h.hx]
    · simp [hw1, h.hy]
    · simp [hw1, h.hr]
    · simp [hw2, write_cells_length, h.hres]
    · simp [h.hi]
    · simp only [hw1, hw2, h.hx, h.hy, h.hi]
      exact hs

theorem merge_loop_walk {β : Type} (R : RApi β) (setr : List β → List β → Nat → Nat → List β)
    (hset : ∀ res src a b, setr res src a b = res.set a (src.getD b R.uninit))
    (X Y : List Int) (dx dy df : List β) (ncx ncy : Nat) (lj rj : Bool) (n : Nat) :
    ∀ fuel (s : merge_state Int β) (rows : List JoinRow),
      FillInv R X Y dx dy df X.length ncx Y.length ncy n rows s →
      1 ≤ s.xp → s.xp ≤ X.length + 1 → 1 ≤ s.yp → s.yp ≤ Y.length + 1 →
      (X.length + 1 - s.xp) + (Y.length + 1 - s.yp) ≤ fuel →
      s.i + (JoinWalker.walk X Y ⟨lj, rj⟩ fuel (s.xp - 1) (s.yp - 1)).length = n →
      ∃ s', merge_loop (merge_env_int setr dx dy df X.length ncx Y.length ncy lj rj n) fuel s
          = .ok s' ∧
        FillInv R X Y dx dy df X.length ncx Y.length ncy n
          (rows ++ JoinWalker.walk X Y ⟨lj, rj⟩ fuel (s.xp - 1) (s.yp - 1)) s' ∧ s'.i = n ∧
        JoinWalker.walk X Y ⟨lj, rj⟩ (X.length + Y.length) (s'.xp - 1) (s'.yp - 1) = [] := by
  intro fuel
  induction fuel with
  | zero =>
    intro s rows hinv _ _ _ _ hfuel hlen
    simp only [JoinWalker.walk, List.length_nil, Nat.add_zero] at hlen
    refine ⟨s, ?_, ?_, hlen, ?_⟩
    · simp [merge_loop, merge_env_int, hlen]
    · simpa [JoinWalker.walk] using hinv
    · rw [walk_fuel_aux X Y ⟨lj, rj⟩ (X.length + Y.length) 0 _ _ (by omega) (by omega)]
      rfl
  | succ fuel ih =>
    intro s rows hinv hx1 hx2 hy1 hy2 hfuel hlen
    by_cases hg : s.i < n
    · have hg' : s.i < (merge_env_int setr dx dy df X.length ncx Y.length ncy lj rj n).num_rows :=
        hg
      have hxp : s.xp - 1 + 1 = s.xp := by omega
      have hyp : s.yp - 1 + 1 = s.yp := by omega
      rw [JoinWalker.walk] at hlen ⊢
      by_cases ha : X.length ≤ s.xp - 1 ∧ Y.length ≤ s.yp - 1
      · rw [if_pos ha] at hlen
        simp at hlen
        omega
      rw [if_neg ha] at hlen ⊢
      -- the three ways in which the cursors move
      have right_step : ∀ tail : List JoinRow,
          s.i + (JoinWalker.emit rj ⟨.RightOnly, none, some (s.yp - 1)⟩ ++
            JoinWalker.walk X Y ⟨lj, rj⟩ fuel (s.xp - 1) (s.yp - 1 + 1)).length = n →
          tail = JoinWalker.emit rj ⟨.RightOnly, none, some (s.yp - 1)⟩ ++
            JoinWalker.walk X Y ⟨lj, rj⟩ fuel (s.xp - 1) (s.yp - 1 + 1) →
          s.yp ≤ Y.length →
          merge_loop_body (merge_env_int setr dx dy df X.length ncx Y.length ncy lj rj n) s
            = .ok { (if rj then write_y_row
                (merge_env_int setr dx dy df X.length ncx Y.length ncy lj rj n) s else s) with
                xp := s.xp, yp := s.yp + 1, i := if rj then s.i + 1 else s.i } →
          ∃ s', merge_loop (merge_env_int setr dx dy df X.length ncx Y.length ncy lj rj n)
              (fuel + 1) s = .ok s' ∧
            FillInv R X Y dx dy df X.length ncx Y.length ncy n (rows ++ tail) s' ∧ s'.i = n ∧
            JoinWalker.walk X Y ⟨lj, rj⟩ (X.length + Y.length) (s'.xp - 1) (s'.yp - 1) = [] := by
        intro tail hlen1 htail hyle hbody
        rw [merge_loop, if_pos hg', hbody]
        have hinv1 := hinv.emit hg rj ⟨.RightOnly, none, some (s.yp - 1)⟩
          (write_y_row (merge_env_int setr dx dy df X.length ncx Y.length ncy lj rj n) s)
          (by rw [write_y_row_eq R setr hset dx dy df X.length ncx Y.length ncy lj rj n]) (by rw [write_y_row_eq R setr hset dx dy df X.length ncx Y.length ncy lj rj n]) s.xp (s.yp + 1)
        obtain ⟨s', h1, h2, h3, h4⟩ := ih _ _ hinv1 hx1 hx2 (by simp) (by simp; omega)
          (by simp; omega) (by
            simp only [Nat.add_sub_cancel]
            rw [List.length_append, hyp] at hlen1
            cases rj <;> simp [JoinWalker.emit] at hlen1 ⊢ <;> omega)
        refine ⟨s', h1, ?_, h3, h4⟩
        simp only [Nat.add_sub_cancel] at h2
        rw [htail, hyp, ← List.append_assoc]
        exact h2
      have left_step : ∀ tail : List JoinRow,
          s.i + (JoinWalker.emit lj ⟨.LeftOnly, some (s.xp - 1), none⟩ ++
            JoinWalker.walk X Y ⟨lj, rj⟩ fuel (s.xp - 1 + 1) (s.yp - 1)).length = n →
          tail = JoinWalker.emit lj ⟨.LeftOnly, some (s.xp - 1), none⟩ ++
            JoinWalker.walk X Y ⟨lj, rj⟩ fuel (s.xp - 1 + 1) (s.yp - 1) →
          s.xp ≤ X.length →
          merge_loop_body (merge_env_int setr dx dy df X.length ncx Y.length ncy lj rj n) s
            = .ok { (if lj then write_x_row
                (merge_env_int setr dx dy df X.length ncx Y.length ncy lj rj n) s else s) with
                xp := s.xp + 1, yp := s.yp, i := if lj then s.i + 1 else s.i } →
          ∃ s', merge_loop (merge_env_int setr dx dy df X.length ncx Y.length ncy lj rj n)
              (fuel + 1) s = .ok s' ∧
            FillInv R X Y dx dy df X.length ncx Y.length ncy n (rows ++ tail) s' ∧ s'.i = n ∧
            JoinWalker.walk X Y ⟨lj, rj⟩ (X.length + Y.length) (s'.xp - 1) (s'.yp - 1) = [] := by
        intro tail hlen1 htail hxle hbody
        rw [merge_loop, if_pos hg', hbody]
        have hinv1 := hinv.emit hg lj ⟨.LeftOnly, some (s.xp - 1), none⟩
          (write_x_row (merge_env_int setr dx dy df X.length ncx Y.length ncy lj rj n) s)
          (by rw [write_x_row_eq R setr hset dx dy df X.length ncx Y.length ncy lj rj n]) (by rw [write_x_row_eq R setr hset dx dy df X.length ncx Y.length ncy lj rj n]) (s.xp + 1) s.yp
        obtain ⟨s', h1, h2, h3, h4⟩ := ih _ _ hinv1 (by simp) (by simp; omega) hy1 hy2
          (by simp; omega) (by
            simp only [Nat.add_sub_cancel]
            rw [List.length_append, hxp] at hlen1
            cases lj <;> simp [JoinWalker.emit] at hlen1 ⊢ <;> omega)
        refine ⟨s', h1, ?_, h3, h4⟩
        simp only [Nat.add_sub_cancel] at h2
        rw [htail, hxp, ← List.append_assoc]
        exact h2
      by_cases hb : X.length ≤ s.xp - 1
      · rw [if_pos hb] at hlen ⊢
        have hb' : s.xp > (merge_env_int setr dx dy df X.length ncx Y.length ncy lj rj n).nrx := by
          show s.xp > X.length
          omega
        refine right_step _ hlen rfl (by omega) ?_
        rw [merge_loop_body, if_pos hb']
        cases rj <;> rfl
      rw [if_neg hb] at hlen ⊢
      have hb' : ¬ s.xp > (merge_env_int setr dx dy df X.length ncx Y.length ncy lj rj n).nrx := by
        show ¬ s.xp > X.length
        omega
      by_cases hc : Y.length ≤ s.yp - 1
      · rw [if_pos hc] at hlen ⊢
        have hc' : s.yp > (merge_env_int setr dx dy df X.length ncx Y.length ncy lj rj n).nry := by
          show s.yp > Y.length
          omega
        refine left_step _ hlen rfl (by omega) ?_
        rw [merge_loop_body, if_neg hb', if_pos hc']
        cases lj <;> rfl
      rw [if_neg hc] at hlen ⊢
      have hc' : ¬ s.yp > (merge_env_int setr dx dy df X.length ncx Y.length ncy lj rj n).nry := by
        show ¬ s.yp > Y.length
        omega
      have hcmp : (merge_env_int setr dx dy df X.length ncx Y.length ncy lj rj n).compare_indexes
          s.idx (s.xp - 1) (s.yp - 1) =
          match IndexComparator (X.getD (s.xp - 1) 0) (Y.getD (s.yp - 1) 0) with
          | .gt => 1
          | .lt => -1
          | .eq => 0 := by
        show compare_indexes_int s.idx (s.xp - 1) (s.yp - 1) = _
        rw [compare_indexes_int_eq, hinv.hx, hinv.hy]
      cases hord : IndexComparator (X.getD (s.xp - 1) 0) (Y.getD (s.yp - 1) 0)
      · -- the row of x is behind
        rw [hord] at hlen hcmp
        refine left_step _ hlen rfl (by omega) ?_
        rw [merge_loop_body, if_neg hb', if_neg hc']
        simp only [hcmp]
        rw [if_neg (by decide), if_pos (by decide)]
        cases lj <;> rfl
      · -- matching index values
        rw [hord] at hlen hcmp
        have hbody : merge_loop_body
            (merge_env_int setr dx dy df X.length ncx Y.length ncy lj rj n) s
            = .ok { (if true then write_xy_row
                (merge_env_int setr dx dy df X.length ncx Y.length ncy lj rj n) s else s) with
                xp := s.xp + 1, yp := s.yp + 1, i := if true then s.i + 1 else s.i } := by
          rw [merge_loop_body, if_neg hb', if_neg hc']
          simp only [hcmp]
          rfl
        rw [merge_loop, if_pos hg', hbody]
        have hinv1 := hinv.emit hg true ⟨.Matched, some (s.xp - 1), some (s.yp - 1)⟩
          (write_xy_row (merge_env_int setr dx dy df X.length ncx Y.length ncy lj rj n) s)
          (by rw [write_xy_row_eq R setr hset dx dy df X.length ncx Y.length ncy lj rj n]) (by rw [write_xy_row_eq R setr hset dx dy df X.length ncx Y.length ncy lj rj n])
          (s.xp + 1) (s.yp + 1)
        obtain ⟨s', h1, h2, h3, h4⟩ := ih _ _ hinv1 (by simp) (by simp; omega) (by simp)
          (by simp; omega) (by simp; omega) (by
            simp only [Nat.add_sub_cancel]
            rw [List.length_append, hxp, hyp] at hlen
            simp [JoinWalker.emit] at hlen ⊢
            omega)
        refine ⟨s', h1, ?_, h3, h4⟩
        simp only [Nat.add_sub_cancel] at h2
        rw [hxp, hyp, ← List.append_assoc]
        exact h2
      · -- the row of y is behind
        rw [hord] at hlen hcmp
        refine right_step _ hlen rfl (by omega) ?_
        rw [merge_loop_body, if_neg hb', if_neg hc']
        simp only [hcmp]
        rw [if_neg (by decide), if_neg (by decide), if_pos (by decide)]
        cases rj <;> rfl
    · have hg' : ¬ s.i < (merge_env_int setr dx dy df X.length ncx Y.length ncy lj rj n).num_rows :=
        hg
      rw [merge_loop, if_neg hg']
      have hnil : JoinWalker.walk X Y ⟨lj, rj⟩ (fuel + 1) (s.xp - 1) (s.yp - 1) = [] := by
        apply List.eq_nil_of_length_eq_zero
        omega
      rw [hnil, List.append_nil]
      refine ⟨s, rfl, hinv, ?_, ?_⟩
      · rw [hnil] at hlen
        simpa using hlen
      · rw [walk_fuel_aux X Y ⟨lj, rj⟩ (X.length + Y.length) (fuel + 1) _ _ (by omega)
          (by omega)]
        exact hnil

/-! ## The rows of a traversal -/

theorem IndexComparator_eq {a b : Int} (h : IndexComparator a b = .eq) : a = b := by
  unfold IndexComparator at h
  split_ifs at h
  omega

theorem IndexComparator_lt {a b : Int} (h : IndexComparator a b = .lt) : a < b := by
  unfold IndexComparator at h
  split_ifs at h
  assumption

theorem IndexComparator_gt {a b : Int} (h : IndexComparator a b = .gt) : b < a := by
  unfold IndexComparator at h
  split_ifs at h
  assumption

theorem drop_eq_getD_cons (l : List Int) (k : Nat) (h : k < l.length) :
    l.drop k = l.getD k 0 :: l.drop (k + 1) := by
  rw [List.getD_eq_getElem _ _ h]
  exact List.drop_eq_getElem_cons h

/-- Induction along the traversal of the walker. -/
theorem walk_induction (X Y : List Int) (spec : JoinSpec)
    (P : Nat → Nat → List JoinRow → Prop)
    (hdone : ∀ xp yp, X.length ≤ xp → Y.length ≤ yp → P xp yp [])
    (hleft : ∀ xp yp rest, X.length ≤ xp → yp < Y.length → P xp (yp + 1) rest →
      P xp yp (JoinWalker.emit spec.includeRightOnly ⟨.RightOnly, none, some yp⟩ ++ rest))
    (hright : ∀ xp yp rest, xp < X.length → Y.length ≤ yp → P (xp + 1) yp rest →
      P xp yp (JoinWalker.emit spec.includeLeftOnly ⟨.LeftOnly, some xp, none⟩ ++ rest))
    (heq : ∀ xp yp rest, xp < X.length → yp < Y.length → X.getD xp 0 = Y.getD yp 0 →
      P (xp + 1) (yp + 1) rest → P xp yp (⟨.Matched, some xp, some yp⟩ :: rest))
    (hlt : ∀ xp yp rest, xp < X.length → yp < Y.length → X.getD xp 0 < Y.getD yp 0 →
      P (xp + 1) yp rest →
      P xp yp (JoinWalker.emit spec.includeLeftOnly ⟨.LeftOnly, some xp, none⟩ ++ rest))
    (hgt : ∀ xp yp rest, xp < X.length → yp < Y.length → Y.getD yp 0 < X.getD xp 0 →
      P xp (yp + 1) rest →
      P xp yp (JoinWalker.emit spec.includeRightOnly ⟨.RightOnly, none, some yp⟩ ++ rest)) :
    ∀ fuel xp yp, (X.length - xp) + (Y.length - yp) ≤ fuel →
      P xp yp (JoinWalker.walk X Y spec fuel xp yp) := by
  intro fuel
  induction fuel with
  | zero =>
    intro xp yp h
    exact hdone xp yp (by omega) (by omega)
  | succ fuel ih =>
    intro xp yp h
    rw [walk_succ]
    by_cases ha : X.length ≤ xp ∧ Y.length ≤ yp
    · rw [if_pos ha]; exact hdone xp yp ha.1 ha.2
    rw [if_neg ha]
    by_cases hb : X.length ≤ xp
    · rw [if_pos hb]
      exact hleft xp yp _ hb (by omega) (ih _ _ (by omega))
    rw [if_neg hb]
    by_cases hc : Y.length ≤ yp
    · rw [if_pos hc]
      exact hright xp yp _ (by omega) hc (ih _ _ (by omega))
    rw [if_neg hc]
    cases hord : IndexComparator (X.getD xp 0) (Y.getD yp 0)
    · exact hlt xp yp _ (by omega) (by omega) (IndexComparator_lt hord) (ih _ _ (by omega))
    · exact heq xp yp _ (by omega) (by omega) (IndexComparator_eq hord) (ih _ _ (by omega))
    · exact hgt xp yp _ (by omega) (by omega) (IndexComparator_gt hord) (ih _ _ (by omega))

theorem rows_index_emit_left (X Y : List Int) (b : Bool) (xp : Nat) (rest : List JoinRow) :
    rows_index X Y (JoinWalker.emit b ⟨.LeftOnly, some xp, none⟩ ++ rest) =
      (if b then [X.getD xp 0] else []) ++ rows_index X Y rest := by
  cases b <;> rfl

theorem rows_index_emit_right (X Y : List Int) (b : Bool) (yp : Nat) (rest : List JoinRow) :
    rows_index X Y (JoinWalker.emit b ⟨.RightOnly, none, some yp⟩ ++ rest) =
      (if b then [Y.getD yp 0] else []) ++ rows_index X Y rest := by
  cases b <;> rfl

theorem rows_index_matched (X Y : List Int) (xp yp : Nat) (rest : List JoinRow) :
    rows_index X Y (⟨.Matched, some xp, some yp⟩ :: rest) =
      X.getD xp 0 :: rows_index X Y rest := rfl

/-- Left join: the merged index is the left index. -/
theorem walk_left_join (X Y : List Int) :
    ∀ fuel xp yp, (X.length - xp) + (Y.length - yp) ≤ fuel →
      rows_index X Y (JoinWalker.walk X Y ⟨true, false⟩ fuel xp yp) = X.drop xp := by
  apply walk_induction X Y ⟨true, false⟩ (fun xp _ rows => rows_index X Y rows = X.drop xp)
  · intro xp yp hx _
    simp [rows_index, List.drop_eq_nil_of_le hx]
  · intro xp yp rest _ _ ih
    rw [rows_index_emit_right]; simpa using ih
  · intro xp yp rest hx _ ih
    rw [rows_index_emit_left, drop_eq_getD_cons X xp hx, ih]; rfl
  · intro xp yp rest hx _ _ ih
    rw [rows_index_matched, drop_eq_getD_cons X xp hx, ih]
  · intro xp yp rest hx _ _ ih
    rw [rows_index_emit_left, drop_eq_getD_cons X xp hx, ih]; rfl
  · intro xp yp rest _ _ _ ih
    rw [rows_index_emit_right]; simpa using ih

/-- Right join: the merged index is the right index. -/
theorem walk_right_join (X Y : List Int) :
    ∀ fuel xp yp, (X.length - xp) + (Y.length - yp) ≤ fuel →
      rows_index X Y (JoinWalker.walk X Y ⟨false, true⟩ fuel xp yp) = Y.drop yp := by
  apply walk_induction X Y ⟨false, true⟩ (fun _ yp rows => rows_index X Y rows = Y.drop yp)
  · intro xp yp _ hy
    simp [rows_index, List.drop_eq_nil_of_le hy]
  · intro xp yp rest _ hy ih
    rw [rows_index_emit_right, drop_eq_getD_cons Y yp hy, ih]; rfl
  · intro xp yp rest _ _ ih
    rw [rows_index_emit_left]; simpa using ih
  · intro xp yp rest _ hy he ih
    rw [rows_index_matched, drop_eq_getD_cons Y yp hy, ih, he]
  · intro xp yp rest _ _ _ ih
    rw [rows_index_emit_left]; simpa using ih
  · intro xp yp rest _ hy _ ih
    rw [rows_index_emit_right, drop_eq_getD_cons Y yp hy, ih]; rfl

theorem sorted_drop_head {X : List Int} (hX : X.Pairwise (· < ·)) {xp : Nat}
    (h : xp < X.length) : ∀ z ∈ X.drop (xp + 1), X.getD xp 0 < z := by
  have h1 : (X.drop xp).Pairwise (· < ·) := hX.sublist (List.drop_sublist xp X)
  rw [drop_eq_getD_cons X xp h, List.pairwise_cons] at h1
  exact h1.1

theorem sorted_drop_ge {X : List Int} (hX : X.Pairwise (· < ·)) {xp : Nat}
    (h : xp < X.length) : ∀ z ∈ X.drop xp, X.getD xp 0 ≤ z := by
  intro z hz
  rw [drop_eq_getD_cons X xp h, List.mem_cons] at hz
  rcases hz with hz | hz
  · omega
  · exact le_of_lt (sorted_drop_head hX h z hz)

/-- Inner join of strictly ascending indices: the merged index holds the
values of the left index that occur in the right index. -/
theorem walk_inner_join (X Y : List Int) (hX : X.Pairwise (· < ·)) (hY : Y.Pairwise (· < ·)) :
    ∀ fuel xp yp, (X.length - xp) + (Y.length - yp) ≤ fuel →
      rows_index X Y (JoinWalker.walk X Y ⟨false, false⟩ fuel xp yp) =
        (X.drop xp).filter (fun v => decide (v ∈ Y.drop yp)) := by
  apply walk_induction X Y ⟨false, false⟩
    (fun xp yp rows => rows_index X Y rows = (X.drop xp).filter (fun v => decide (v ∈ Y.drop yp)))
  · intro xp yp hx _
    simp [rows_index, List.drop_eq_nil_of_le hx]
  · intro xp yp rest hx _ ih
    rw [rows_index_emit_right]
    simp only [Bool.false_eq_true, if_false, List.nil_append, ih, List.drop_eq_nil_of_le hx,
      List.filter_nil]
  · intro xp yp rest _ hy ih
    rw [rows_index_emit_left]
    simp only [Bool.false_eq_true, if_false, List.nil_append, ih, List.drop_eq_nil_of_le hy]
    simp
  · intro xp yp rest hx hy he ih
    rw [rows_index_matched, ih, drop_eq_getD_cons X xp hx, drop_eq_getD_cons Y yp hy,
      List.filter_cons_of_pos (by rw [he]; simp)]
    congr 1
    apply List.filter_congr
    intro z hz
    have := sorted_drop_head hX hx z hz
    have hne : z ≠ Y.getD yp 0 := by omega
    simp only [List.mem_cons, hne, false_or]
  · intro xp yp rest hx hy hl ih
    rw [rows_index_emit_left]
    simp only [Bool.false_eq_true, if_false, List.nil_append, ih]
    rw [drop_eq_getD_cons X xp hx, List.filter_cons_of_neg]
    simp only [decide_eq_true_eq]
    intro hmem
    have := sorted_drop_ge hY hy _ hmem
    omega
  · intro xp yp rest hx hy hl ih
    rw [rows_index_emit_right]
    simp only [Bool.false_eq_true, if_false, List.nil_append, ih]
    rw [drop_eq_getD_cons Y yp hy]
    apply List.filter_congr
    intro z hz
    have := sorted_drop_ge hX hx z hz
    have hne : z ≠ Y.getD yp 0 := by omega
    simp only [List.mem_cons, hne, false_or]

/-- Full outer join: the merged index holds the values of both indices. -/
theorem walk_outer_join_mem (X Y : List Int) :
    ∀ fuel xp yp, (X.length - xp) + (Y.length - yp) ≤ fuel →
      ∀ v, v ∈ rows_index X Y (JoinWalker.walk X Y ⟨true, true⟩ fuel xp yp) ↔
        (v ∈ X.drop xp ∨ v ∈ Y.drop yp) := by
  apply walk_induction X Y ⟨true, true⟩
    (fun xp yp rows => ∀ v, v ∈ rows_index X Y rows ↔ (v ∈ X.drop xp ∨ v ∈ Y.drop yp))
  · intro xp yp hx hy v
    simp [rows_index, List.drop_eq_nil_of_le hx, List.drop_eq_nil_of_le hy]
  · intro xp yp rest hx hy ih v
    rw [rows_index_emit_right, drop_eq_getD_cons Y yp hy]
    simp only [if_true, List.singleton_append, List.mem_cons, ih v]
    tauto
  · intro xp yp rest hx hy ih v
    rw [rows_index_emit_left, drop_eq_getD_cons X xp hx]
    simp only [if_true, List.singleton_append, List.mem_cons, ih v]
    tauto
  · intro xp yp rest hx hy he ih v
    rw [rows_index_matched, drop_eq_getD_cons X xp hx, drop_eq_getD_cons Y yp hy]
    simp only [List.mem_cons, ih v, he]
    tauto
  · intro xp yp rest hx hy _ ih v
    rw [rows_index_emit_left, drop_eq_getD_cons X xp hx]
    simp only [if_true, List.singleton_append, List.mem_cons, ih v]
    tauto
  · intro xp yp rest hx hy _ ih v
    rw [rows_index_emit_right, drop_eq_getD_cons Y yp hy]
    simp only [if_true, List.singleton_append, List.mem_cons, ih v]
    tauto

/-- The merged index of strictly ascending indices is strictly ascending, and
its values come from the two indices. -/
theorem walk_sorted (X Y : List Int) (spec : JoinSpec) (hX : X.Pairwise (· < ·))
    (hY : Y.Pairwise (· < ·)) :
    ∀ fuel xp yp, (X.length - xp) + (Y.length - yp) ≤ fuel →
      (rows_index X Y (JoinWalker.walk X Y spec fuel xp yp)).Pairwise (· < ·) ∧
      ∀ v ∈ rows_index X Y (JoinWalker.walk X Y spec fuel xp yp),
        v ∈ X.drop xp ∨ v ∈ Y.drop yp := by
  apply walk_induction X Y spec
    (fun xp yp rows => (rows_index X Y rows).Pairwise (· < ·) ∧
      ∀ v ∈ rows_index X Y rows, v ∈ X.drop xp ∨ v ∈ Y.drop yp)
  · intro xp yp _ _
    simp [rows_index]
  · intro xp yp rest hx hy ih
    rw [rows_index_emit_right, drop_eq_getD_cons Y yp hy]
    have hxnil : X.drop xp = [] := List.drop_eq_nil_of_le hx
    rw [hxnil] at ih ⊢
    cases spec.includeRightOnly
    · simp only [Bool.false_eq_true, if_false, List.nil_append]
      exact ⟨ih.1, fun v hv => by have := ih.2 v hv; simp at this ⊢; tauto⟩
    · simp only [if_true, List.singleton_append, List.pairwise_cons, List.mem_cons]
      refine ⟨⟨fun z hz => ?_, ih.1⟩, fun v hv => ?_⟩
      · have := ih.2 z hz
        simp at this
        exact sorted_drop_head hY hy z this
      · rcases hv with hv | hv
        · simp [hv]
        · have := ih.2 v hv; simp at this ⊢; tauto
  · intro xp yp rest hx hy ih
    rw [rows_index_emit_left, drop_eq_getD_cons X xp hx]
    have hynil : Y.drop yp = [] := List.drop_eq_nil_of_le hy
    rw [hynil] at ih ⊢
    cases spec.includeLeftOnly
    · simp only [Bool.false_eq_true, if_false, List.nil_append]
      exact ⟨ih.1, fun v hv => by have := ih.2 v hv; simp at this ⊢; tauto⟩
    · simp only [if_true, List.singleton_append, List.pairwise_cons, List.mem_cons]
      refine ⟨⟨fun z hz => ?_, ih.1⟩, fun v hv => ?_⟩
      · have := ih.2 z hz
        simp at this
        exact sorted_drop_head hX hx z this
      · rcases hv with hv | hv
        · simp [hv]
        · have := ih.2 v hv; simp at this ⊢; tauto
  · intro xp yp rest hx hy he ih
    rw [rows_index_matched, drop_eq_getD_cons X xp hx, drop_eq_getD_cons Y yp hy]
    simp only [List.pairwise_cons, List.mem_cons]
    refine ⟨⟨fun z hz => ?_, ih.1⟩, fun v hv => ?_⟩
    · rcases ih.2 z hz with h | h
      · exact sorted_drop_head hX hx z h
      · rw [he]; exact sorted_drop_head hY hy z h
    · rcases hv with hv | hv
      · simp [hv]
      · have := ih.2 v hv; tauto
  · intro xp yp rest hx hy hl ih
    rw [rows_index_emit_left, drop_eq_getD_cons X xp hx]
    cases spec.includeLeftOnly
    · simp only [Bool.false_eq_true, if_false, List.nil_append]
      exact ⟨ih.1, fun v hv => by have := ih.2 v hv; simp only [List.mem_cons]; tauto⟩
    · simp only [if_true, List.singleton_append, List.pairwise_cons, List.mem_cons]
      refine ⟨⟨fun z hz => ?_, ih.1⟩, fun v hv => ?_⟩
      · rcases ih.2 z hz with h | h
        · exact sorted_drop_head hX hx z h
        · have := sorted_drop_ge hY hy z h
          omega
      · rcases hv with hv | hv
        · simp [hv]
        · have := ih.2 v hv; tauto
  · intro xp yp rest hx hy hl ih
    rw [rows_index_emit_right, drop_eq_getD_cons Y yp hy]
    cases spec.includeRightOnly
    · simp only [Bool.false_eq_true, if_false, List.nil_append]
      exact ⟨ih.1, fun v hv => by have := ih.2 v hv; simp only [List.mem_cons]; tauto⟩
    · simp only [if_true, List.singleton_append, List.pairwise_cons, List.mem_cons]
      refine ⟨⟨fun z hz => ?_, ih.1⟩, fun v hv => ?_⟩
      · rcases ih.2 z hz with h | h
        · have := sorted_drop_ge hX hx z h
          omega
        · exact sorted_drop_head hY hy z h
      · rcases hv with hv | hv
        · simp [hv]
        · have := ih.2 v hv; tauto

theorem sorted_getD_lt {X : List Int} (hX : X.Pairwise (· < ·)) {i j : Nat} (hij : i < j)
    (hj : j < X.length) : X.getD i 0 < X.getD j 0 := by
  rw [List.getD_eq_getElem _ _ hj, List.getD_eq_getElem _ _ (by omega)]
  exact List.pairwise_iff_getElem.mp hX i j (by omega) hj hij

theorem sorted_getD_inj {X : List Int} (hX : X.Pairwise (· < ·)) {i j : Nat}
    (hi : i < X.length) (hj : j < X.length) (h : X.getD i 0 = X.getD j 0) : i = j := by
  rcases Nat.lt_trichotomy i j with hlt | heq | hgt
  · have := sorted_getD_lt hX hlt hj; omega
  · exact heq
  · have := sorted_getD_lt hX hgt hi; omega

theorem walk_row_wf (X Y : List Int) (spec : JoinSpec) :
    ∀ fuel xp yp, (X.length - xp) + (Y.length - yp) ≤ fuel →
      ∀ row ∈ JoinWalker.walk X Y spec fuel xp yp, row_wf X Y spec row := by
  apply walk_induction X Y spec (fun _ _ rows => ∀ row ∈ rows, row_wf X Y spec row)
  · intro xp yp _ _ row h
    simp at h
  · intro xp yp rest _ hy ih row h
    rw [List.mem_append] at h
    rcases h with h | h
    · unfold JoinWalker.emit at h
      split_ifs at h with hb
      · simp only [List.mem_singleton] at h
        subst h
        exact ⟨hb, yp, rfl, rfl, hy⟩
      · simp at h
    · exact ih row h
  · intro xp yp rest hx _ ih row h
    rw [List.mem_append] at h
    rcases h with h | h
    · unfold JoinWalker.emit at h
      split_ifs at h with hb
      · simp only [List.mem_singleton] at h
        subst h
        exact ⟨hb, xp, rfl, rfl, hx⟩
      · simp at h
    · exact ih row h
  · intro xp yp rest hx hy he ih row h
    rw [List.mem_cons] at h
    rcases h with h | h
    · subst h
      exact ⟨xp, yp, rfl, rfl, hx, hy, he⟩
    · exact ih row h
  · intro xp yp rest hx _ _ ih row h
    rw [List.mem_append] at h
    rcases h with h | h
    · unfold JoinWalker.emit at h
      split_ifs at h with hb
      · simp only [List.mem_singleton] at h
        subst h
        exact ⟨hb, xp, rfl, rfl, hx⟩
      · simp at h
    · exact ih row h
  · intro xp yp rest _ hy _ ih row h
    rw [List.mem_append] at h
    rcases h with h | h
    · unfold JoinWalker.emit at h
      split_ifs at h with hb
      · simp only [List.mem_singleton] at h
        subst h
        exact ⟨hb, yp, rfl, rfl, hy⟩
      · simp at h
    · exact ih row h

/-- Every pair of equal index values of strictly ascending indices is a
matched row of the traversal. -/
theorem walk_matched_complete (X Y : List Int) (spec : JoinSpec) (hX : X.Pairwise (· < ·))
    (hY : Y.Pairwise (· < ·)) :
    ∀ fuel xp yp, (X.length - xp) + (Y.length - yp) ≤ fuel →
      ∀ i j, xp ≤ i → yp ≤ j → i < X.length → j < Y.length → X.getD i 0 = Y.getD j 0 →
        (⟨.Matched, some i, some j⟩ : JoinRow) ∈ JoinWalker.walk X Y spec fuel xp yp := by
  apply walk_induction X Y spec (fun xp yp rows =>
    ∀ i j, xp ≤ i → yp ≤ j → i < X.length → j < Y.length → X.getD i 0 = Y.getD j 0 →
        (⟨.Matched, some i, some j⟩ : JoinRow) ∈ rows)
  · intro xp yp hx _ i j h1 _ h3 _ _
    omega
  · intro xp yp rest hx _ _ i j h1 _ h3 _ _
    omega
  · intro xp yp rest _ hy _ i j _ h2 _ h4 _
    omega
  · intro xp yp rest hx hy he ih i j h1 h2 h3 h4 h5
    rw [List.mem_cons]
    by_cases hi : i = xp
    · subst hi
      have hj : j = yp := by
        by_contra hne
        have := sorted_getD_lt hY (show yp < j by omega) h4
        omega
      subst hj
      exact Or.inl rfl
    · right
      have hlt := sorted_getD_lt hX (show xp < i by omega) h3
      have hj : j ≠ yp := by
        intro hj; subst hj; omega
      exact ih i j (by omega) (by omega) h3 h4 h5
  · intro xp yp rest hx hy hl ih i j h1 h2 h3 h4 h5
    rw [List.mem_append]
    right
    have hi : i ≠ xp := by
      intro hi; subst hi
      rcases Nat.eq_or_lt_of_le h2 with h | h
      · subst h; omega
      · have := sorted_getD_lt hY h h4; omega
    exact ih i j (by omega) h2 h3 h4 h5
  · intro xp yp rest hx hy hl ih i j h1 h2 h3 h4 h5
    rw [List.mem_append]
    right
    have hj : j ≠ yp := by
      intro hj; subst hj
      rcases Nat.eq_or_lt_of_le h1 with h | h
      · subst h; omega
      · have := sorted_getD_lt hX h h3; omega
    exact ih i j h1 (by omega) h3 h4 h5

/-- The number of rows of a full outer join of strictly ascending indices. -/
theorem walk_outer_join_length (X Y : List Int) (hX : X.Pairwise (· < ·))
    (hY : Y.Pairwise (· < ·)) :
    ∀ fuel xp yp, (X.length - xp) + (Y.length - yp) ≤ fuel →
      (JoinWalker.walk X Y ⟨true, true⟩ fuel xp yp).length +
        ((X.drop xp).filter (fun v => decide (v ∈ Y.drop yp))).length =
      (X.length - xp) + (Y.length - yp) := by
  apply walk_induction X Y ⟨true, true⟩ (fun xp yp rows =>
    rows.length + ((X.drop xp).filter (fun v => decide (v ∈ Y.drop yp))).length =
      (X.length - xp) + (Y.length - yp))
  · intro xp yp hx hy
    simp [List.drop_eq_nil_of_le hx]
    omega
  · intro xp yp rest hx hy ih
    simp only [List.drop_eq_nil_of_le hx, List.filter_nil, List.length_nil] at ih ⊢
    simp only [JoinWalker.emit, if_true, List.length_append, List.length_singleton]
    omega
  · intro xp yp rest hx hy ih
    have hnil : ∀ l : List Int, l.filter (fun v => decide (v ∈ Y.drop yp)) = [] := by
      intro l; simp [List.drop_eq_nil_of_le hy]
    rw [hnil] at ih ⊢
    simp only [JoinWalker.emit, if_true, List.length_append, List.length_singleton,
      List.length_nil] at ih ⊢
    omega
  · intro xp yp rest hx hy he ih
    rw [drop_eq_getD_cons X xp hx, drop_eq_getD_cons Y yp hy,
      List.filter_cons_of_pos (by rw [he]; simp)]
    have hcongr : (X.drop (xp + 1)).filter (fun v => decide (v ∈ Y.getD yp 0 :: Y.drop (yp + 1)))
        = (X.drop (xp + 1)).filter (fun v => decide (v ∈ Y.drop (yp + 1))) := by
      apply List.filter_congr
      intro z hz
      have := sorted_drop_head hX hx z hz
      have hne : z ≠ Y.getD yp 0 := by omega
      simp only [List.mem_cons, hne, false_or]
    rw [hcongr]
    simp only [List.length_cons]
    omega
  · intro xp yp rest hx hy hl ih
    rw [drop_eq_getD_cons X xp hx, List.filter_cons_of_neg]
    · simp only [JoinWalker.emit, if_true, List.length_append, List.length_singleton]
      omega
    · simp only [decide_eq_true_eq]
      intro hmem
      have := sorted_drop_ge hY hy _ hmem
      omega
  · intro xp yp rest hx hy hl ih
    have hcongr : (X.drop xp).filter (fun v => decide (v ∈ Y.drop yp))
        = (X.drop xp).filter (fun v => decide (v ∈ Y.drop (yp + 1))) := by
      rw [drop_eq_getD_cons Y yp hy]
      apply List.filter_congr
      intro z hz
      have := sorted_drop_ge hX hx z hz
      have hne : z ≠ Y.getD yp 0 := by omega
      simp only [List.mem_cons, hne, false_or]
    rw [hcongr]
    simp only [JoinWalker.emit, if_true, List.length_append, List.length_singleton]
    omega

/-! ## The two passes and the traversal -/

theorem set_result_of_spec {β : Type} (R : RApi β) (t : SEXPTYPE)
    (setr : List β → List β → Nat → Nat → List β) (h : set_result_of R t = .ok setr) :
    ∀ res src a b, setr res src a b = res.set a (src.getD b R.uninit) := by
  intro res src a b
  cases t <;> simp only [set_result_of, reduceCtorEq] at h <;> cases h <;> rfl

/-- The count pass returns the number of rows of the complete traversal. -/
theorem merge_index_length_walk (r X Y : List Int) (lj rj : Bool) :
    merge_index_length { r := r, x := X, y := Y } compare_indexes_int X.length Y.length lj rj
      = .ok (JoinWalker X Y ⟨lj, rj⟩).length := by
  have hgen : ∀ l r' : Bool,
      merge_index_length_generic { r := r, x := X, y := Y } compare_indexes_int
        X.length Y.length l r' (X.length + Y.length + 1) 0 1 1
        = .ok (JoinWalker X Y ⟨l, r'⟩).length := by
    intro l r'
    have h := count_generic_walk { r := r, x := X, y := Y } l r' (X.length + Y.length + 1)
      0 0 0 (Nat.zero_le _) (Nat.zero_le _) (by simp)
    simp only [Nat.zero_add] at h
    rw [h, JoinWalker]
    rw [walk_fuel_aux X Y ⟨l, r'⟩ (X.length + Y.length + 1) (X.length + Y.length) 0 0
      (by simp) (by simp)]
  unfold merge_index_length
  by_cases hb : (rj && lj) = true
  · rw [if_pos hb]
    simp only [Bool.and_eq_true] at hb
    rw [both_eq_generic _ _ _ _ _ _ _ _ (by omega) (by omega) (by omega), hb.1, hb.2]
    exact hgen true true
  · rw [if_neg hb]
    exact hgen lj rj

/-- The fill pass stores the rows of the complete traversal. -/
theorem merge_loop_rows {β : Type} (R : RApi β) (setr : List β → List β → Nat → Nat → List β)
    (hset : ∀ res src a b, setr res src a b = res.set a (src.getD b R.uninit))
    (X Y : List Int) (dx dy df : List β) (ncx ncy : Nat) (lj rj : Bool) :
    ∃ s, merge_loop
        (merge_env_int setr dx dy df X.length ncx Y.length ncy lj rj
          (JoinWalker X Y ⟨lj, rj⟩).length)
        (X.length + Y.length)
        (merge_init R X Y ncx ncy (JoinWalker X Y ⟨lj, rj⟩).length) = .ok s ∧
      s.idx.r = rows_index X Y (JoinWalker X Y ⟨lj, rj⟩) ∧
      s.result.length = (ncx + ncy) * (JoinWalker X Y ⟨lj, rj⟩).length ∧
      RowsStored R X Y dx dy df X.length ncx Y.length ncy (JoinWalker X Y ⟨lj, rj⟩).length
        (JoinWalker X Y ⟨lj, rj⟩) s.idx.r s.result ∧
      JoinWalker.walk X Y ⟨lj, rj⟩ (X.length + Y.length) (s.xp - 1) (s.yp - 1) = [] := by
  have hinv : FillInv R X Y dx dy df X.length ncx Y.length ncy (JoinWalker X Y ⟨lj, rj⟩).length
      [] (merge_init R X Y ncx ncy (JoinWalker X Y ⟨lj, rj⟩).length) := by
    refine ⟨rfl, rfl, ?_, ?_, rfl, ?_⟩
    · simp [merge_init]
    · simp [merge_init]
    · intro k hk
      simp at hk
  obtain ⟨s, h1, h2, _, h4⟩ := merge_loop_walk R setr hset X Y dx dy df ncx ncy lj rj
    (JoinWalker X Y ⟨lj, rj⟩).length (X.length + Y.length)
    (merge_init R X Y ncx ncy (JoinWalker X Y ⟨lj, rj⟩).length) [] hinv
    (by simp [merge_init]) (by simp [merge_init]) (by simp [merge_init]) (by simp [merge_init])
    (by simp [merge_init]) (by simp [merge_init, JoinWalker])
  simp only [merge_init, Nat.sub_self, List.nil_append] at h2
  change FillInv R X Y dx dy df X.length ncx Y.length ncy (JoinWalker X Y ⟨lj, rj⟩).length
    (JoinWalker X Y ⟨lj, rj⟩) s at h2
  refine ⟨s, h1, ?_, h2.hres, h2.stored, h4⟩
  apply List.ext_getElem?
  intro k
  by_cases hk : k < (JoinWalker X Y ⟨lj, rj⟩).length
  · rw [(h2.stored k hk).1]
    simp [rows_index, List.getElem?_map, List.getElem?_eq_getElem hk]
  · rw [List.getElem?_eq_none (by rw [h2.hr]; omega),
      List.getElem?_eq_none (by simp [rows_index]; omega)]


theorem getD_of_getElem? {α : Type} {l : List α} {k : Nat} {a d : α} (h : l[k]? = some a) :
    l.getD k d = a := by
  rw [List.getD_eq_getElem?_getD, h]; rfl

/-- What `do_merge_xts` returns for two objects that pass the check of the
index, when the merged index is not empty. -/
theorem do_merge_xts_rows {β : Type} (R : RApi β) (x y : SEXP β) (all : Bool × Bool)
    (fill : SEXP β) (retside : Bool × Bool) (coerce : Bool)
    (set_result : List β → List β → Nat → Nat → List β)
    (hnrx : (zero_width_operands R x y retside).nrx = x.index.length)
    (hnry : (zero_width_operands R x y retside).nry = y.index.length)
    (hchk : check_index_int x.index y.index x.index.length y.index.length = .ok ())
    (hrows : JoinWalker x.index y.index ⟨all.1, all.2⟩ ≠ [])
    (hset : set_result_of R (coerce_operand R coerce (zero_width_operands R x y retside).x
      (zero_width_operands R x y retside).y (zero_width_operands R x y retside).x).type
      = .ok set_result) :
    ∃ r, do_merge_xts R (some x) (some y) all fill retside coerce = .ok (some r) ∧
      r.type = (coerce_operand R coerce (zero_width_operands R x y retside).x
        (zero_width_operands R x y retside).y (zero_width_operands R x y retside).x).type ∧
      r.index = rows_index x.index y.index (JoinWalker x.index y.index ⟨all.1, all.2⟩) ∧
      r.dim = result_dim retside
        (coerce_operand R coerce (zero_width_operands R x y retside).x
          (zero_width_operands R x y retside).y (zero_width_operands R x y retside).x)
        (coerce_operand R coerce (zero_width_operands R x y retside).x
          (zero_width_operands R x y retside).y (zero_width_operands R x y retside).y)
        (JoinWalker x.index y.index ⟨all.1, all.2⟩).length
        (zero_width_operands R x y retside).ncx (zero_width_operands R x y retside).ncy ∧
      r.data.length = ((zero_width_operands R x y retside).ncx +
        (zero_width_operands R x y retside).ncy) *
          (JoinWalker x.index y.index ⟨all.1, all.2⟩).length ∧
      RowsStored R x.index y.index
        (coerce_operand R coerce (zero_width_operands R x y retside).x
          (zero_width_operands R x y retside).y (zero_width_operands R x y retside).x).data
        (coerce_operand R coerce (zero_width_operands R x y retside).x
          (zero_width_operands R x y retside).y (zero_width_operands R x y retside).y).data
        (ensure_fill R fill (coerce_operand R coerce (zero_width_operands R x y retside).x
          (zero_width_operands R x y retside).y (zero_width_operands R x y retside).x).type).data
        x.index.length (zero_width_operands R x y retside).ncx
        y.index.length (zero_width_operands R x y retside).ncy
        (JoinWalker x.index y.index ⟨all.1, all.2⟩).length
        (JoinWalker x.index y.index ⟨all.1, all.2⟩) r.index r.data := by
  have hn : (JoinWalker x.index y.index ⟨all.1, all.2⟩).length ≠ 0 := by
    intro h; exact hrows (List.eq_nil_of_length_eq_zero h)
  obtain ⟨s, h1, h2, h3, h4, _⟩ := merge_loop_rows R set_result
    (set_result_of_spec R _ set_result hset) x.index y.index
    (coerce_operand R coerce (zero_width_operands R x y retside).x
      (zero_width_operands R x y retside).y (zero_width_operands R x y retside).x).data
    (coerce_operand R coerce (zero_width_operands R x y retside).x
      (zero_width_operands R x y retside).y (zero_width_operands R x y retside).y).data
    (ensure_fill R fill (coerce_operand R coerce (zero_width_operands R x y retside).x
      (zero_width_operands R x y retside).y (zero_width_operands R x y retside).x).type).data
    (zero_width_operands R x y retside).ncx (zero_width_operands R x y retside).ncy all.1 all.2
  refine ⟨⟨_, s.result, result_dim retside
      (coerce_operand R coerce (zero_width_operands R x y retside).x
        (zero_width_operands R x y retside).y (zero_width_operands R x y retside).x)
      (coerce_operand R coerce (zero_width_operands R x y retside).x
        (zero_width_operands R x y retside).y (zero_width_operands R x y retside).y)
      (JoinWalker x.index y.index ⟨all.1, all.2⟩).length
      (zero_width_operands R x y retside).ncx (zero_width_operands R x y retside).ncy,
    s.idx.r⟩, ?_, rfl, h2, rfl, h3, h4⟩
  simp only [do_merge_xts, hnrx, hnry, hchk, merge_index_length_walk, if_neg hn, hset, h1]

/-! ## The positions and the values of the merged index -/

theorem index_pos_getD {X : List Int} (hX : X.Pairwise (· < ·)) {i : Nat} (hi : i < X.length) :
    index_pos X (X.getD i 0) = some i := by
  have hnodup : X.Nodup := hX.imp (fun h => ne_of_lt h)
  have hmem : X.getD i 0 ∈ X := by
    rw [List.getD_eq_getElem _ _ hi]; exact List.getElem_mem hi
  rw [index_pos, if_pos hmem, List.getD_eq_getElem _ _ hi, List.indexOf_getElem hnodup i hi]

theorem index_pos_none {X : List Int} {v : Int} (h : ∀ i, i < X.length → X.getD i 0 ≠ v) :
    index_pos X v = none := by
  rw [index_pos, if_neg]
  intro hmem
  obtain ⟨i, hi, he⟩ := List.mem_iff_getElem.mp hmem
  exact h i hi (by rw [List.getD_eq_getElem _ _ hi]; exact he)

theorem walk_inv_left {X Y : List Int} (hX : X.Pairwise (· < ·)) {xp yp : Nat}
    (h : walk_inv X Y xp yp)
    (hstep : xp < X.length → yp < Y.length → X.getD xp 0 < Y.getD yp 0) :
    walk_inv X Y (xp + 1) yp := by
  refine ⟨fun hx j hj hjl => ?_, fun hy i hi hil => ?_⟩
  · have h1 := h.1 (by omega) j hj hjl
    have h2 := sorted_getD_lt hX (show xp < xp + 1 by omega) hx
    omega
  · rcases Nat.lt_or_ge i xp with hlt | hge
    · exact h.2 hy i hlt hil
    · have : i = xp := by omega
      subst this
      exact hstep hil hy

theorem walk_inv_right {X Y : List Int} (hY : Y.Pairwise (· < ·)) {xp yp : Nat}
    (h : walk_inv X Y xp yp)
    (hstep : xp < X.length → yp < Y.length → Y.getD yp 0 < X.getD xp 0) :
    walk_inv X Y xp (yp + 1) := by
  refine ⟨fun hx j hj hjl => ?_, fun hy i hi hil => ?_⟩
  · rcases Nat.lt_or_ge j yp with hlt | hge
    · exact h.1 hx j hlt hjl
    · have : j = yp := by omega
      subst this
      exact hstep hx hjl
  · have h1 := h.2 (by omega) i hi hil
    have h2 := sorted_getD_lt hY (show yp < yp + 1 by omega) hy
    omega

theorem walk_inv_both {X Y : List Int} (hX : X.Pairwise (· < ·)) (hY : Y.Pairwise (· < ·))
    {xp yp : Nat} (h : walk_inv X Y xp yp) (hx : xp < X.length) (hy : yp < Y.length)
    (he : X.getD xp 0 = Y.getD yp 0) : walk_inv X Y (xp + 1) (yp + 1) := by
  refine ⟨fun hx1 j hj hjl => ?_, fun hy1 i hi hil => ?_⟩
  · have h2 := sorted_getD_lt hX (show xp < xp + 1 by omega) hx1
    rcases Nat.lt_or_ge j yp with hlt | hge
    · have h1 := h.1 hx j hlt hjl
      omega
    · have : j = yp := by omega
      subst this
      omega
  · have h2 := sorted_getD_lt hY (show yp < yp + 1 by omega) hy1
    rcases Nat.lt_or_ge i xp with hlt | hge
    · have h1 := h.2 hy i hlt hil
      omega
    · have : i = xp := by omega
      subst this
      omega

theorem left_only_pos {X Y : List Int} (hX : X.Pairwise (· < ·)) (hY : Y.Pairwise (· < ·))
    {xp yp : Nat} (h : walk_inv X Y xp yp) (hx : xp < X.length)
    (hstep : yp < Y.length → X.getD xp 0 < Y.getD yp 0) :
    index_pos X (X.getD xp 0) = some xp ∧ index_pos Y (X.getD xp 0) = none := by
  refine ⟨index_pos_getD hX hx, index_pos_none (fun j hj => ?_)⟩
  rcases Nat.lt_or_ge j yp with hlt | hge
  · have := h.1 hx j hlt hj
    omega
  · have hy : yp < Y.length := by omega
    have h1 := hstep hy
    rcases Nat.eq_or_lt_of_le hge with heq | hlt
    · subst heq; omega
    · have := sorted_getD_lt hY hlt hj
      omega

theorem right_only_pos {X Y : List Int} (hX : X.Pairwise (· < ·)) (hY : Y.Pairwise (· < ·))
    {xp yp : Nat} (h : walk_inv X Y xp yp) (hy : yp < Y.length)
    (hstep : xp < X.length → Y.getD yp 0 < X.getD xp 0) :
    index_pos X (Y.getD yp 0) = none ∧ index_pos Y (Y.getD yp 0) = some yp := by
  refine ⟨index_pos_none (fun i hi => ?_), index_pos_getD hY hy⟩
  rcases Nat.lt_or_ge i xp with hlt | hge
  · have := h.2 hy i hlt hi
    omega
  · have hx : xp < X.length := by omega
    have h1 := hstep hx
    rcases Nat.eq_or_lt_of_le hge with heq | hlt
    · subst heq; omega
    · have := sorted_getD_lt hX hlt hi
      omega

/-- In a traversal of strictly ascending indices a row names the positions of
its index value in the two indices. -/
theorem walk_row_pos (X Y : List Int) (spec : JoinSpec) (hX : X.Pairwise (· < ·))
    (hY : Y.Pairwise (· < ·)) :
    ∀ fuel xp yp, (X.length - xp) + (Y.length - yp) ≤ fuel → walk_inv X Y xp yp →
      ∀ row ∈ JoinWalker.walk X Y spec fuel xp yp,
        row.leftPos = index_pos X (row.index X Y) ∧
        row.rightPos = index_pos Y (row.index X Y) := by
  apply walk_induction X Y spec (fun xp yp rows => walk_inv X Y xp yp →
      ∀ row ∈ rows, row.leftPos = index_pos X (row.index X Y) ∧
        row.rightPos = index_pos Y (row.index X Y))
  · intro xp yp _ _ _ row h
    simp at h
  · intro xp yp rest hx hy ih hinv row h
    rw [List.mem_append] at h
    rcases h with h | h
    · unfold JoinWalker.emit at h
      split_ifs at h
      · simp only [List.mem_singleton] at h
        subst h
        have := right_only_pos hX hY hinv hy (fun hx' => by omega)
        exact ⟨this.1.symm, this.2.symm⟩
      · simp at h
    · exact ih (walk_inv_right hY hinv (fun hx' => by omega)) row h
  · intro xp yp rest hx hy ih hinv row h
    rw [List.mem_append] at h
    rcases h with h | h
    · unfold JoinWalker.emit at h
      split_ifs at h
      · simp only [List.mem_singleton] at h
        subst h
        have := left_only_pos hX hY hinv hx (fun hy' => by omega)
        exact ⟨this.1.symm, this.2.symm⟩
      · simp at h
    · exact ih (walk_inv_left hX hinv (fun _ hy' => by omega)) row h
  · intro xp yp rest hx hy he ih hinv row h
    rw [List.mem_cons] at h
    rcases h with h | h
    · subst h
      refine ⟨(index_pos_getD hX hx).symm, ?_⟩
      show some yp = index_pos Y (X.getD xp 0)
      rw [he]
      exact (index_pos_getD hY hy).symm
    · exact ih (walk_inv_both hX hY hinv hx hy he) row h
  · intro xp yp rest hx hy hl ih hinv row h
    rw [List.mem_append] at h
    rcases h with h | h
    · unfold JoinWalker.emit at h
      split_ifs at h
      · simp only [List.mem_singleton] at h
        subst h
        have := left_only_pos hX hY hinv hx (fun _ => hl)
        exact ⟨this.1.symm, this.2.symm⟩
      · simp at h
    · exact ih (walk_inv_left hX hinv (fun _ _ => hl)) row h
  · intro xp yp rest hx hy hl ih hinv row h
    rw [List.mem_append] at h
    rcases h with h | h
    · unfold JoinWalker.emit at h
      split_ifs at h
      · simp only [List.mem_singleton] at h
        subst h
        have := right_only_pos hX hY hinv hy (fun _ => hl)
        exact ⟨this.1.symm, this.2.symm⟩
      · simp at h
    · exact ih (walk_inv_right hY hinv (fun _ _ => hl)) row h

theorem walk_left_included (X Y : List Int) (rj : Bool) :
    ∀ fuel xp yp, (X.length - xp) + (Y.length - yp) ≤ fuel →
      ∀ v ∈ X.drop xp, v ∈ rows_index X Y (JoinWalker.walk X Y ⟨true, rj⟩ fuel xp yp) := by
  apply walk_induction X Y ⟨true, rj⟩
    (fun xp _ rows => ∀ v ∈ X.drop xp, v ∈ rows_index X Y rows)
  · intro xp yp hx _ v hv
    simp [List.drop_eq_nil_of_le hx] at hv
  · intro xp yp rest hx _ _ v hv
    simp [List.drop_eq_nil_of_le hx] at hv
  · intro xp yp rest hx _ ih v hv
    rw [rows_index_emit_left]
    rw [drop_eq_getD_cons X xp hx, List.mem_cons] at hv
    simp only [if_true, List.singleton_append, List.mem_cons]
    exact hv.imp id (ih v)
  · intro xp yp rest hx _ _ ih v hv
    rw [rows_index_matched]
    rw [drop_eq_getD_cons X xp hx, List.mem_cons] at hv
    simp only [List.mem_cons]
    exact hv.imp id (ih v)
  · intro xp yp rest hx _ _ ih v hv
    rw [rows_index_emit_left]
    rw [drop_eq_getD_cons X xp hx, List.mem_cons] at hv
    simp only [if_true, List.singleton_append, List.mem_cons]
    exact hv.imp id (ih v)
  · intro xp yp rest _ _ _ ih v hv
    rw [rows_index_emit_right, List.mem_append]
    exact Or.inr (ih v hv)

theorem walk_right_included (X Y : List Int) (lj : Bool) :
    ∀ fuel xp yp, (X.length - xp) + (Y.length - yp) ≤ fuel →
      ∀ v ∈ Y.drop yp, v ∈ rows_index X Y (JoinWalker.walk X Y ⟨lj, true⟩ fuel xp yp) := by
  apply walk_induction X Y ⟨lj, true⟩
    (fun _ yp rows => ∀ v ∈ Y.drop yp, v ∈ rows_index X Y rows)
  · intro xp yp _ hy v hv
    simp [List.drop_eq_nil_of_le hy] at hv
  · intro xp yp rest _ hy ih v hv
    rw [rows_index_emit_right]
    rw [drop_eq_getD_cons Y yp hy, List.mem_cons] at hv
    simp only [if_true, List.singleton_append, List.mem_cons]
    exact hv.imp id (ih v)
  · intro xp yp rest _ hy _ v hv
    simp [List.drop_eq_nil_of_le hy] at hv
  · intro xp yp rest _ hy he ih v hv
    rw [rows_index_matched]
    rw [drop_eq_getD_cons Y yp hy, List.mem_cons] at hv
    simp only [List.mem_cons]
    rw [he]
    exact hv.imp id (ih v)
  · intro xp yp rest _ _ _ ih v hv
    rw [rows_index_emit_left, List.mem_append]
    exact Or.inr (ih v hv)
  · intro xp yp rest _ hy _ ih v hv
    rw [rows_index_emit_right]
    rw [drop_eq_getD_cons Y yp hy, List.mem_cons] at hv
    simp only [if_true, List.singleton_append, List.mem_cons]
    exact hv.imp id (ih v)

theorem mem_getD {X : List Int} {v : Int} (h : v ∈ X) : ∃ i, i < X.length ∧ X.getD i 0 = v := by
  obtain ⟨i, hi, he⟩ := List.mem_iff_getElem.mp h
  exact ⟨i, hi, by rw [List.getD_eq_getElem _ _ hi]; exact he⟩

theorem getD_mem {X : List Int} {i : Nat} (h : i < X.length) : X.getD i 0 ∈ X := by
  rw [List.getD_eq_getElem _ _ h]; exact List.getElem_mem h

/-- The values of the merged index of strictly ascending indices. -/
theorem mem_merged_index (X Y : List Int) (all : Bool × Bool) (hX : X.Pairwise (· < ·))
    (hY : Y.Pairwise (· < ·)) (v : Int) :
    v ∈ merged_index X Y all ↔
      (v ∈ X ∧ v ∈ Y) ∨ (all.1 = true ∧ v ∈ X) ∨ (all.2 = true ∧ v ∈ Y) := by
  constructor
  · intro h
    obtain ⟨row, hrow, hv⟩ := List.mem_map.mp h
    have hw := walk_row_wf X Y ⟨all.1, all.2⟩ (X.length + Y.length) 0 0 (by simp) row hrow
    obtain ⟨kind, lp, rp⟩ := row
    cases kind
    · obtain ⟨hl, i, h1, _, hi⟩ := hw
      simp only at h1 hl
      subst h1
      exact Or.inr (Or.inl ⟨hl, by rw [← hv]; exact getD_mem hi⟩)
    · obtain ⟨hr, j, _, h1, hj⟩ := hw
      simp only at h1 hr
      subst h1
      exact Or.inr (Or.inr ⟨hr, by rw [← hv]; exact getD_mem hj⟩)
    · obtain ⟨i, j, h1, h2, hi, hj, he⟩ := hw
      simp only at h1 h2
      subst h1 h2
      refine Or.inl ⟨by rw [← hv]; exact getD_mem hi, ?_⟩
      rw [← hv]
      show X.getD i 0 ∈ Y
      rw [he]; exact getD_mem hj
  · rintro (⟨hx, hy⟩ | ⟨hl, hx⟩ | ⟨hr, hy⟩)
    · obtain ⟨i, hi, hxi⟩ := mem_getD hx
      obtain ⟨j, hj, hyj⟩ := mem_getD hy
      have := walk_matched_complete X Y ⟨all.1, all.2⟩ hX hY (X.length + Y.length) 0 0
        (by simp) i j (Nat.zero_le _) (Nat.zero_le _) hi hj (by rw [hxi, hyj])
      exact List.mem_map.mpr ⟨_, this, hxi⟩
    · have := walk_left_included X Y all.2 (X.length + Y.length) 0 0 (by simp) v (by simpa using hx)
      unfold merged_index JoinWalker
      rw [hl]
      exact this
    · have := walk_right_included X Y all.1 (X.length + Y.length) 0 0 (by simp) v (by simpa using hy)
      unfold merged_index JoinWalker
      rw [hr]
      exact this

theorem merged_index_sorted (X Y : List Int) (all : Bool × Bool) (hX : X.Pairwise (· < ·))
    (hY : Y.Pairwise (· < ·)) : (merged_index X Y all).Pairwise (· < ·) :=
  (walk_sorted X Y ⟨all.1, all.2⟩ hX hY (X.length + Y.length) 0 0 (by simp)).1

/-- A strictly ascending list is determined by its values. -/
theorem sorted_ext {L1 L2 : List Int} (h1 : L1.Pairwise (· < ·)) (h2 : L2.Pairwise (· < ·))
    (h : ∀ v, v ∈ L1 ↔ v ∈ L2) : L1 = L2 := by
  have hn1 : L1.Nodup := h1.imp (fun h => ne_of_lt h)
  have hn2 : L2.Nodup := h2.imp (fun h => ne_of_lt h)
  have hp : L1.Perm L2 := (List.perm_ext_iff_of_nodup hn1 hn2).mpr h
  exact List.eq_of_perm_of_sorted hp (h1.imp (fun h => le_of_lt h))
    (h2.imp (fun h => le_of_lt h))

/-! ## The merge of two tables -/

theorem check_index_int_ok {X Y : List Int} (hx : X ≠ []) (hy : Y ≠ [])
    (hNAx : NA_INTEGER ∉ X) (hNAy : NA_INTEGER ∉ Y) :
    check_index_int X Y X.length Y.length = .ok () := by
  have hlx : X.length ≠ 0 := fun h => hx (List.eq_nil_of_length_eq_zero h)
  have hly : Y.length ≠ 0 := fun h => hy (List.eq_nil_of_length_eq_zero h)
  have hbx : X.length - 1 < X.length := by omega
  have hby : Y.length - 1 < Y.length := by omega
  have h1 : X[X.length - 1]? = some (X.get ⟨X.length - 1, hbx⟩) :=
    List.getElem?_eq_getElem hbx
  have h2 : Y[Y.length - 1]? = some (Y.get ⟨Y.length - 1, hby⟩) :=
    List.getElem?_eq_getElem hby
  have h3 : X.get ⟨X.length - 1, hbx⟩ ≠ NA_INTEGER := fun h =>
    hNAx (h ▸ List.get_mem _ _ _)
  have h4 : Y.get ⟨Y.length - 1, hby⟩ ≠ NA_INTEGER := fun h =>
    hNAy (h ▸ List.get_mem _ _ _)
  simp only [check_index_int, if_neg hlx, if_neg hly, h1, h2, if_neg h3, if_neg h4]

theorem coerceVector_same {β : Type} (R : RApi β) (x : SEXP β) (t : SEXPTYPE) (h : x.type = t) :
    coerceVector R x t = x := by
  simp [coerceVector, h]

theorem zero_width_operands_table {β : Type} (R : RApi β) (x y : SEXP β) (hx : Table x)
    (hy : Table y) (ht : x.type = y.type) (hnx : x.index ≠ []) (hny : y.index ≠ []) (b : Bool) :
    zero_width_operands R x y (b, b) =
      { nrx := x.index.length, ncx := if b then ncols x else 0
        nry := y.index.length, ncy := if b then ncols y else 0
        x := x, y := y } := by
  have hlx : x.index.length ≠ 0 := fun h => hnx (List.eq_nil_of_length_eq_zero h)
  have hly : y.index.length ≠ 0 := fun h => hny (List.eq_nil_of_length_eq_zero h)
  have hcx : ∀ z : SEXP β, Table z → z.index.length ≠ 0 → z.data.length = 0 → ncols z = 0 := by
    intro z hz hl h0
    have h1 := hz.2
    rw [h0, ← hz.1] at h1
    rcases Nat.mul_eq_zero.mp h1.symm with h | h
    · exact absurd h hl
    · exact h
  cases b
  · simp [zero_width_operands, zero_width, coerceVector_same R x y.type ht,
      coerceVector_same R y x.type ht.symm]
  · by_cases h0 : x.data.length = 0 <;> by_cases h1 : y.data.length = 0 <;>
      simp [zero_width_operands, zero_width, LENGTH, h0, h1, coerceVector_same R x y.type ht,
        coerceVector_same R y x.type ht.symm, hcx x hx hlx, hcx y hy hly, hx.1, hy.1]

theorem walk_inv_zero (X Y : List Int) : walk_inv X Y 0 0 :=
  ⟨fun _ j hj => by omega, fun _ i hi => by omega⟩

/-- The merge of two tables of one type with strictly ascending indices, when
both sides (`b` true) or no side (`b` false) are returned and the merged
index is not empty: the merged index, and in every cell what the table of
its column holds for the index value of its row. -/
theorem do_merge_xts_table {β : Type} (R : RApi β) (t : SEXPTYPE)
    (set_result : List β → List β → Nat → Nat → List β) (hsup : set_result_of R t = .ok set_result)
    (x y : SEXP β) (hx : Table x) (hy : Table y) (htx : x.type = t) (hty : y.type = t)
    (hsx : x.index.Pairwise (· < ·)) (hsy : y.index.Pairwise (· < ·))
    (hNAx : NA_INTEGER ∉ x.index) (hNAy : NA_INTEGER ∉ y.index)
    (hnx : x.index ≠ []) (hny : y.index ≠ [])
    (all : Bool × Bool) (fill : SEXP β) (b : Bool)
    (hI : merged_index x.index y.index all ≠ []) :
    ∃ r, do_merge_xts R (some x) (some y) all fill (b, b) false = .ok (some r) ∧
      r.type = t ∧ r.index = merged_index x.index y.index all ∧
      r.dim = some ((merged_index x.index y.index all).length,
        (if b then ncols x else 0) + (if b then ncols y else 0)) ∧
      r.data.length = ((if b then ncols x else 0) + (if b then ncols y else 0)) *
        (merged_index x.index y.index all).length ∧
      (∀ k c, k < (merged_index x.index y.index all).length → c < (if b then ncols x else 0) →
        r.data[k + c * (merged_index x.index y.index all).length]? =
          some (lookup_cell R x.data x.index ((ensure_fill R fill t).data.getD 0 R.uninit)
            ((merged_index x.index y.index all).getD k 0) c)) ∧
      (∀ k c, k < (merged_index x.index y.index all).length → c < (if b then ncols y else 0) →
        r.data[k + (c + (if b then ncols x else 0)) * (merged_index x.index y.index all).length]? =
          some (lookup_cell R y.data y.index ((ensure_fill R fill t).data.getD 0 R.uninit)
            ((merged_index x.index y.index all).getD k 0) c)) := by
  have ho := zero_width_operands_table R x y hx hy (htx.trans hty.symm) hnx hny b
  have hco : ∀ z : SEXP β, coerce_operand R false x y z = z := by
    intro z
    simp [coerce_operand, htx, hty]
  have hrows : JoinWalker x.index y.index ⟨all.1, all.2⟩ ≠ [] := by
    intro h
    apply hI
    simp [merged_index, rows_index, h]
  have hlen : (merged_index x.index y.index all).length =
      (JoinWalker x.index y.index ⟨all.1, all.2⟩).length := by
    simp [merged_index, rows_index]
  obtain ⟨r, h1, h2, h3, h4, h5, h6⟩ := do_merge_xts_rows R x y all fill (b, b) false set_result
    (by rw [ho]) (by rw [ho]) (check_index_int_ok hnx hny hNAx hNAy) hrows
    (by rw [ho]; simp only [hco, htx]; exact hsup)
  rw [ho] at h2 h4 h5 h6
  simp only [hco, htx] at h2 h4 h5 h6
  have hpos := walk_row_pos x.index y.index ⟨all.1, all.2⟩ hsx hsy
    (x.index.length + y.index.length) 0 0 (by simp) (walk_inv_zero _ _)
  have hget : ∀ k (hk : k < (JoinWalker x.index y.index ⟨all.1, all.2⟩).length),
      (merged_index x.index y.index all).getD k 0 =
        ((JoinWalker x.index y.index ⟨all.1, all.2⟩).get ⟨k, hk⟩).index x.index y.index := by
    intro k hk
    rw [List.getD_eq_getElem _ _ (by rw [hlen]; exact hk)]
    simp [merged_index, rows_index]
  refine ⟨r, h1, h2, h3, ?_, ?_, ?_, ?_⟩
  · rw [h4, hlen]
    simp [result_dim]
  · rw [h5, hlen]
  · intro k c hk hc
    rw [hlen] at hk ⊢
    rw [(h6 k hk).2.1 c hc, hget k hk]
    have hp := (hpos _ (List.get_mem _ _ _ : (JoinWalker x.index y.index ⟨all.1, all.2⟩).get
      ⟨k, hk⟩ ∈ _)).1
    simp only [JoinRow.left_cell, lookup_cell, hp]
  · intro k c hk hc
    rw [hlen] at hk ⊢
    rw [(h6 k hk).2.2 c hc, hget k hk]
    have hp := (hpos _ (List.get_mem _ _ _ : (JoinWalker x.index y.index ⟨all.1, all.2⟩).get
      ⟨k, hk⟩ ∈ _)).2
    simp only [JoinRow.right_cell, lookup_cell, hp]

/-! ## The n-way merge of tables -/

theorem mergeXts_insert_succ {β : Type} (R : RApi β) (xtmp : List β) (nr nc i : Nat)
    (result : List β) :
    mergeXts_insert R xtmp nr (nc + 1) i result =
      (List.range nr).foldl
        (fun res ii => res.set (ii + (i + nc) * nr) (xtmp.getD (ii + nc * nr) R.uninit))
        (mergeXts_insert R xtmp nr nc i result) := by
  unfold mergeXts_insert
  rw [List.range_succ, List.foldl_append]
  rfl

theorem mergeXts_insert_length {β : Type} (R : RApi β) (xtmp : List β) (nr nc i : Nat)
    (result : List β) : (mergeXts_insert R xtmp nr nc i result).length = result.length := by
  induction nc with
  | zero => rfl
  | succ nc ih =>
    rw [mergeXts_insert_succ]
    rw [foldl_set_length (fun ii => ii + (i + nc) * nr)
      (fun ii => xtmp.getD (ii + nc * nr) R.uninit)]
    exact ih

theorem mergeXts_insert_frame {β : Type} (R : RApi β) (xtmp : List β) (nr nc i : Nat)
    (result : List β) (k j : Nat) (hk : k < nr) (hj : j < i ∨ i + nc ≤ j) :
    (mergeXts_insert R xtmp nr nc i result)[k + j * nr]? = result[k + j * nr]? := by
  induction nc with
  | zero => rfl
  | succ nc ih =>
    rw [mergeXts_insert_succ]
    rw [foldl_set_frame (fun ii => ii + (i + nc) * nr)
      (fun ii => xtmp.getD (ii + nc * nr) R.uninit)]
    · exact ih (by omega)
    · intro ii hii h
      have := (slot_inj hii hk h).2
      omega

theorem mergeXts_insert_effect {β : Type} (R : RApi β) (xtmp : List β) (nr nc i : Nat)
    (result : List β) (k jj : Nat) (hk : k < nr) (hjj : jj < nc)
    (hlen : k + (i + jj) * nr < result.length) :
    (mergeXts_insert R xtmp nr nc i result)[k + (i + jj) * nr]? =
      some (xtmp.getD (k + jj * nr) R.uninit) := by
  induction nc with
  | zero => omega
  | succ nc ih =>
    rw [mergeXts_insert_succ]
    by_cases h : jj = nc
    · subst h
      exact foldl_set_effect (fun ii => ii + (i + jj) * nr)
        (fun ii => xtmp.getD (ii + jj * nr) R.uninit) nr _
        (fun a b _ _ hab => by simp only at hab; omega) k hk
        (by rw [mergeXts_insert_length]; exact hlen)
    · rw [foldl_set_frame (fun ii => ii + (i + nc) * nr)
        (fun ii => xtmp.getD (ii + nc * nr) R.uninit)]
      · exact ih (by omega)
      · intro ii hii hh
        have := (slot_inj hii hk hh).2
        omega

theorem table_ncols_eq_zero {β : Type} {z : SEXP β} (hz : Table z) (hn : z.index ≠ [])
    (h0 : z.data.length = 0) : ncols z = 0 := by
  have hl : z.index.length ≠ 0 := fun h => hn (List.eq_nil_of_length_eq_zero h)
  have h1 := hz.2
  rw [h0, ← hz.1] at h1
  rcases Nat.mul_eq_zero.mp h1.symm with h | h
  · exact absurd h hl
  · exact h

theorem mergeXts_scan_table {β : Type} (t : SEXPTYPE) (z : SEXP β) (hz : Table z)
    (hn : z.index ≠ []) (ht : z.type = t) (args : List (Option (SEXP β))) (ncs : Nat) :
    mergeXts_scan t (some z :: args) ncs false = mergeXts_scan t args (ncs + ncols z) false := by
  rw [mergeXts_scan]
  by_cases h0 : z.data.length > 0
  · rw [if_pos h0]
    simp [ht]
  · rw [if_neg h0, table_ncols_eq_zero hz hn (by omega)]
    rfl

/-- One pass of the loop of `mergeXts` over the objects, for an object whose
merge with the index has `n` rows. -/
theorem mergeXts_each_step {β : Type} (R : RApi β) (all : Bool × Bool) (fill : SEXP β)
    (retside : Bool × Bool) (coerce : Bool) (S z P : SEXP β) (n : Nat)
    (hP : do_merge_xts R (some S) (some z) all fill retside coerce = .ok (some P))
    (hn : nrows P = n) (hn0 : n ≠ 0)
    (hkind : P.type = .LGLSXP ∨ P.type = .INTSXP ∨ P.type = .REALSXP)
    (args : List (Option (SEXP β))) (i ncs : Nat) (result : List β) :
    mergeXts_each R all fill retside coerce (some S)
        (decide (P.type ≠ .REALSXP)) (decide (P.type = .REALSXP))
        (some z :: args) i ncs result =
      mergeXts_each R all fill retside coerce (some S)
        (decide (P.type ≠ .REALSXP)) (decide (P.type = .REALSXP))
        args (i + ncols P) (ncs + ncols P) (mergeXts_insert R P.data n (ncols P) i result) := by
  rw [mergeXts_each, hP]
  have h0 : ¬ (0 = n) := by omega
  rcases hkind with h | h | h <;> simp [h, hn, h0]

theorem set_result_of_kind {β : Type} (R : RApi β) {t : SEXPTYPE}
    (hkind : t = .LGLSXP ∨ t = .INTSXP ∨ t = .REALSXP) :
    ∃ set_result, set_result_of R t = .ok set_result := by
  rcases hkind with h | h | h <;> subst h <;> exact ⟨_, rfl⟩

theorem index_pos_of_mem {X : List Int} {v : Int} (hX : X.Pairwise (· < ·)) (h : v ∈ X) :
    ∃ p, p < X.length ∧ X.getD p 0 = v ∧ index_pos X v = some p := by
  obtain ⟨p, hp, hv⟩ := mem_getD h
  exact ⟨p, hp, hv, by rw [← hv]; exact index_pos_getD hX hp⟩

theorem index_pos_of_not_mem {X : List Int} {v : Int} (h : v ∉ X) : index_pos X v = none := by
  rw [index_pos, if_neg h]

/-- What the merge of the tables `a` and `b` holds for an index value is what
`a` and `b` hold for it. -/
theorem lookup_cell_merged {β : Type} (R : RApi β) (da db dab : List β) (A B I1 : List Int)
    (nca ncb : Nat) (F : β) (hI1 : I1.Pairwise (· < ·))
    (hca : ∀ k c, k < I1.length → c < nca →
      dab[k + c * I1.length]? = some (lookup_cell R da A F (I1.getD k 0) c))
    (hcb : ∀ k c, k < I1.length → c < ncb →
      dab[k + (c + nca) * I1.length]? = some (lookup_cell R db B F (I1.getD k 0) c))
    (v : Int) (hv : v ∈ I1 ∨ (v ∉ A ∧ v ∉ B)) :
    (∀ c, c < nca → lookup_cell R dab I1 F v c = lookup_cell R da A F v c) ∧
    (∀ c, c < ncb → lookup_cell R dab I1 F v (c + nca) = lookup_cell R db B F v c) := by
  by_cases hmem : v ∈ I1
  · obtain ⟨p, hp, hpv, hpos⟩ := index_pos_of_mem hI1 hmem
    refine ⟨fun c hc => ?_, fun c hc => ?_⟩
    · have := hca p c hp hc
      rw [hpv] at this
      simp only [lookup_cell, hpos, cell]
      exact getD_of_getElem? this
    · have := hcb p c hp hc
      rw [hpv] at this
      simp only [lookup_cell, hpos, cell]
      exact getD_of_getElem? this
  · rcases hv with hv | ⟨hA, hB⟩
    · exact absurd hv hmem
    · refine ⟨fun c _ => ?_, fun c _ => ?_⟩
      · simp only [lookup_cell, index_pos_of_not_mem hmem, index_pos_of_not_mem hA]
      · simp only [lookup_cell, index_pos_of_not_mem hmem, index_pos_of_not_mem hB]

/-- Two matrices of `n` rows and `ncs` columns with the same cells are
equal. -/
theorem data_ext {β : Type} (D1 D2 : List β) (n ncs : Nat) (hn : n ≠ 0)
    (h1 : D1.length = n * ncs) (h2 : D2.length = ncs * n)
    (h : ∀ k j, k < n → j < ncs → D1[k + j * n]? = D2[k + j * n]?) : D1 = D2 := by
  apply List.ext_getElem?
  intro p
  by_cases hp : p < n * ncs
  · have hk : p % n < n := Nat.mod_lt _ (by omega)
    have hj : p / n < ncs := (Nat.div_lt_iff_lt_mul (by omega)).mpr (by rw [Nat.mul_comm]; exact hp)
    have hpe : p % n + p / n * n = p := by
      rw [Nat.mul_comm]; exact Nat.mod_add_div p n
    have := h (p % n) (p / n) hk hj
    rw [hpe] at this
    exact this
  · rw [List.getElem?_eq_none (by omega), List.getElem?_eq_none (by rw [h2, Nat.mul_comm]; omega)]

theorem mem_merged_inner (X Y : List Int) (hX : X.Pairwise (· < ·)) (hY : Y.Pairwise (· < ·))
    (v : Int) : v ∈ merged_index X Y (false, false) ↔ (v ∈ X ∧ v ∈ Y) := by
  rw [mem_merged_index X Y _ hX hY]
  simp

theorem mem_merged_left (X Y : List Int) (hX : X.Pairwise (· < ·)) (hY : Y.Pairwise (· < ·))
    (v : Int) : v ∈ merged_index X Y (true, false) ↔ v ∈ X := by
  rw [mem_merged_index X Y _ hX hY]
  simp
  tauto

theorem mem_merged_outer (X Y : List Int) (hX : X.Pairwise (· < ·)) (hY : Y.Pairwise (· < ·))
    (v : Int) : v ∈ merged_index X Y (true, true) ↔ (v ∈ X ∨ v ∈ Y) := by
  rw [mem_merged_index X Y _ hX hY]
  simp
  tauto

/-- When the join is not a right join, the merge of the merged index of three
strictly ascending indices with one of them returns the merged index. -/
theorem merged_index_project (A B C : List Int) (all : Bool × Bool) (hA : A.Pairwise (· < ·))
    (hB : B.Pairwise (· < ·)) (hC : C.Pairwise (· < ·)) (hall : all.2 = true → all.1 = true) :
    merged_index (merged_index (merged_index A B all) C all) A all
      = merged_index (merged_index A B all) C all ∧
    merged_index (merged_index (merged_index A B all) C all) B all
      = merged_index (merged_index A B all) C all ∧
    merged_index (merged_index (merged_index A B all) C all) C all
      = merged_index (merged_index A B all) C all := by
  have hI1 := merged_index_sorted A B all hA hB
  have hI := merged_index_sorted _ C all hI1 hC
  refine ⟨sorted_ext (merged_index_sorted _ A all hI hA) hI (fun v => ?_),
    sorted_ext (merged_index_sorted _ B all hI hB) hI (fun v => ?_),
    sorted_ext (merged_index_sorted _ C all hI hC) hI (fun v => ?_)⟩ <;>
  · obtain ⟨l, r⟩ := all
    cases l
    · cases r
      · simp only [mem_merged_inner _ _ hI hA, mem_merged_inner _ _ hI hB,
          mem_merged_inner _ _ hI hC, mem_merged_inner _ _ hI1 hC, mem_merged_inner _ _ hA hB]
        tauto
      · simp at hall
    · cases r
      · simp only [mem_merged_left _ _ hI hA, mem_merged_left _ _ hI hB,
          mem_merged_left _ _ hI hC, mem_merged_left _ _ hI1 hC, mem_merged_left _ _ hA hB]
      · simp only [mem_merged_outer _ _ hI hA, mem_merged_outer _ _ hI hB,
          mem_merged_outer _ _ hI hC, mem_merged_outer _ _ hI1 hC, mem_merged_outer _ _ hA hB]
        tauto

/-- When the join is not a right join, a value of the merged index of three
strictly ascending indices that is not in the merged index of the first two
occurs in none of the two. -/
theorem merged_index_cover (A B C : List Int) (all : Bool × Bool) (hA : A.Pairwise (· < ·))
    (hB : B.Pairwise (· < ·)) (hC : C.Pairwise (· < ·)) (hall : all.2 = true → all.1 = true)
    (v : Int) (hv : v ∈ merged_index (merged_index A B all) C all) :
    v ∈ merged_index A B all ∨ (v ∉ A ∧ v ∉ B) := by
  have hI1 := merged_index_sorted A B all hA hB
  obtain ⟨l, r⟩ := all
  cases l
  · cases r
    · rw [mem_merged_inner _ _ hI1 hC] at hv
      exact Or.inl hv.1
    · simp at hall
  · cases r
    · rw [mem_merged_left _ _ hI1 hC] at hv
      exact Or.inl hv
    · rw [mem_merged_outer _ _ hA hB]
      tauto

/-- When the join is not a right join and the merged index of three strictly
ascending indices is not empty, the merged index of the first two is not
empty. -/
theorem merged_index_ne_nil (A B C : List Int) (all : Bool × Bool) (hA : A.Pairwise (· < ·))
    (hB : B.Pairwise (· < ·)) (hC : C.Pairwise (· < ·)) (hall : all.2 = true → all.1 = true)
    (hnA : A ≠ []) (h : merged_index (merged_index A B all) C all ≠ []) :
    merged_index A B all ≠ [] := by
  have hI1 := merged_index_sorted A B all hA hB
  obtain ⟨v, hv⟩ := List.exists_mem_of_ne_nil _ h
  obtain ⟨w, hw⟩ := List.exists_mem_of_ne_nil _ hnA
  have key : ∃ u, u ∈ merged_index A B all := by
    obtain ⟨l, r⟩ := all
    cases l
    · cases r
      · rw [mem_merged_inner _ _ hI1 hC] at hv
        exact ⟨v, hv.1⟩
      · simp at hall
    · exact ⟨w, (mem_merged_index A B _ hA hB w).mpr (Or.inr (Or.inl ⟨rfl, hw⟩))⟩
  obtain ⟨u, hu⟩ := key
  exact List.ne_nil_of_mem hu

theorem merged_index_no_NA (X Y : List Int) (all : Bool × Bool) (hX : X.Pairwise (· < ·))
    (hY : Y.Pairwise (· < ·)) (hnx : NA_INTEGER ∉ X) (hny : NA_INTEGER ∉ Y) :
    NA_INTEGER ∉ merged_index X Y all := by
  intro h
  rw [mem_merged_index X Y all hX hY] at h
  tauto

/-- The result of a merge in which no side is returned is a table without
columns. -/
theorem skeleton_eq {β : Type} (r : SEXP β) (t : SEXPTYPE) (I : List Int)
    (ht : r.type = t) (hi : r.index = I) (hd : r.dim = some (I.length, 0))
    (hl : r.data.length = 0) :
    r = { type := t, data := [], dim := some (I.length, 0), index := I } := by
  obtain ⟨rt, rd, rdim, ri⟩ := r
  simp only at ht hi hd hl
  subst ht hi
  have : rd = [] := List.eq_nil_of_length_eq_zero (by simpa using hl)
  subst this
  simp [hd]

theorem skeleton_table {β : Type} (t : SEXPTYPE) (I : List Int) :
    Table ({ type := t, data := [], dim := some (I.length, 0), index := I } : SEXP β) := by
  simp [Table, nrows, ncols]

/-- The merge of the merged index of three tables with one of the tables,
both sides returned. -/
theorem project_table {β : Type} (R : RApi β) (t : SEXPTYPE)
    (set_result : List β → List β → Nat → Nat → List β) (hsup : set_result_of R t = .ok set_result)
    (I : List Int) (hI : I.Pairwise (· < ·)) (hIna : NA_INTEGER ∉ I) (hIne : I ≠ [])
    (z : SEXP β) (hz : Table z) (htz : z.type = t) (hsz : z.index.Pairwise (· < ·))
    (hNAz : NA_INTEGER ∉ z.index) (hnz : z.index ≠ [])
    (all : Bool × Bool) (fill : SEXP β) (hproj : merged_index I z.index all = I) :
    ∃ P, do_merge_xts R
        (some { type := t, data := [], dim := some (I.length, 0), index := I }) (some z)
        all fill (true, true) false = .ok (some P) ∧
      P.type = t ∧ P.index = I ∧ nrows P = I.length ∧ ncols P = ncols z ∧
      P.data.length = ncols z * I.length ∧
      (∀ k c, k < I.length → c < ncols z →
        P.data[k + c * I.length]? =
          some (lookup_cell R z.data z.index ((ensure_fill R fill t).data.getD 0 R.uninit)
            (I.getD k 0) c)) := by
  obtain ⟨P, h1, h2, h3, h4, h5, _, h7⟩ := do_merge_xts_table R t set_result hsup
    ({ type := t, data := [], dim := some (I.length, 0), index := I } : SEXP β) z
    (skeleton_table t I) hz rfl htz hI hsz hIna hNAz hIne hnz all fill true
    (by show merged_index I z.index all ≠ []; rw [hproj]; exact hIne)
  simp only [hproj, if_true] at h3 h4 h5 h7
  have hnc : ncols ({ type := t, data := [], dim := some (I.length, 0), index := I } : SEXP β)
      = 0 := rfl
  rw [hnc] at h4 h5 h7
  simp only [Nat.zero_add, Nat.add_zero] at h4 h5 h7
  refine ⟨P, h1, h2, h3, ?_, ?_, h5, h7⟩
  · simp [nrows, h4]
  · simp [ncols, h4]

/-- The steps of `mergeXts` for three objects that are not `NULL`, in terms of
the merges of two objects. -/
theorem mergeXts_three_steps {β : Type} (R : RApi β) (all : Bool × Bool) (fill : SEXP β)
    (a b c S1 S Pa Pb Pc : SEXP β) (n ncs : Nat)
    (hscan : mergeXts_scan a.type [some a, some b, some c] 0 false = (ncs, false))
    (hS1 : do_merge_xts R (some a) (some b) all fill (false, false) false = .ok (some S1))
    (hS : do_merge_xts R (some S1) (some c) all fill (false, false) false = .ok (some S))
    (hkind : S.type = .LGLSXP ∨ S.type = .INTSXP ∨ S.type = .REALSXP)
    (hPa : do_merge_xts R (some S) (some a) all fill (true, true) false = .ok (some Pa))
    (hPb : do_merge_xts R (some S) (some b) all fill (true, true) false = .ok (some Pb))
    (hPc : do_merge_xts R (some S) (some c) all fill (true, true) false = .ok (some Pc))
    (hta : Pa.type = S.type) (htb : Pb.type = S.type) (htc : Pc.type = S.type)
    (hn0 : n ≠ 0) (hna : nrows Pa = n) (hnb : nrows Pb = n) (hnc : nrows Pc = n) :
    mergeXts R all fill (true, true) [some a, some b, some c] =
      .ok (some
        { type := S.type
          data := mergeXts_insert R Pc.data n (ncols Pc) (ncols Pa + ncols Pb)
            (mergeXts_insert R Pb.data n (ncols Pb) (ncols Pa)
              (mergeXts_insert R Pa.data n (ncols Pa) 0
                (List.replicate (S.index.length * ncs) R.uninit)))
          dim := if ncols Pa + ncols Pb + ncols Pc > 0
            then some (S.index.length, ncols Pa + ncols Pb + ncols Pc) else none
          index := S.index }) := by
  have ha := mergeXts_each_step R all fill (true, true) false S a Pa n hPa hna hn0
    (by rw [hta]; exact hkind)
  have hb := mergeXts_each_step R all fill (true, true) false S b Pb n hPb hnb hn0
    (by rw [htb]; exact hkind)
  have hc := mergeXts_each_step R all fill (true, true) false S c Pc n hPc hnc hn0
    (by rw [htc]; exact hkind)
  rw [hta] at ha
  rw [htb] at hb
  rw [htc] at hc
  have hnil : ∀ (i ncs : Nat) (result : List β),
      mergeXts_each R all fill (true, true) false (some S) (decide (S.type ≠ .REALSXP))
        (decide (S.type = .REALSXP)) [] i ncs result = .ok (ncs, result) := by
    intro i ncs result
    rw [mergeXts_each]
  unfold mergeXts
  simp only [List.headD_cons, TYPEOF, hscan, List.tail_cons, mergeXts_skip]
  rw [if_neg (by simp), if_pos (by simp)]
  simp only [List.isEmpty_cons, Option.isNone_some, Bool.false_eq_true, if_false, hS1,
    mergeXts_index, hS]
  rcases hkind with h | h | h <;> simp [h] at ha hb hc hnil ⊢ <;>
    simp only [ha, hb, hc, hnil] <;> simp

theorem table_of_dim {β : Type} (r : SEXP β) (n nc : Nat) (hi : r.index.length = n)
    (hd : r.dim = some (n, nc)) (hl : r.data.length = nc * n) :
    Table r ∧ nrows r = n ∧ ncols r = nc := by
  refine ⟨⟨?_, ?_⟩, ?_, ?_⟩
  · simp [nrows, hd, hi]
  · simp [nrows, ncols, hd, hl, Nat.mul_comm]
  · simp [nrows, hd]
  · simp [ncols, hd]

/-- The three-way merge of three tables of one type that is logical, integer
or double, with strictly ascending indices, for a join that is not a right
join and a merged index that is not empty: the index and the cells of the
result. -/
theorem mergeXts_three_tables {β : Type} (R : RApi β) (t : SEXPTYPE)
    (hkind : t = .LGLSXP ∨ t = .INTSXP ∨ t = .REALSXP)
    (a b c : SEXP β) (ha : Table a) (hb : Table b) (hc : Table c)
    (hta : a.type = t) (htb : b.type = t) (htc : c.type = t)
    (hsa : a.index.Pairwise (· < ·)) (hsb : b.index.Pairwise (· < ·))
    (hsc : c.index.Pairwise (· < ·))
    (hNAa : NA_INTEGER ∉ a.index) (hNAb : NA_INTEGER ∉ b.index) (hNAc : NA_INTEGER ∉ c.index)
    (hna : a.index ≠ []) (hnb : b.index ≠ []) (hnc : c.index ≠ [])
    (all : Bool × Bool) (hall : all.2 = true → all.1 = true) (fill : SEXP β)
    (hne : merged_index (merged_index a.index b.index all) c.index all ≠ []) :
    ∃ r, mergeXts R all fill (true, true) [some a, some b, some c] = .ok (some r) ∧
      r.type = t ∧
      r.index = merged_index (merged_index a.index b.index all) c.index all ∧
      r.dim = (if ncols a + ncols b + ncols c > 0
        then some (r.index.length, ncols a + ncols b + ncols c) else none) ∧
      r.data.length = r.index.length * (ncols a + ncols b + ncols c) ∧
      (∀ k j, k < r.index.length → j < ncols a →
        r.data[k + j * r.index.length]? =
          some (lookup_cell R a.data a.index ((ensure_fill R fill t).data.getD 0 R.uninit)
            (r.index.getD k 0) j)) ∧
      (∀ k j, k < r.index.length → j < ncols b →
        r.data[k + (j + ncols a) * r.index.length]? =
          some (lookup_cell R b.data b.index ((ensure_fill R fill t).data.getD 0 R.uninit)
            (r.index.getD k 0) j)) ∧
      (∀ k j, k < r.index.length → j < ncols c →
        r.data[k + (j + (ncols a + ncols b)) * r.index.length]? =
          some (lookup_cell R c.data c.index ((ensure_fill R fill t).data.getD 0 R.uninit)
            (r.index.getD k 0) j)) := by
  obtain ⟨sr, hsup⟩ := set_result_of_kind R hkind
  have hI1s := merged_index_sorted a.index b.index all hsa hsb
  have hI1na := merged_index_no_NA a.index b.index all hsa hsb hNAa hNAb
  have hI1ne := merged_index_ne_nil a.index b.index c.index all hsa hsb hsc hall hna hne
  have hIs := merged_index_sorted _ c.index all hI1s hsc
  have hIna := merged_index_no_NA _ c.index all hI1s hsc hI1na hNAc
  have hn0 : (merged_index (merged_index a.index b.index all) c.index all).length ≠ 0 :=
    fun h => hne (List.eq_nil_of_length_eq_zero h)
  -- the common index
  obtain ⟨S1, hS1, hS1t, hS1i, hS1d, hS1l, -, -⟩ := do_merge_xts_table R t sr hsup a b ha hb
    hta htb hsa hsb hNAa hNAb hna hnb all fill false hI1ne
  have hS1eq := skeleton_eq S1 t _ hS1t hS1i (by simpa using hS1d) (by simpa using hS1l)
  subst hS1eq
  obtain ⟨S, hS, hSt, hSi, hSd, hSl, -, -⟩ := do_merge_xts_table R t sr hsup _ c
    (skeleton_table t (merged_index a.index b.index all)) hc rfl htc hI1s hsc hI1na hNAc
    hI1ne hnc all fill false hne
  have hSeq := skeleton_eq S t _ hSt hSi (by simpa using hSd) (by simpa using hSl)
  subst hSeq
  -- each table merged with the common index
  obtain ⟨hpA, hpB, hpC⟩ := merged_index_project a.index b.index c.index all hsa hsb hsc hall
  obtain ⟨Pa, hPa, hPat, -, hPan, hPac, hPal, hPacell⟩ := project_table R t sr hsup _ hIs hIna
    hne a ha hta hsa hNAa hna all fill hpA
  obtain ⟨Pb, hPb, hPbt, -, hPbn, hPbc, hPbl, hPbcell⟩ := project_table R t sr hsup _ hIs hIna
    hne b hb htb hsb hNAb hnb all fill hpB
  obtain ⟨Pc, hPc, hPct, -, hPcn, hPcc, hPcl, hPccell⟩ := project_table R t sr hsup _ hIs hIna
    hne c hc htc hsc hNAc hnc all fill hpC
  have hscan : mergeXts_scan a.type [some a, some b, some c] 0 false
      = (ncols a + ncols b + ncols c, false) := by
    rw [mergeXts_scan_table a.type a ha hna rfl, mergeXts_scan_table a.type b hb hnb
      (htb.trans hta.symm), mergeXts_scan_table a.type c hc hnc (htc.trans hta.symm)]
    simp [mergeXts_scan]
  have hM := mergeXts_three_steps R all fill a b c _ _ Pa Pb Pc
    (merged_index (merged_index a.index b.index all) c.index all).length
    (ncols a + ncols b + ncols c) hscan hS1 hS hkind hPa hPb hPc hPat hPbt hPct hn0
    hPan hPbn hPcn
  rw [hPac, hPbc, hPcc] at hM
  have hlen0 : (List.replicate
      ((merged_index (merged_index a.index b.index all) c.index all).length *
        (ncols a + ncols b + ncols c)) R.uninit).length =
      (ncols a + ncols b + ncols c) *
        (merged_index (merged_index a.index b.index all) c.index all).length := by
    rw [List.length_replicate, Nat.mul_comm]
  refine ⟨_, hM, rfl, rfl, rfl, ?_, ?_, ?_, ?_⟩
  · simp [mergeXts_insert_length]
  · intro k j hk hj
    simp only at hk ⊢
    rw [mergeXts_insert_frame _ _ _ _ _ _ k j hk (by omega),
      mergeXts_insert_frame _ _ _ _ _ _ k j hk (by omega)]
    have h1 := mergeXts_insert_effect R Pa.data
      (merged_index (merged_index a.index b.index all) c.index all).length (ncols a) 0
      (List.replicate ((merged_index (merged_index a.index b.index all) c.index all).length *
        (ncols a + ncols b + ncols c)) R.uninit) k j hk hj
      (by rw [hlen0]; exact slot_lt (m := ncols a + ncols b + ncols c) (c := 0 + j) hk (by omega))
    simp only [Nat.zero_add] at h1
    rw [h1, getD_of_getElem? (hPacell k j hk hj)]
  · intro k j hk hj
    simp only at hk ⊢
    rw [mergeXts_insert_frame _ _ _ _ _ _ k (j + ncols a) hk (by omega)]
    have h1 := mergeXts_insert_effect R Pb.data
      (merged_index (merged_index a.index b.index all) c.index all).length (ncols b) (ncols a)
      (mergeXts_insert R Pa.data
        (merged_index (merged_index a.index b.index all) c.index all).length (ncols a) 0
        (List.replicate ((merged_index (merged_index a.index b.index all) c.index all).length *
          (ncols a + ncols b + ncols c)) R.uninit)) k j hk hj
      (by rw [mergeXts_insert_length, hlen0]
          exact slot_lt (m := ncols a + ncols b + ncols c) (c := ncols a + j) hk (by omega))
    rw [Nat.add_comm (ncols a) j] at h1
    rw [h1, getD_of_getElem? (hPbcell k j hk hj)]
  · intro k j hk hj
    simp only at hk ⊢
    have h1 := mergeXts_insert_effect R Pc.data
      (merged_index (merged_index a.index b.index all) c.index all).length (ncols c)
      (ncols a + ncols b)
      (mergeXts_insert R Pb.data
        (merged_index (merged_index a.index b.index all) c.index all).length (ncols b) (ncols a)
        (mergeXts_insert R Pa.data
          (merged_index (merged_index a.index b.index all) c.index all).length (ncols a) 0
          (List.replicate ((merged_index (merged_index a.index b.index all) c.index all).length *
            (ncols a + ncols b + ncols c)) R.uninit))) k j hk hj
      (by rw [mergeXts_insert_length, mergeXts_insert_length, hlen0]
          exact slot_lt (m := ncols a + ncols b + ncols c) (c := ncols a + ncols b + j) hk (by omega))
    rw [Nat.add_comm (ncols a + ncols b) j] at h1
    rw [h1, getD_of_getElem? (hPccell k j hk hj)]

/-- The merge of three tables of one type with strictly ascending indices,
pair after pair from the left, for a join that is not a right join and a
merged index that is not empty: the index and the cells of the result. -/
theorem pairwise_three_tables {β : Type} (R : RApi β) (t : SEXPTYPE)
    (set_result : List β → List β → Nat → Nat → List β) (hsup : set_result_of R t = .ok set_result)
    (a b c : SEXP β) (ha : Table a) (hb : Table b) (hc : Table c)
    (hta : a.type = t) (htb : b.type = t) (htc : c.type = t)
    (hsa : a.index.Pairwise (· < ·)) (hsb : b.index.Pairwise (· < ·))
    (hsc : c.index.Pairwise (· < ·))
    (hNAa : NA_INTEGER ∉ a.index) (hNAb : NA_INTEGER ∉ b.index) (hNAc : NA_INTEGER ∉ c.index)
    (hna : a.index ≠ []) (hnb : b.index ≠ []) (hnc : c.index ≠ [])
    (all : Bool × Bool) (hall : all.2 = true → all.1 = true) (fill : SEXP β)
    (hne : merged_index (merged_index a.index b.index all) c.index all ≠ []) :
    ∃ ab r, do_merge_xts R (some a) (some b) all fill (true, true) false = .ok (some ab) ∧
      do_merge_xts R (some ab) (some c) all fill (true, true) false = .ok (some r) ∧
      r.type = t ∧
      r.index = merged_index (merged_index a.index b.index all) c.index all ∧
      r.dim = some (r.index.length, ncols a + ncols b + ncols c) ∧
      r.data.length = (ncols a + ncols b + ncols c) * r.index.length ∧
      (∀ k j, k < r.index.length → j < ncols a →
        r.data[k + j * r.index.length]? =
          some (lookup_cell R a.data a.index ((ensure_fill R fill t).data.getD 0 R.uninit)
            (r.index.getD k 0) j)) ∧
      (∀ k j, k < r.index.length → j < ncols b →
        r.data[k + (j + ncols a) * r.index.length]? =
          some (lookup_cell R b.data b.index ((ensure_fill R fill t).data.getD 0 R.uninit)
            (r.index.getD k 0) j)) ∧
      (∀ k j, k < r.index.length → j < ncols c →
        r.data[k + (j + (ncols a + ncols b)) * r.index.length]? =
          some (lookup_cell R c.data c.index ((ensure_fill R fill t).data.getD 0 R.uninit)
            (r.index.getD k 0) j)) := by
  have hI1s := merged_index_sorted a.index b.index all hsa hsb
  have hI1na := merged_index_no_NA a.index b.index all hsa hsb hNAa hNAb
  have hI1ne := merged_index_ne_nil a.index b.index c.index all hsa hsb hsc hall hna hne
  obtain ⟨ab, hab, habt, habi, habd, habl, habca, habcb⟩ := do_merge_xts_table R t set_result
    hsup a b ha hb hta htb hsa hsb hNAa hNAb hna hnb all fill true hI1ne
  simp only [if_true] at habd habl habca habcb
  obtain ⟨hTab, -, hncab⟩ := table_of_dim ab _ _ (by rw [habi]) habd habl
  obtain ⟨r, hr, hrt, hri, hrd, hrl, hrcx, hrcy⟩ := do_merge_xts_table R t set_result hsup ab c
    hTab hc habt htc (by rw [habi]; exact hI1s) hsc (by rw [habi]; exact hI1na) hNAc
    (by rw [habi]; exact hI1ne) hnc all fill true (by rw [habi]; exact hne)
  simp only [if_true, habi, hncab] at hri hrd hrl hrcx hrcy
  refine ⟨ab, r, hab, hr, hrt, hri, by rw [hrd, hri], by rw [hrl, hri], ?_, ?_, ?_⟩
  · intro k j hk hj
    rw [hri] at hk ⊢
    rw [hrcx k j hk (by omega)]
    have hv : (merged_index (merged_index a.index b.index all) c.index all).getD k 0 ∈
        merged_index (merged_index a.index b.index all) c.index all := getD_mem hk
    have := (lookup_cell_merged R a.data b.data ab.data a.index b.index _ (ncols a) (ncols b)
      ((ensure_fill R fill t).data.getD 0 R.uninit) hI1s habca habcb _
      (merged_index_cover a.index b.index c.index all hsa hsb hsc hall _ hv)).1 j hj
    rw [this]
  · intro k j hk hj
    rw [hri] at hk ⊢
    rw [hrcx k (j + ncols a) hk (by omega)]
    have hv : (merged_index (merged_index a.index b.index all) c.index all).getD k 0 ∈
        merged_index (merged_index a.index b.index all) c.index all := getD_mem hk
    have := (lookup_cell_merged R a.data b.data ab.data a.index b.index _ (ncols a) (ncols b)
      ((ensure_fill R fill t).data.getD 0 R.uninit) hI1s habca habcb _
      (merged_index_cover a.index b.index c.index all hsa hsb hsc hall _ hv)).2 j hj
    rw [this]
  · intro k j hk hj
    rw [hri] at hk ⊢
    exact hrcy k j hk hj

/-! ## The merge of a table with itself -/

/-- The traversal of an index against itself emits a matched row for every
position, whatever the flags are. -/
theorem walk_self (X : List Int) (spec : JoinSpec) :
    ∀ fuel p, X.length - p ≤ fuel →
      JoinWalker.walk X X spec fuel p p =
        (List.range' p (X.length - p)).map (fun i => (⟨.Matched, some i, some i⟩ : JoinRow)) := by
  intro fuel
  induction fuel with
  | zero =>
    intro p hp
    have : X.length - p = 0 := by omega
    rw [this]
    rfl
  | succ fuel ih =>
    intro p hp
    rw [walk_succ]
    by_cases h : X.length ≤ p
    · rw [if_pos ⟨h, h⟩]
      have : X.length - p = 0 := by omega
      rw [this]
      rfl
    · rw [if_neg (fun hh => h hh.1), if_neg h, if_neg h]
      have hc : IndexComparator (X.getD p 0) (X.getD p 0) = .eq := by
        simp [IndexComparator]
      rw [hc]
      simp only [JoinWalker.emit, if_true]
      rw [ih (p + 1) (by omega)]
      have : X.length - p = (X.length - (p + 1)) + 1 := by omega
      rw [this, List.range'_succ]
      rfl

theorem JoinWalker_self (X : List Int) (spec : JoinSpec) :
    JoinWalker X X spec =
      (List.range X.length).map (fun i => (⟨.Matched, some i, some i⟩ : JoinRow)) := by
  unfold JoinWalker
  rw [walk_self X spec _ 0 (by omega), List.range_eq_range']
  rfl

theorem rows_index_self (X : List Int) (spec : JoinSpec) :
    rows_index X X (JoinWalker X X spec) = X := by
  rw [JoinWalker_self]
  apply List.ext_getElem
  · simp [rows_index]
  · intro k h1 h2
    simp [rows_index, JoinRow.index, List.getElem?_eq_getElem h2]

/-- The numbers of rows and of columns that `do_merge_xts` uses for two
tables of one type, whatever sides are returned. -/
theorem zero_width_operands_sides {β : Type} (R : RApi β) (x y : SEXP β) (hx : Table x)
    (hy : Table y) (ht : x.type = y.type) (hnx : x.index ≠ []) (hny : y.index ≠ [])
    (b1 b2 : Bool) :
    zero_width_operands R x y (b1, b2) =
      { nrx := x.index.length, ncx := if b1 then ncols x else 0
        nry := y.index.length, ncy := if b2 then ncols y else 0
        x := x, y := y } := by
  have hlx : x.index.length ≠ 0 := fun h => hnx (List.eq_nil_of_length_eq_zero h)
  have hly : y.index.length ≠ 0 := fun h => hny (List.eq_nil_of_length_eq_zero h)
  have hcx : ∀ z : SEXP β, Table z → z.index.length ≠ 0 → z.data.length = 0 → ncols z = 0 := by
    intro z hz hl h0
    have h1 := hz.2
    rw [h0, ← hz.1] at h1
    rcases Nat.mul_eq_zero.mp h1.symm with h | h
    · exact absurd h hl
    · exact h
  cases b1 <;> cases b2 <;> by_cases h0 : x.data.length = 0 <;>
    by_cases h1 : y.data.length = 0 <;>
    simp [zero_width_operands, zero_width, LENGTH, h0, h1, coerceVector_same R x y.type ht,
      coerceVector_same R y x.type ht.symm, hcx x hx hlx, hcx y hy hly, hx.1, hy.1]

/-- The merge of a table with itself, for every pair of flags and whatever
sides are returned: the index of the table, and in every column the cells of
the column of the table it comes from. -/
theorem do_merge_xts_self {β : Type} (R : RApi β) (t : SEXP β) (ht : Table t)
    (set_result : List β → List β → Nat → Nat → List β)
    (hsup : set_result_of R t.type = .ok set_result)
    (hNA : NA_INTEGER ∉ t.index) (hn : t.index ≠ [])
    (all : Bool × Bool) (fill : SEXP β) (b1 b2 : Bool) :
    ∃ r, do_merge_xts R (some t) (some t) all fill (b1, b2) false = .ok (some r) ∧
      r.type = t.type ∧ r.index = t.index ∧
      r.dim = result_dim (b1, b2) t t t.index.length (if b1 then ncols t else 0)
        (if b2 then ncols t else 0) ∧
      r.data.length = ((if b1 then ncols t else 0) + (if b2 then ncols t else 0)) *
        t.index.length ∧
      (∀ k c, k < t.index.length → c < (if b1 then ncols t else 0) →
        r.data[k + c * t.index.length]? = t.data[k + c * t.index.length]?) ∧
      (∀ k c, k < t.index.length → c < (if b2 then ncols t else 0) →
        r.data[k + (c + (if b1 then ncols t else 0)) * t.index.length]? =
          t.data[k + c * t.index.length]?) := by
  have ho := zero_width_operands_sides R t t ht ht rfl hn hn b1 b2
  have hco : ∀ z : SEXP β, coerce_operand R false t t z = z := by
    intro z
    simp [coerce_operand]
  have hW := JoinWalker_self t.index ⟨all.1, all.2⟩
  have hlen : (JoinWalker t.index t.index ⟨all.1, all.2⟩).length = t.index.length := by
    rw [hW]; simp
  have hrows : JoinWalker t.index t.index ⟨all.1, all.2⟩ ≠ [] := by
    intro h
    rw [h] at hlen
    exact hn (List.eq_nil_of_length_eq_zero hlen.symm)
  obtain ⟨r, h1, h2, h3, h4, h5, h6⟩ := do_merge_xts_rows R t t all fill (b1, b2) false
    set_result (by rw [ho]) (by rw [ho]) (check_index_int_ok hn hn hNA hNA) hrows
    (by rw [ho]; simp only [hco]; exact hsup)
  rw [ho] at h2 h4 h5 h6
  simp only [hco] at h2 h4 h5 h6
  rw [hlen] at h4 h5
  have hrow : ∀ k (hk : k < (JoinWalker t.index t.index ⟨all.1, all.2⟩).length),
      (JoinWalker t.index t.index ⟨all.1, all.2⟩).get ⟨k, hk⟩ = ⟨.Matched, some k, some k⟩ := by
    intro k hk
    simp [hW]
  have hdl : t.data.length = t.index.length * ncols t := by rw [ht.2, ht.1]
  have hcell : ∀ k c, k < t.index.length → c < ncols t →
      some (cell R t.data t.index.length k c) = t.data[k + c * t.index.length]? := by
    intro k c hk hc
    have hb : k + c * t.index.length < t.data.length := by
      rw [hdl, Nat.mul_comm t.index.length (ncols t)]; exact slot_lt hk hc
    rw [cell, List.getD_eq_getElem _ _ hb, List.getElem?_eq_getElem hb]
  refine ⟨r, h1, h2, ?_, h4, h5, ?_, ?_⟩
  · rw [h3, rows_index_self]
  · intro k c hk hc
    have hk' : k < (JoinWalker t.index t.index ⟨all.1, all.2⟩).length := by rw [hlen]; exact hk
    have := (h6 k hk').2.1 c hc
    rw [hrow k hk'] at this
    rw [hlen] at this
    rw [this]
    simp only [JoinRow.left_cell]
    apply hcell k c hk
    cases b1
    · simp at hc
    · simpa using hc
  · intro k c hk hc
    have hk' : k < (JoinWalker t.index t.index ⟨all.1, all.2⟩).length := by rw [hlen]; exact hk
    have := (h6 k hk').2.2 c hc
    rw [hrow k hk'] at this
    rw [hlen] at this
    rw [this]
    simp only [JoinRow.right_cell]
    apply hcell k c hk
    cases b2
    · simp at hc
    · simpa using hc

/-! ## The errors of the loops -/

theorem generic_error_fuel {α : Type} (idx : xts_indices α)
    (cmpfn : xts_indices α → Nat → Nat → Int) (nx ny : Nat) (lj rj : Bool) :
    ∀ fuel i xi yi err,
      merge_index_length_generic idx cmpfn nx ny lj rj fuel i xi yi = .error err →
        err = .fuel := by
  intro fuel
  induction fuel with
  | zero =>
    intro i xi yi err h
    unfold merge_index_length_generic at h
    split_ifs at h
    injection h with h
    exact h.symm
  | succ fuel ih =>
    intro i xi yi err h
    unfold merge_index_length_generic at h
    simp only at h
    split_ifs at h <;> first
      | exact ih _ _ _ _ h
      | omega

theorem both_error_fuel {α : Type} (idx : xts_indices α)
    (cmpfn : xts_indices α → Nat → Nat → Int) (nx ny : Nat) :
    ∀ fuel i xi yi err,
      merge_index_length_both idx cmpfn nx ny fuel i xi yi = .error err → err = .fuel := by
  intro fuel
  induction fuel with
  | zero =>
    intro i xi yi err h
    unfold merge_index_length_both at h
    split_ifs at h
    injection h with h
    exact h.symm
  | succ fuel ih =>
    intro i xi yi err h
    unfold merge_index_length_both at h
    simp only at h
    split_ifs at h <;> first
      | exact ih _ _ _ _ h
      | omega

theorem merge_index_length_error_fuel {α : Type} (idx : xts_indices α)
    (cmpfn : xts_indices α → Nat → Nat → Int) (nx ny : Nat) (lj rj : Bool) (err : MergeError)
    (h : merge_index_length idx cmpfn nx ny lj rj = .error err) : err = .fuel := by
  unfold merge_index_length at h
  split_ifs at h
  · exact both_error_fuel idx cmpfn nx ny _ _ _ _ err h
  · exact generic_error_fuel idx cmpfn nx ny lj rj _ _ _ _ err h

/-- The body of the fill loop has a next state for every state: the branch
of the invalid comparison is not taken. -/
theorem merge_loop_body_total {α β : Type} (e : merge_env α β) (s : merge_state α β) :
    ∃ s1, merge_loop_body e s = .ok s1 := by
  unfold merge_loop_body
  simp only
  split_ifs <;> first
    | exact ⟨_, rfl⟩
    | omega

theorem merge_loop_error_fuel {α β : Type} (e : merge_env α β) :
    ∀ fuel s err, merge_loop e fuel s = .error err → err = .fuel := by
  intro fuel
  induction fuel with
  | zero =>
    intro s err h
    unfold merge_loop at h
    split_ifs at h
    injection h with h
    exact h.symm
  | succ fuel ih =>
    intro s err h
    obtain ⟨s1, hs1⟩ := merge_loop_body_total e s
    unfold merge_loop at h
    rw [hs1] at h
    split_ifs at h
    exact ih _ _ h

theorem check_index_int_error (X Y : List Int) (nrx nry : Nat) (err : MergeError)
    (h : check_index_int X Y nrx nry = .error err) :
    err = .out_of_bounds ∨ err = .invalid_index := by
  unfold check_index_int at h
  by_cases h0 : nrx = 0
  · rw [if_pos h0] at h
    injection h with h; exact Or.inl h.symm
  · rw [if_neg h0] at h
    cases hx : X[nrx - 1]? with
    | none =>
      rw [hx] at h
      injection h with h; exact Or.inl h.symm
    | some vx =>
      rw [hx] at h
      simp only at h
      by_cases hv : vx = NA_INTEGER
      · rw [if_pos hv] at h
        injection h with h; exact Or.inr h.symm
      · rw [if_neg hv] at h
        by_cases h1 : nry = 0
        · rw [if_pos h1] at h
          injection h with h; exact Or.inl h.symm
        · rw [if_neg h1] at h
          cases hy : Y[nry - 1]? with
          | none =>
            rw [hy] at h
            injection h with h; exact Or.inl h.symm
          | some vy =>
            rw [hy] at h
            simp only at h
            by_cases hw : vy = NA_INTEGER
            · rw [if_pos hw] at h
              injection h with h; exact Or.inr h.symm
            · rw [if_neg hw] at h
              cases h

theorem set_result_of_error {β : Type} (R : RApi β) (t : SEXPTYPE) (err : MergeError)
    (h : set_result_of R t = .error err) : err = .unsupported_type := by
  cases t <;> simp [set_result_of] at h <;> exact h.symm

/-- The ways `do_merge_xts` stops without a result, and where they come
from: the check of the index, the switch on the type of the cells, or a
bound of the embedding. -/
theorem do_merge_xts_error {β : Type} (R : RApi β) (x y : SEXP β) (all : Bool × Bool)
    (fill : SEXP β) (retside : Bool × Bool) (coerce : Bool) (err : MergeError)
    (h : do_merge_xts R (some x) (some y) all fill retside coerce = .error err) :
    check_index_int x.index y.index (zero_width_operands R x y retside).nrx
        (zero_width_operands R x y retside).nry = .error err ∨
      err = .unsupported_type ∨ err = .fuel := by
  unfold do_merge_xts at h
  simp only at h
  split at h
  · injection h with h
    subst h
    left; assumption
  · split at h
    · injection h with h
      subst h
      right; right
      exact merge_index_length_error_fuel _ _ _ _ _ _ _ (by assumption)
    · split_ifs at h
      split at h
      · injection h with h
        subst h
        right; left
        exact set_result_of_error R _ _ (by assumption)
      · split at h
        · injection h with h
          subst h
          right; right
          exact merge_loop_error_fuel _ _ _ _ (by assumption)
        · cases h

/-! ## The checks of the index and the early return -/

theorem check_index_int_eq (X Y : List Int) (nrx nry : Nat) (h1 : 0 < nrx)
    (h2 : nrx ≤ X.length) (h3 : 0 < nry) (h4 : nry ≤ Y.length) :
    check_index_int X Y nrx nry =
      if X.getD (nrx - 1) 0 = NA_INTEGER ∨ Y.getD (nry - 1) 0 = NA_INTEGER
      then .error .invalid_index else .ok () := by
  have hx : X[nrx - 1]? = some (X.getD (nrx - 1) 0) := by
    rw [List.getD_eq_getElem _ _ (by omega), List.getElem?_eq_getElem (by omega)]
  have hy : Y[nry - 1]? = some (Y.getD (nry - 1) 0) := by
    rw [List.getD_eq_getElem _ _ (by omega), List.getElem?_eq_getElem (by omega)]
  unfold check_index_int
  rw [if_neg (by omega), hx]
  simp only
  by_cases hv : X.getD (nrx - 1) 0 = NA_INTEGER
  · rw [if_pos hv, if_pos (Or.inl hv)]
  · rw [if_neg hv, if_neg (by omega), hy]
    simp only
    by_cases hw : Y.getD (nry - 1) 0 = NA_INTEGER
    · rw [if_pos hw, if_pos (Or.inr hw)]
    · rw [if_neg hw, if_neg (by tauto)]

theorem check_index_double_eq (X Y : List RDouble) (nrx nry : Nat) (h1 : 0 < nrx)
    (h2 : nrx ≤ X.length) (h3 : 0 < nry) (h4 : nry ≤ Y.length) :
    check_index_double X Y nrx nry =
      if R_FINITE (X.getD 0 .nan) = false ∨ R_FINITE (X.getD (nrx - 1) .nan) = false ∨
        R_FINITE (Y.getD 0 .nan) = false ∨ R_FINITE (Y.getD (nry - 1) .nan) = false
      then .error .invalid_index else .ok () := by
  have hx0 : X[0]? = some (X.getD 0 .nan) := by
    rw [List.getD_eq_getElem _ _ (by omega), List.getElem?_eq_getElem (by omega)]
  have hx : X[nrx - 1]? = some (X.getD (nrx - 1) .nan) := by
    rw [List.getD_eq_getElem _ _ (by omega), List.getElem?_eq_getElem (by omega)]
  have hy0 : Y[0]? = some (Y.getD 0 .nan) := by
    rw [List.getD_eq_getElem _ _ (by omega), List.getElem?_eq_getElem (by omega)]
  have hy : Y[nry - 1]? = some (Y.getD (nry - 1) .nan) := by
    rw [List.getD_eq_getElem _ _ (by omega), List.getElem?_eq_getElem (by omega)]
  unfold check_index_double
  rw [hx0]
  simp only
  cases ha : R_FINITE (X.getD 0 .nan)
  · simp
  · rw [if_neg (by simp), if_neg (by omega), hx]
    simp only
    cases hb : R_FINITE (X.getD (nrx - 1) .nan)
    · simp
    · rw [if_neg (by simp), hy0]
      simp only
      cases hc : R_FINITE (Y.getD 0 .nan)
      · simp
      · rw [if_neg (by simp), if_neg (by omega), hy]
        simp only
        cases hd : R_FINITE (Y.getD (nry - 1) .nan) <;> simp

theorem zero_width_operands_rows {β : Type} (R : RApi β) (x y : SEXP β) (hx : Table x)
    (hy : Table y) (retside : Bool × Bool) :
    (zero_width_operands R x y retside).nrx = x.index.length ∧
    (zero_width_operands R x y retside).nry = y.index.length := by
  constructor
  · unfold zero_width_operands
    simp only
    split_ifs
    · rfl
    · exact hx.1.symm
  · unfold zero_width_operands
    simp only
    split_ifs
    · rfl
    · exact hy.1.symm

/-- The early return of `do_merge_xts`: when the check of the index passes and
the computed length is zero, the result is an empty vector of the type of
`x`, with an empty index and no `dim`. -/
theorem do_merge_xts_zero {β : Type} (R : RApi β) (x y : SEXP β) (all : Bool × Bool)
    (fill : SEXP β) (retside : Bool × Bool) (coerce : Bool)
    (hchk : check_index_int x.index y.index (zero_width_operands R x y retside).nrx
      (zero_width_operands R x y retside).nry = .ok ())
    (hcount : merge_index_length { r := [], x := x.index, y := y.index } compare_indexes_int
      (zero_width_operands R x y retside).nrx (zero_width_operands R x y retside).nry
      all.1 all.2 = .ok 0) :
    do_merge_xts R (some x) (some y) all fill retside coerce =
      .ok (some { type := (zero_width_operands R x y retside).x.type, data := [], dim := none,
                  index := [] }) := by
  unfold do_merge_xts
  simp only [hchk, hcount, if_true]

theorem zero_width_operands_type {β : Type} (R : RApi β) (x y : SEXP β)
    (retside : Bool × Bool) :
    (zero_width_operands R x y retside).x.type =
      (if zero_width x retside.1 then y.type else x.type) ∧
    (zero_width_operands R x y retside).y.type =
      (if zero_width y retside.2 then (if zero_width x retside.1 then y.type else x.type)
        else y.type) := by
  have hc : ∀ (z : SEXP β) (t : SEXPTYPE), (coerceVector R z t).type = t := by
    intro z t
    unfold coerceVector
    split_ifs with h
    · exact h
    · rfl
  unfold zero_width_operands
  simp only
  constructor
  · split_ifs
    · exact hc _ _
    · rfl
  · split_ifs <;> first | rfl | (rw [hc]; try rw [hc])

theorem check_index_int_zero_y (X Y : List Int) (nrx : Nat) :
    check_index_int X Y nrx 0 = .error .out_of_bounds ∨
      check_index_int X Y nrx 0 = .error .invalid_index := by
  unfold check_index_int
  by_cases h : nrx = 0
  · simp [h]
  · rw [if_neg h]
    cases hx : X[nrx - 1]? with
    | none => simp
    | some vx =>
      by_cases hv : vx = NA_INTEGER
      · simp [hv]
      · simp [hv]

theorem check_index_double_zero_y (X Y : List RDouble) (nrx : Nat) :
    check_index_double X Y nrx 0 = .error .out_of_bounds ∨
      check_index_double X Y nrx 0 = .error .invalid_index := by
  unfold check_index_double
  cases hx0 : X[0]? with
  | none => simp
  | some x0 =>
    simp only
    cases hf : R_FINITE x0
    · simp
    · by_cases h0 : nrx = 0
      · simp [h0]
      · cases hx1 : X[nrx - 1]? with
        | none => simp [h0]
        | some x1 =>
          cases hg : R_FINITE x1
          · simp [h0, hg]
          · cases hy0 : Y[0]? with
            | none => simp [h0, hg]
            | some y0 =>
              cases hh : R_FINITE y0 <;> simp [h0, hg, hh]

/-! ## The passes through the loops -/

/-- The cursors after a pass through the body of the generic loop do not
depend on the flags or on the count. -/
theorem generic_step_flags {α : Type} (idx : xts_indices α)
    (cmpfn : xts_indices α → Nat → Nat → Int) (nx ny : Nat) (lj rj lj1 rj1 : Bool)
    (i i1 xi yi : Nat) :
    (merge_index_length_generic_step idx cmpfn nx ny lj rj i xi yi).map (fun t => t.2) =
      (merge_index_length_generic_step idx cmpfn nx ny lj1 rj1 i1 xi yi).map (fun t => t.2) := by
  unfold merge_index_length_generic_step
  simp only
  split_ifs <;> rfl

/-- The count of the generic loop from a state on: the matches, and as the
flags say the rows of x alone and the rows of y alone, whose numbers do not
depend on the flags. -/
theorem generic_count_parts {α : Type} (idx : xts_indices α)
    (cmpfn : xts_indices α → Nat → Nat → Int) (nx ny : Nat) :
    ∀ fuel xi yi, xi ≤ nx + 1 → yi ≤ ny + 1 → (nx + 1 - xi) + (ny + 1 - yi) ≤ fuel →
      ∃ m l r, m + l = nx + 1 - xi ∧ m + r = ny + 1 - yi ∧
        ∀ (lj rj : Bool) (i : Nat),
          merge_index_length_generic idx cmpfn nx ny lj rj fuel i xi yi =
            .ok (i + m + (if lj then l else 0) + (if rj then r else 0)) := by
  intro fuel
  induction fuel with
  | zero =>
    intro xi yi hx hy hf
    refine ⟨0, 0, 0, by omega, by omega, ?_⟩
    intro lj rj i
    rw [merge_index_length_generic, if_neg (by omega)]
    simp
  | succ fuel ih =>
    intro xi yi hx hy hf
    by_cases hg : xi + yi ≤ nx + ny + 1
    · by_cases h1 : xi > nx
      · obtain ⟨m, l, r, hm, hr, h⟩ := ih xi (yi + 1) hx (by omega) (by omega)
        refine ⟨m, l, r + 1, by omega, by omega, ?_⟩
        intro lj rj i
        rw [merge_index_length_generic, if_pos hg, if_pos h1, h]
        cases rj <;> simp <;> omega
      · by_cases h2 : yi > ny
        · obtain ⟨m, l, r, hm, hr, h⟩ := ih (xi + 1) yi (by omega) hy (by omega)
          refine ⟨m, l + 1, r, by omega, by omega, ?_⟩
          intro lj rj i
          rw [merge_index_length_generic, if_pos hg, if_neg h1, if_pos h2, h]
          cases lj <;> simp <;> omega
        · by_cases c0 : cmpfn idx (xi - 1) (yi - 1) = 0
          · obtain ⟨m, l, r, hm, hr, h⟩ := ih (xi + 1) (yi + 1) (by omega) (by omega) (by omega)
            refine ⟨m + 1, l, r, by omega, by omega, ?_⟩
            intro lj rj i
            rw [merge_index_length_generic, if_pos hg, if_neg h1, if_neg h2]
            simp only [c0, if_true]
            rw [h]
            congr 1
            omega
          · by_cases c1 : cmpfn idx (xi - 1) (yi - 1) < 0
            · obtain ⟨m, l, r, hm, hr, h⟩ := ih (xi + 1) yi (by omega) hy (by omega)
              refine ⟨m, l + 1, r, by omega, by omega, ?_⟩
              intro lj rj i
              rw [merge_index_length_generic, if_pos hg, if_neg h1, if_neg h2]
              simp only [c0, c1, if_true, if_false]
              rw [h]
              cases lj <;> simp <;> omega
            · have c2 : cmpfn idx (xi - 1) (yi - 1) > 0 := by omega
              obtain ⟨m, l, r, hm, hr, h⟩ := ih xi (yi + 1) hx (by omega) (by omega)
              refine ⟨m, l, r + 1, by omega, by omega, ?_⟩
              intro lj rj i
              rw [merge_index_length_generic, if_pos hg, if_neg h1, if_neg h2]
              simp only [c0, c1, c2, if_true, if_false]
              rw [h]
              cases rj <;> simp <;> omega
    · refine ⟨0, 0, 0, by omega, by omega, ?_⟩
      intro lj rj i
      rw [merge_index_length_generic, if_neg hg]
      simp

/-! ## The rows that the fill loop reads and writes -/

theorem write_row_idx {β : Type} (setr : List β → List β → Nat → Nat → List β)
    (dx dy df : List β) (nrx ncx nry ncy : Nat) (lj rj : Bool) (n : Nat)
    (s : merge_state Int β) :
    (write_x_row (merge_env_int setr dx dy df nrx ncx nry ncy lj rj n) s).idx.x = s.idx.x ∧
    (write_x_row (merge_env_int setr dx dy df nrx ncx nry ncy lj rj n) s).idx.y = s.idx.y ∧
    (write_y_row (merge_env_int setr dx dy df nrx ncx nry ncy lj rj n) s).idx.x = s.idx.x ∧
    (write_y_row (merge_env_int setr dx dy df nrx ncx nry ncy lj rj n) s).idx.y = s.idx.y ∧
    (write_xy_row (merge_env_int setr dx dy df nrx ncx nry ncy lj rj n) s).idx.x = s.idx.x ∧
    (write_xy_row (merge_env_int setr dx dy df nrx ncx nry ncy lj rj n) s).idx.y = s.idx.y :=
  ⟨rfl, rfl, rfl, rfl, rfl, rfl⟩

/-- One pass through the body of the fill loop while the slot is below the
computed length: the pass has a next state, the invariant of the cursors
holds there, the rows the pass reads and writes are inside of the vectors,
and the slot is kept or it is written and moves on by one. -/
theorem merge_loop_body_cursor {β : Type} (setr : List β → List β → Nat → Nat → List β)
    (X Y : List Int) (dx dy df : List β) (ncx ncy : Nat) (lj rj : Bool) (n fuel : Nat)
    (s : merge_state Int β) (hinv : CursorInv X Y lj rj n (fuel + 1) s) (hg : s.i < n) :
    ∃ s1, merge_loop_body (merge_env_int setr dx dy df X.length ncx Y.length ncy lj rj n) s
        = .ok s1 ∧
      CursorInv X Y lj rj n fuel s1 ∧
      (∀ a ∈ merge_loop_body_accesses
          (merge_env_int setr dx dy df X.length ncx Y.length ncy lj rj n) s,
        a.in_bounds X.length Y.length n) ∧
      (s1.i = s.i ∨ (s1.i = s.i + 1 ∧ Access.result_row s.i ∈ merge_loop_body_accesses
          (merge_env_int setr dx dy df X.length ncx Y.length ncy lj rj n) s)) ∧
      s.xp + s.yp < s1.xp + s1.yp := by
  obtain ⟨hx, hy, hx1, hx2, hy1, hy2, hfuel, hlen⟩ := hinv
  obtain ⟨w1, w2, w3, w4, w5, w6⟩ :=
    write_row_idx setr dx dy df X.length ncx Y.length ncy lj rj n s
  have hxp : s.xp - 1 + 1 = s.xp := by omega
  have hyp : s.yp - 1 + 1 = s.yp := by omega
  rw [walk_succ] at hlen
  by_cases ha : X.length ≤ s.xp - 1 ∧ Y.length ≤ s.yp - 1
  · rw [if_pos ha] at hlen
    simp at hlen
    omega
  rw [if_neg ha] at hlen
  have hcx : ((s.xp : Int) - 1 < (X.length : Int)) ↔ s.xp ≤ X.length := by omega
  have hcy : ((s.yp : Int) - 1 < (Y.length : Int)) ↔ s.yp ≤ Y.length := by omega
  by_cases hb : X.length ≤ s.xp - 1
  · -- x is exhausted
    rw [if_pos hb, hyp] at hlen
    have hyle : s.yp ≤ Y.length := by omega
    cases rj
    · have hb' : s.xp > (merge_env_int setr dx dy df X.length ncx Y.length ncy lj false n).nrx := by
        show s.xp > X.length
        omega
      refine ⟨{ s with yp := s.yp + 1 }, ?_, ⟨hx, hy, hx1, hx2, by simp, by simp; omega,
        by simp; omega, by simpa [JoinWalker.emit] using hlen⟩, ?_, Or.inl rfl, by simp⟩
      · rw [merge_loop_body, if_pos hb']
        rfl
      · intro a hmem
        rw [merge_loop_body_accesses, if_pos hb'] at hmem
        simp [merge_env_int] at hmem
    · have hb' : s.xp > (merge_env_int setr dx dy df X.length ncx Y.length ncy lj true n).nrx := by
        show s.xp > X.length
        omega
      have hacc : merge_loop_body_accesses
          (merge_env_int setr dx dy df X.length ncx Y.length ncy lj true n) s =
          [Access.y_row ((s.yp : Int) - 1), Access.result_row s.i] := by
        rw [merge_loop_body_accesses, if_pos hb']
        rfl
      refine ⟨{ write_y_row (merge_env_int setr dx dy df X.length ncx Y.length ncy lj true n) s
          with yp := s.yp + 1, i := s.i + 1 }, ?_, ⟨w3.trans hx, w4.trans hy, hx1, hx2, by simp [write_x_row, write_y_row, write_xy_row],
          by simp [write_x_row, write_y_row, write_xy_row] <;> omega, by simp [write_x_row, write_y_row, write_xy_row] <;> omega, ?_⟩, ?_, Or.inr ⟨rfl, by rw [hacc]; simp⟩, by simp [write_x_row, write_y_row, write_xy_row]⟩
      · rw [merge_loop_body, if_pos hb']
        rfl
      · simp [JoinWalker.emit, write_x_row, write_y_row, write_xy_row] at hlen ⊢
        omega
      · intro a hmem
        rw [hacc] at hmem
        simp at hmem
        rcases hmem with h | h <;> subst h <;> simp only [Access.in_bounds] <;> omega
  rw [if_neg hb] at hlen
  have hxle : s.xp ≤ X.length := by omega
  by_cases hc : Y.length ≤ s.yp - 1
  · -- y is exhausted
    rw [if_pos hc, hxp] at hlen
    cases lj
    · have hb' : ¬ s.xp > (merge_env_int setr dx dy df X.length ncx Y.length ncy false rj n).nrx := by
        show ¬ s.xp > X.length
        omega
      have hc' : s.yp > (merge_env_int setr dx dy df X.length ncx Y.length ncy false rj n).nry := by
        show s.yp > Y.length
        omega
      refine ⟨{ s with xp := s.xp + 1 }, ?_, ⟨hx, hy, by simp, by simp; omega, hy1, hy2,
        by simp; omega, by simpa [JoinWalker.emit] using hlen⟩, ?_, Or.inl rfl, by simp⟩
      · rw [merge_loop_body, if_neg hb', if_pos hc']
        rfl
      · intro a hmem
        rw [merge_loop_body_accesses, if_neg hb', if_pos hc'] at hmem
        simp [merge_env_int] at hmem
    · have hb' : ¬ s.xp > (merge_env_int setr dx dy df X.length ncx Y.length ncy true rj n).nrx := by
        show ¬ s.xp > X.length
        omega
      have hc' : s.yp > (merge_env_int setr dx dy df X.length ncx Y.length ncy true rj n).nry := by
        show s.yp > Y.length
        omega
      have hacc : merge_loop_body_accesses
          (merge_env_int setr dx dy df X.length ncx Y.length ncy true rj n) s =
          [Access.x_row ((s.xp : Int) - 1), Access.result_row s.i] := by
        rw [merge_loop_body_accesses, if_neg hb', if_pos hc']
        rfl
      refine ⟨{ write_x_row (merge_env_int setr dx dy df X.length ncx Y.length ncy true rj n) s
          with xp := s.xp + 1, i := s.i + 1 }, ?_, ⟨w1.trans hx, w2.trans hy, by simp [write_x_row, write_y_row, write_xy_row],
          by simp [write_x_row, write_y_row, write_xy_row] <;> omega, hy1, hy2, by simp [write_x_row, write_y_row, write_xy_row] <;> omega, ?_⟩, ?_, Or.inr ⟨rfl, by rw [hacc]; simp⟩,
          by simp [write_x_row, write_y_row, write_xy_row]⟩
      · rw [merge_loop_body, if_neg hb', if_pos hc']
        rfl
      · simp [JoinWalker.emit, write_x_row, write_y_row, write_xy_row] at hlen ⊢
        omega
      · intro a hmem
        rw [hacc] at hmem
        simp at hmem
        rcases hmem with h | h <;> subst h <;> simp only [Access.in_bounds] <;> omega
  rw [if_neg hc] at hlen
  have hb' : ¬ s.xp > (merge_env_int setr dx dy df X.length ncx Y.length ncy lj rj n).nrx := by
    show ¬ s.xp > X.length
    omega
  have hc' : ¬ s.yp > (merge_env_int setr dx dy df X.length ncx Y.length ncy lj rj n).nry := by
    show ¬ s.yp > Y.length
    omega
  have hyle : s.yp ≤ Y.length := by omega
  have hcmpre : ∀ a ∈ [Access.x_row ((s.xp : Int) - 1), Access.y_row ((s.yp : Int) - 1)],
      a.in_bounds X.length Y.length n := by
    intro a hmem
    simp at hmem
    rcases hmem with h | h <;> subst h <;> simp only [Access.in_bounds] <;> omega
  cases hord : IndexComparator (X.getD (s.xp - 1) 0) (Y.getD (s.yp - 1) 0)
  · -- the row of x is behind
    have hcmp : (merge_env_int setr dx dy df X.length ncx Y.length ncy lj rj n).compare_indexes
        s.idx (s.xp - 1) (s.yp - 1) = -1 := by
      show compare_indexes_int s.idx (s.xp - 1) (s.yp - 1) = _
      simp only [compare_indexes_int_eq, hx, hy, hord]
    rw [hord] at hlen
    simp only at hlen
    rw [hxp] at hlen
    have hacc : merge_loop_body_accesses
        (merge_env_int setr dx dy df X.length ncx Y.length ncy lj rj n) s =
        [Access.x_row ((s.xp : Int) - 1), Access.y_row ((s.yp : Int) - 1)] ++
          (if lj then [Access.x_row ((s.xp : Int) - 1), Access.result_row s.i] else []) := by
      rw [merge_loop_body_accesses, if_neg hb', if_neg hc']
      simp only [hcmp]
      rw [if_neg (by decide), if_pos (by decide)]
      rfl
    have hbody : merge_loop_body (merge_env_int setr dx dy df X.length ncx Y.length ncy lj rj n) s
        = .ok { (if lj then write_x_row
            (merge_env_int setr dx dy df X.length ncx Y.length ncy lj rj n) s else s) with
            xp := s.xp + 1, yp := s.yp, i := if lj then s.i + 1 else s.i } := by
      rw [merge_loop_body, if_neg hb', if_neg hc']
      simp only [hcmp]
      rw [if_neg (by decide), if_pos (by decide)]
      cases lj <;> rfl
    rw [hbody, hacc]
    cases lj
    · refine ⟨{ s with xp := s.xp + 1 }, rfl, ⟨hx, hy, by simp, by simp; omega, hy1, hy2,
        by simp; omega, by simpa [JoinWalker.emit] using hlen⟩, ?_, Or.inl rfl, by simp⟩
      intro a hmem
      simp only [Bool.false_eq_true, if_false, List.append_nil] at hmem
      exact hcmpre a hmem
    · refine ⟨{ write_x_row (merge_env_int setr dx dy df X.length ncx Y.length ncy true rj n) s
          with xp := s.xp + 1, i := s.i + 1 }, rfl, ⟨w1.trans hx, w2.trans hy, by simp [write_x_row, write_y_row, write_xy_row],
          by simp [write_x_row, write_y_row, write_xy_row] <;> omega, hy1, hy2, by simp [write_x_row, write_y_row, write_xy_row] <;> omega, ?_⟩, ?_, Or.inr ⟨rfl, by simp [write_x_row, write_y_row, write_xy_row]⟩, by simp [write_x_row, write_y_row, write_xy_row]⟩
      · simp [JoinWalker.emit, write_x_row, write_y_row, write_xy_row] at hlen ⊢
        omega
      · intro a hmem
        rw [List.mem_append] at hmem
        rcases hmem with hmem | hmem
        · exact hcmpre a hmem
        · simp at hmem
          rcases hmem with h | h <;> subst h <;> simp only [Access.in_bounds] <;> omega
  · -- matching index values
    have hcmp : (merge_env_int setr dx dy df X.length ncx Y.length ncy lj rj n).compare_indexes
        s.idx (s.xp - 1) (s.yp - 1) = 0 := by
      show compare_indexes_int s.idx (s.xp - 1) (s.yp - 1) = _
      simp only [compare_indexes_int_eq, hx, hy, hord]
    rw [hord] at hlen
    simp only at hlen
    rw [hxp, hyp] at hlen
    have hbody : merge_loop_body (merge_env_int setr dx dy df X.length ncx Y.length ncy lj rj n) s
        = .ok { write_xy_row (merge_env_int setr dx dy df X.length ncx Y.length ncy lj rj n) s
            with xp := s.xp + 1, yp := s.yp + 1, i := s.i + 1 } := by
      rw [merge_loop_body, if_neg hb', if_neg hc']
      simp only [hcmp]
      rw [if_pos trivial]
    have hacc : merge_loop_body_accesses
        (merge_env_int setr dx dy df X.length ncx Y.length ncy lj rj n) s =
        [Access.x_row ((s.xp : Int) - 1), Access.y_row ((s.yp : Int) - 1)] ++
          [Access.x_row ((s.xp : Int) - 1), Access.result_row s.i,
            Access.y_row ((s.yp : Int) - 1)] := by
      rw [merge_loop_body_accesses, if_neg hb', if_neg hc']
      simp only [hcmp]
      rw [if_pos trivial]
    rw [hbody, hacc]
    refine ⟨_, rfl, ⟨w5.trans hx, w6.trans hy, by simp [write_x_row, write_y_row, write_xy_row], by simp [write_x_row, write_y_row, write_xy_row] <;> omega, by simp [write_x_row, write_y_row, write_xy_row], by simp [write_x_row, write_y_row, write_xy_row] <;> omega,
        by simp [write_x_row, write_y_row, write_xy_row] <;> omega, ?_⟩, ?_, Or.inr ⟨rfl, by simp [write_x_row, write_y_row, write_xy_row]⟩, by simp [write_x_row, write_y_row, write_xy_row] <;> omega⟩
    · simp [JoinWalker.emit, write_x_row, write_y_row, write_xy_row] at hlen ⊢
      omega
    · intro a hmem
      rw [List.mem_append] at hmem
      rcases hmem with hmem | hmem
      · exact hcmpre a hmem
      · simp at hmem
        rcases hmem with h | h | h <;> subst h <;> simp only [Access.in_bounds] <;> omega
  · -- the row of y is behind
    have hcmp : (merge_env_int setr dx dy df X.length ncx Y.length ncy lj rj n).compare_indexes
        s.idx (s.xp - 1) (s.yp - 1) = 1 := by
      show compare_indexes_int s.idx (s.xp - 1) (s.yp - 1) = _
      simp only [compare_indexes_int_eq, hx, hy, hord]
    rw [hord] at hlen
    simp only at hlen
    rw [hyp] at hlen
    have hacc : merge_loop_body_accesses
        (merge_env_int setr dx dy df X.length ncx Y.length ncy lj rj n) s =
        [Access.x_row ((s.xp : Int) - 1), Access.y_row ((s.yp : Int) - 1)] ++
          (if rj then [Access.y_row ((s.yp : Int) - 1), Access.result_row s.i] else []) := by
      rw [merge_loop_body_accesses, if_neg hb', if_neg hc']
      simp only [hcmp]
      rw [if_neg (by decide), if_neg (by decide), if_pos (by decide)]
      rfl
    have hbody : merge_loop_body (merge_env_int setr dx dy df X.length ncx Y.length ncy lj rj n) s
        = .ok { (if rj then write_y_row
            (merge_env_int setr dx dy df X.length ncx Y.length ncy lj rj n) s else s) with
            xp := s.xp, yp := s.yp + 1, i := if rj then s.i + 1 else s.i } := by
      rw [merge_loop_body, if_neg hb', if_neg hc']
      simp only [hcmp]
      rw [if_neg (by decide), if_neg (by decide), if_pos (by decide)]
      cases rj <;> rfl
    rw [hbody, hacc]
    cases rj
    · refine ⟨{ s with yp := s.yp + 1 }, rfl, ⟨hx, hy, hx1, hx2, by simp, by simp; omega,
        by simp; omega, by simpa [JoinWalker.emit] using hlen⟩, ?_, Or.inl rfl, by simp⟩
      intro a hmem
      simp only [Bool.false_eq_true, if_false, List.append_nil] at hmem
      exact hcmpre a hmem
    · refine ⟨{ write_y_row (merge_env_int setr dx dy df X.length ncx Y.length ncy lj true n) s
          with yp := s.yp + 1, i := s.i + 1 }, rfl, ⟨w3.trans hx, w4.trans hy, hx1, hx2, by simp [write_x_row, write_y_row, write_xy_row],
          by simp [write_x_row, write_y_row, write_xy_row] <;> omega, by simp [write_x_row, write_y_row, write_xy_row] <;> omega, ?_⟩, ?_, Or.inr ⟨rfl, by simp [write_x_row, write_y_row, write_xy_row]⟩, by simp [write_x_row, write_y_row, write_xy_row]⟩
      · simp [JoinWalker.emit, write_x_row, write_y_row, write_xy_row] at hlen ⊢
        omega
      · intro a hmem
        rw [List.mem_append] at hmem
        rcases hmem with hmem | hmem
        · exact hcmpre a hmem
        · simp at hmem
          rcases hmem with h | h <;> subst h <;> simp only [Access.in_bounds] <;> omega

theorem merge_loop_accesses_inv {β : Type} (setr : List β → List β → Nat → Nat → List β)
    (X Y : List Int) (dx dy df : List β) (ncx ncy : Nat) (lj rj : Bool) (n : Nat) :
    ∀ fuel (s : merge_state Int β), CursorInv X Y lj rj n fuel s →
      ∃ s' acc,
        merge_loop (merge_env_int setr dx dy df X.length ncx Y.length ncy lj rj n) fuel s
          = .ok s' ∧
        merge_loop_accesses (merge_env_int setr dx dy df X.length ncx Y.length ncy lj rj n)
          fuel s = .ok acc ∧
        s'.i = n ∧
        (∀ a ∈ acc, a.in_bounds X.length Y.length n) ∧
        (∀ k : Nat, s.i ≤ k → k < n → Access.result_row k ∈ acc) := by
  intro fuel
  induction fuel with
  | zero =>
    intro s hinv
    have hlen := hinv.hlen
    simp only [JoinWalker.walk, List.length_nil, Nat.add_zero] at hlen
    have hg : ¬ s.i < (merge_env_int setr dx dy df X.length ncx Y.length ncy lj rj n).num_rows := by
      show ¬ s.i < n
      omega
    refine ⟨s, [], ?_, ?_, hlen, ?_, ?_⟩
    · rw [merge_loop, if_neg hg]
    · rw [merge_loop_accesses, if_neg hg]
    · intro a ha
      cases ha
    · intro k h1 h2
      omega
  | succ fuel ih =>
    intro s hinv
    by_cases hg : s.i < n
    · have hg' : s.i < (merge_env_int setr dx dy df X.length ncx Y.length ncy lj rj n).num_rows :=
        hg
      obtain ⟨s1, hbody, hinv1, hacc, hslot, -⟩ :=
        merge_loop_body_cursor setr X Y dx dy df ncx ncy lj rj n fuel s hinv hg
      obtain ⟨s', acc, h1, h2, h3, h4, h5⟩ := ih s1 hinv1
      refine ⟨s', merge_loop_body_accesses
        (merge_env_int setr dx dy df X.length ncx Y.length ncy lj rj n) s ++ acc,
        ?_, ?_, h3, ?_, ?_⟩
      · rw [merge_loop, if_pos hg', hbody]
        exact h1
      · rw [merge_loop_accesses, if_pos hg', hbody]
        simp only [h2]
      · intro a ha
        rcases List.mem_append.mp ha with ha | ha
        · exact hacc a ha
        · exact h4 a ha
      · intro k hk1 hk2
        apply List.mem_append.mpr
        rcases hslot with hs | ⟨hs, hm⟩
        · right
          exact h5 k (by omega) hk2
        · by_cases hk : k = s.i
          · left
            rw [hk]
            exact hm
          · right
            exact h5 k (by omega) hk2
    · have hlen := hinv.hlen
      have hg' : ¬ s.i < (merge_env_int setr dx dy df X.length ncx Y.length ncy lj rj n).num_rows :=
        hg
      refine ⟨s, [], ?_, ?_, by omega, ?_, ?_⟩
      · rw [merge_loop, if_neg hg']
      · rw [merge_loop_accesses, if_neg hg']
      · intro a ha
        cases ha
      · intro k h1 h2
        omega

theorem merge_init_cursor {β : Type} (R : RApi β) (X Y : List Int) (ncx ncy : Nat)
    (lj rj : Bool) :
    CursorInv X Y lj rj (JoinWalker X Y ⟨lj, rj⟩).length (X.length + Y.length)
      (merge_init R X Y ncx ncy (JoinWalker X Y ⟨lj, rj⟩).length) := by
  refine ⟨rfl, rfl, ?_, ?_, ?_, ?_, ?_, ?_⟩
  · show 1 ≤ 1; omega
  · show 1 ≤ X.length + 1; omega
  · show 1 ≤ 1; omega
  · show 1 ≤ Y.length + 1; omega
  · show (X.length + 1 - 1) + (Y.length + 1 - 1) ≤ X.length + Y.length; omega
  · show 0 + (JoinWalker.walk X Y ⟨lj, rj⟩ (X.length + Y.length) (1 - 1) (1 - 1)).length = _
    simp [JoinWalker]

/-! ## Swapped operands -/

theorem IndexComparator_swap (a b : Int) :
    IndexComparator b a =
      match IndexComparator a b with
      | .lt => .gt
      | .eq => .eq
      | .gt => .lt := by
  unfold IndexComparator
  by_cases h1 : a > b
  · have h2 : ¬ b > a := by omega
    have h3 : b < a := by omega
    simp [h1, h2, h3]
  · by_cases h2 : a < b
    · have h3 : b > a := by omega
      simp [h1, h2, h3]
    · have h3 : ¬ b > a := by omega
      have h4 : ¬ b < a := by omega
      simp [h1, h2, h3, h4]

/-- The traversal of `Y` against `X` with the flags swapped emits the index
values of the traversal of `X` against `Y`. -/
theorem walk_swap (X Y : List Int) (l r : Bool) :
    ∀ fuel xp yp, rows_index X Y (JoinWalker.walk X Y ⟨l, r⟩ fuel xp yp) =
      rows_index Y X (JoinWalker.walk Y X ⟨r, l⟩ fuel yp xp) := by
  intro fuel
  induction fuel with
  | zero =>
    intro xp yp
    rfl
  | succ fuel ih =>
    intro xp yp
    rw [walk_succ, walk_succ]
    by_cases ha : X.length ≤ xp ∧ Y.length ≤ yp
    · rw [if_pos ha, if_pos ⟨ha.2, ha.1⟩]
      rfl
    have ha1 : ¬ (Y.length ≤ yp ∧ X.length ≤ xp) := fun h => ha ⟨h.2, h.1⟩
    rw [if_neg ha, if_neg ha1]
    by_cases hb : X.length ≤ xp
    · have hc : ¬ Y.length ≤ yp := fun h => ha ⟨hb, h⟩
      simp only [hb, hc, if_true, if_false]
      rw [rows_index_emit_right, rows_index_emit_left, ih]
    by_cases hc : Y.length ≤ yp
    · simp only [hb, hc, if_true, if_false]
      rw [rows_index_emit_left, rows_index_emit_right, ih]
    simp only [hb, hc, if_false]
    rw [IndexComparator_swap (X.getD xp 0) (Y.getD yp 0)]
    cases hord : IndexComparator (X.getD xp 0) (Y.getD yp 0)
    · simp only
      rw [rows_index_emit_left, rows_index_emit_right, ih]
    · simp only
      have he := IndexComparator_eq hord
      simp only [JoinWalker.emit, if_true, List.singleton_append]
      rw [rows_index_matched, rows_index_matched, ih, he]
    · simp only
      rw [rows_index_emit_right, rows_index_emit_left, ih]

theorem merged_index_swap (X Y : List Int) (l r : Bool) :
    rows_index X Y (JoinWalker X Y ⟨l, r⟩) = rows_index Y X (JoinWalker Y X ⟨r, l⟩) := by
  unfold JoinWalker
  rw [walk_swap X Y l r, Nat.add_comm]

/-! ## The n-way merge of tables of complex or character cells -/

/-- The steps of `mergeXts` for three objects of complex or character cells:
after the common index is built, the switch on the type of the result
stops. -/
theorem mergeXts_three_unsupported {β : Type} (R : RApi β) (all : Bool × Bool) (fill : SEXP β)
    (a b c S1 S : SEXP β) (ncs : Nat)
    (hscan : mergeXts_scan a.type [some a, some b, some c] 0 false = (ncs, false))
    (hS1 : do_merge_xts R (some a) (some b) all fill (false, false) false = .ok (some S1))
    (hS : do_merge_xts R (some S1) (some c) all fill (false, false) false = .ok (some S))
    (hkind : S.type = .CPLXSXP ∨ S.type = .STRSXP) :
    mergeXts R all fill (true, true) [some a, some b, some c] = .error .unsupported_type := by
  unfold mergeXts
  simp only [List.headD_cons, TYPEOF, hscan, List.tail_cons, mergeXts_skip]
  rw [if_neg (by simp), if_pos (by simp)]
  simp only [List.isEmpty_cons, Option.isNone_some, Bool.false_eq_true, if_false, hS1,
    mergeXts_index, hS]
  rcases hkind with h | h <;> simp [h]

theorem set_result_of_five {β : Type} (R : RApi β) {t : SEXPTYPE}
    (hkind : t = .LGLSXP ∨ t = .INTSXP ∨ t = .REALSXP ∨ t = .CPLXSXP ∨ t = .STRSXP) :
    ∃ set_result, set_result_of R t = .ok set_result := by
  rcases hkind with h | h | h | h | h <;> subst h <;> exact ⟨_, rfl⟩

/-- `mergeXts` of three tables of complex or of character cells stops with
the error of an unsupported data type. -/
theorem mergeXts_three_tables_unsupported {β : Type} (R : RApi β) (t : SEXPTYPE)
    (hkind : t = .CPLXSXP ∨ t = .STRSXP)
    (a b c : SEXP β) (ha : Table a) (hb : Table b) (hc : Table c)
    (hta : a.type = t) (htb : b.type = t) (htc : c.type = t)
    (hsa : a.index.Pairwise (· < ·)) (hsb : b.index.Pairwise (· < ·))
    (hsc : c.index.Pairwise (· < ·))
    (hNAa : NA_INTEGER ∉ a.index) (hNAb : NA_INTEGER ∉ b.index) (hNAc : NA_INTEGER ∉ c.index)
    (hna : a.index ≠ []) (hnb : b.index ≠ []) (hnc : c.index ≠ [])
    (all : Bool × Bool) (hall : all.2 = true → all.1 = true) (fill : SEXP β)
    (hne : merged_index (merged_index a.index b.index all) c.index all ≠ []) :
    mergeXts R all fill (true, true) [some a, some b, some c] = .error .unsupported_type := by
  obtain ⟨sr, hsup⟩ := set_result_of_five R (t := t) (by tauto)
  have hI1s := merged_index_sorted a.index b.index all hsa hsb
  have hI1na := merged_index_no_NA a.index b.index all hsa hsb hNAa hNAb
  have hI1ne := merged_index_ne_nil a.index b.index c.index all hsa hsb hsc hall hna hne
  obtain ⟨S1, hS1, hS1t, hS1i, hS1d, hS1l, -, -⟩ := do_merge_xts_table R t sr hsup a b ha hb
    hta htb hsa hsb hNAa hNAb hna hnb all fill false hI1ne
  have hS1eq := skeleton_eq S1 t _ hS1t hS1i (by simpa using hS1d) (by simpa using hS1l)
  subst hS1eq
  obtain ⟨S, hS, hSt, hSi, hSd, hSl, -, -⟩ := do_merge_xts_table R t sr hsup _ c
    (skeleton_table t (merged_index a.index b.index all)) hc rfl htc hI1s hsc hI1na hNAc
    hI1ne hnc all fill false hne
  have hscan : mergeXts_scan a.type [some a, some b, some c] 0 false
      = (ncols a + ncols b + ncols c, false) := by
    rw [mergeXts_scan_table a.type a ha hna rfl, mergeXts_scan_table a.type b hb hnb
      (htb.trans hta.symm), mergeXts_scan_table a.type c hc hnc (htc.trans hta.symm)]
    simp [mergeXts_scan]
  exact mergeXts_three_unsupported R all fill a b c _ S _ hscan hS1 hS (by rw [hSt]; exact hkind)

/-! ## The merge for a double index -/

/-- The ways `do_merge_xts_double` stops without a result. -/
theorem do_merge_xts_double_error {β : Type} (R : RApi β) (x y : SEXP_double β)
    (all : Bool × Bool) (fill : SEXP β) (retside : Bool × Bool) (coerce : Bool)
    (err : MergeError)
    (h : do_merge_xts_double R (some x) (some y) all fill retside coerce = .error err) :
    check_index_double x.index y.index (zero_width_operands_double R x y retside).nrx
        (zero_width_operands_double R x y retside).nry = .error err ∨
      err = .unsupported_type ∨ err = .fuel := by
  unfold do_merge_xts_double at h
  simp only at h
  split at h
  · injection h with h
    subst h
    left; assumption
  · split at h
    · injection h with h
      subst h
      right; right
      exact merge_index_length_error_fuel _ _ _ _ _ _ _ (by assumption)
    · split_ifs at h
      split at h
      · injection h with h
        subst h
        right; left
        exact set_result_of_error R _ _ (by assumption)
      · split at h
        · injection h with h
          subst h
          right; right
          exact merge_loop_error_fuel _ _ _ _ (by assumption)
        · cases h

/-- When the check of the double index fails, `do_merge_xts_double` fails
with its error. -/
theorem do_merge_xts_double_check {β : Type} (R : RApi β) (x y : SEXP_double β)
    (all : Bool × Bool) (fill : SEXP β) (retside : Bool × Bool) (coerce : Bool)
    (err : MergeError)
    (h : check_index_double x.index y.index (zero_width_operands_double R x y retside).nrx
        (zero_width_operands_double R x y retside).nry = .error err) :
    do_merge_xts_double R (some x) (some y) all fill retside coerce = .error err := by
  unfold do_merge_xts_double
  simp only [h]

/-- The numbers of rows that the merge of two tables with a double index
uses are the lengths of their indices. -/
theorem zero_width_operands_double_rows {β : Type} (R : RApi β) (x y : SEXP_double β)
    (hx : Table_double x) (hy : Table_double y) (retside : Bool × Bool) :
    (zero_width_operands_double R x y retside).nrx = x.index.length ∧
    (zero_width_operands_double R x y retside).nry = y.index.length := by
  constructor
  · unfold zero_width_operands_double
    simp only
    split_ifs
    · rfl
    · exact hx.1.symm
  · unfold zero_width_operands_double
    simp only
    split_ifs
    · rfl
    · exact hy.1.symm

/-! ## The count with the arithmetic of `int` -/

/-- A value within the range of `int` is not changed. -/
theorem wrap_int_of_fits (z : Int) (h1 : -2147483648 ≤ z) (h2 : z ≤ 2147483647) :
    wrap_int z = z := by
  unfold wrap_int
  omega

/-- Within the range of `int` the generic loop with the arithmetic of C
`int`s is the generic loop of `merge_index_length`. -/
theorem generic_int_eq {α : Type} (idx : xts_indices α)
    (cmpfn : xts_indices α → Nat → Nat → Int) (nx ny : Nat) (lj rj : Bool)
    (hfit : nx + ny + 2 ≤ 2147483647) :
    ∀ (fuel i xi yi : Nat), 1 ≤ xi → xi ≤ nx + 1 → 1 ≤ yi → yi ≤ ny + 1 → i + 2 ≤ xi + yi →
      merge_index_length_generic_int idx cmpfn nx ny ((nx + ny + 1 : Nat) : Int) lj rj fuel
          (i : Int) (xi : Int) (yi : Int) =
        (merge_index_length_generic idx cmpfn nx ny lj rj fuel i xi yi).map
          (fun n => (n : Int)) := by
  intro fuel
  induction fuel with
  | zero =>
    intro i xi yi hx1 hx2 hy1 hy2 hi
    have e1 : wrap_int ((xi : Int) + yi) = ((xi + yi : Nat) : Int) := by
      rw [wrap_int_of_fits _ (by omega) (by omega)]
      push_cast
      rfl
    rw [merge_index_length_generic_int, merge_index_length_generic, e1]
    by_cases hg : xi + yi ≤ nx + ny + 1
    · rw [if_pos (by exact_mod_cast hg), if_pos hg]
      rfl
    · rw [if_neg (by exact_mod_cast hg), if_neg hg]
      rfl
  | succ fuel ih =>
    intro i xi yi hx1 hx2 hy1 hy2 hi
    have e1 : wrap_int ((xi : Int) + yi) = ((xi + yi : Nat) : Int) := by
      rw [wrap_int_of_fits _ (by omega) (by omega)]
      push_cast
      rfl
    have ei : wrap_int ((i : Int) + 1) = ((i + 1 : Nat) : Int) := by
      rw [wrap_int_of_fits _ (by omega) (by omega)]
      push_cast
      rfl
    have ex : wrap_int ((xi : Int) + 1) = ((xi + 1 : Nat) : Int) := by
      rw [wrap_int_of_fits _ (by omega) (by omega)]
      push_cast
      rfl
    have ey : wrap_int ((yi : Int) + 1) = ((yi + 1 : Nat) : Int) := by
      rw [wrap_int_of_fits _ (by omega) (by omega)]
      push_cast
      rfl
    have px : (wrap_int ((xi : Int) - 1)).toNat = xi - 1 := by
      rw [wrap_int_of_fits _ (by omega) (by omega)]
      omega
    have py : (wrap_int ((yi : Int) - 1)).toNat = yi - 1 := by
      rw [wrap_int_of_fits _ (by omega) (by omega)]
      omega
    have eif : ∀ b : Bool, (if b then ((i + 1 : Nat) : Int) else (i : Int)) =
        (((if b then i + 1 else i) : Nat) : Int) := by
      intro b
      cases b <;> rfl
    rw [merge_index_length_generic_int, merge_index_length_generic, e1, ei, ex, ey, px, py]
    by_cases hg : xi + yi ≤ nx + ny + 1
    · rw [if_pos (by exact_mod_cast hg), if_pos hg]
      by_cases h1 : xi > nx
      · rw [if_pos (by exact_mod_cast h1), if_pos h1, eif]
        exact ih _ _ _ hx1 hx2 (by omega) (by omega) (by cases rj <;> simp <;> omega)
      · rw [if_neg (by exact_mod_cast h1), if_neg h1]
        by_cases h2 : yi > ny
        · rw [if_pos (by exact_mod_cast h2), if_pos h2, eif]
          exact ih _ _ _ (by omega) (by omega) hy1 hy2 (by cases lj <;> simp <;> omega)
        · rw [if_neg (by exact_mod_cast h2), if_neg h2]
          simp only
          by_cases c0 : cmpfn idx (xi - 1) (yi - 1) = 0
          · rw [if_pos c0, if_pos c0]
            exact ih _ _ _ (by omega) (by omega) (by omega) (by omega) (by omega)
          · rw [if_neg c0, if_neg c0]
            by_cases c1 : cmpfn idx (xi - 1) (yi - 1) < 0
            · rw [if_pos c1, if_pos c1, eif]
              exact ih _ _ _ (by omega) (by omega) hy1 hy2 (by cases lj <;> simp <;> omega)
            · rw [if_neg c1, if_neg c1]
              by_cases c2 : cmpfn idx (xi - 1) (yi - 1) > 0
              · rw [if_pos c2, if_pos c2, eif]
                exact ih _ _ _ hx1 hx2 (by omega) (by omega) (by cases rj <;> simp <;> omega)
              · rw [if_neg c2, if_neg c2]
                rfl
    · rw [if_neg (by exact_mod_cast hg), if_neg hg]
      rfl


/-- Within the range of `int` the loop for both flags with the arithmetic of
C `int`s is the loop for both flags of `merge_index_length`. -/
theorem both_int_eq {α : Type} (idx : xts_indices α)
    (cmpfn : xts_indices α → Nat → Nat → Int) (nx ny : Nat)
    (hfit : nx + ny + 2 ≤ 2147483647) :
    ∀ (fuel i xi yi : Nat), 1 ≤ xi → xi ≤ nx + 1 → 1 ≤ yi → yi ≤ ny + 1 → i + 2 ≤ xi + yi →
      merge_index_length_both_int idx cmpfn nx ny ((nx + ny + 1 : Nat) : Int) fuel
          (i : Int) (xi : Int) (yi : Int) =
        (merge_index_length_both idx cmpfn nx ny fuel i xi yi).map (fun n => (n : Int)) := by
  intro fuel
  induction fuel with
  | zero =>
    intro i xi yi hx1 hx2 hy1 hy2 hi
    have e1 : wrap_int ((xi : Int) + yi) = ((xi + yi : Nat) : Int) := by
      rw [wrap_int_of_fits _ (by omega) (by omega)]
      push_cast
      rfl
    rw [merge_index_length_both_int, merge_index_length_both, e1]
    by_cases hg : xi + yi ≤ nx + ny + 1
    · rw [if_pos (by exact_mod_cast hg), if_pos hg]
      by_cases h1 : xi > nx
      · rw [if_pos (by exact_mod_cast h1), if_pos h1]
        have e2 : wrap_int ((i : Int) + wrap_int (wrap_int ((ny : Int) - yi) + 1)) =
            ((i + (ny - yi + 1) : Nat) : Int) := by
          rw [wrap_int_of_fits ((ny : Int) - yi) (by omega) (by omega),
            wrap_int_of_fits ((ny : Int) - yi + 1) (by omega) (by omega),
            wrap_int_of_fits _ (by omega) (by omega)]
          omega
        rw [e2]
        rfl
      · rw [if_neg (by exact_mod_cast h1), if_neg h1]
        by_cases h2 : yi > ny
        · rw [if_pos (by exact_mod_cast h2), if_pos h2]
          have e2 : wrap_int ((i : Int) + wrap_int (wrap_int ((nx : Int) - xi) + 1)) =
              ((i + (nx - xi + 1) : Nat) : Int) := by
            rw [wrap_int_of_fits ((nx : Int) - xi) (by omega) (by omega),
              wrap_int_of_fits ((nx : Int) - xi + 1) (by omega) (by omega),
              wrap_int_of_fits _ (by omega) (by omega)]
            omega
          rw [e2]
          rfl
        · rw [if_neg (by exact_mod_cast h2), if_neg h2]
          rfl
    · rw [if_neg (by exact_mod_cast hg), if_neg hg]
      rfl
  | succ fuel ih =>
    intro i xi yi hx1 hx2 hy1 hy2 hi
    have e1 : wrap_int ((xi : Int) + yi) = ((xi + yi : Nat) : Int) := by
      rw [wrap_int_of_fits _ (by omega) (by omega)]
      push_cast
      rfl
    have ei : wrap_int ((i : Int) + 1) = ((i + 1 : Nat) : Int) := by
      rw [wrap_int_of_fits _ (by omega) (by omega)]
      push_cast
      rfl
    have ex : wrap_int ((xi : Int) + 1) = ((xi + 1 : Nat) : Int) := by
      rw [wrap_int_of_fits _ (by omega) (by omega)]
      push_cast
      rfl
    have ey : wrap_int ((yi : Int) + 1) = ((yi + 1 : Nat) : Int) := by
      rw [wrap_int_of_fits _ (by omega) (by omega)]
      push_cast
      rfl
    have px : (wrap_int ((xi : Int) - 1)).toNat = xi - 1 := by
      rw [wrap_int_of_fits _ (by omega) (by omega)]
      omega
    have py : (wrap_int ((yi : Int) - 1)).toNat = yi - 1 := by
      rw [wrap_int_of_fits _ (by omega) (by omega)]
      omega
    rw [merge_index_length_both_int, merge_index_length_both, e1, ei, ex, ey, px, py]
    by_cases hg : xi + yi ≤ nx + ny + 1
    · rw [if_pos (by exact_mod_cast hg), if_pos hg]
      by_cases h1 : xi > nx
      · rw [if_pos (by exact_mod_cast h1), if_pos h1]
        have e2 : wrap_int ((i : Int) + wrap_int (wrap_int ((ny : Int) - yi) + 1)) =
            ((i + (ny - yi + 1) : Nat) : Int) := by
          rw [wrap_int_of_fits ((ny : Int) - yi) (by omega) (by omega),
            wrap_int_of_fits ((ny : Int) - yi + 1) (by omega) (by omega),
            wrap_int_of_fits _ (by omega) (by omega)]
          omega
        rw [e2]
        rfl
      · rw [if_neg (by exact_mod_cast h1), if_neg h1]
        by_cases h2 : yi > ny
        · rw [if_pos (by exact_mod_cast h2), if_pos h2]
          have e2 : wrap_int ((i : Int) + wrap_int (wrap_int ((nx : Int) - xi) + 1)) =
              ((i + (nx - xi + 1) : Nat) : Int) := by
            rw [wrap_int_of_fits ((nx : Int) - xi) (by omega) (by omega),
              wrap_int_of_fits ((nx : Int) - xi + 1) (by omega) (by omega),
              wrap_int_of_fits _ (by omega) (by omega)]
            omega
          rw [e2]
          rfl
        · rw [if_neg (by exact_mod_cast h2), if_neg h2]
          simp only
          by_cases c0 : cmpfn idx (xi - 1) (yi - 1) = 0
          · rw [if_pos c0, if_pos c0]
            exact ih _ _ _ (by omega) (by omega) (by omega) (by omega) (by omega)
          · rw [if_neg c0, if_neg c0]
            by_cases c1 : cmpfn idx (xi - 1) (yi - 1) < 0
            · rw [if_pos c1, if_pos c1]
              exact ih _ _ _ (by omega) (by omega) hy1 hy2 (by omega)
            · rw [if_neg c1, if_neg c1]
              by_cases c2 : cmpfn idx (xi - 1) (yi - 1) > 0
              · rw [if_pos c2, if_pos c2]
                exact ih _ _ _ hx1 hx2 (by omega) (by omega) (by omega)
              · rw [if_neg c2, if_neg c2]
                rfl
    · rw [if_neg (by exact_mod_cast hg), if_neg hg]
      rfl

/-- Within the range of `int`, `nx + ny + 2 ≤ INT_MAX`, the count with the
arithmetic of C `int`s is the count of `merge_index_length`. -/
theorem merge_index_length_int_eq {α : Type} (idx : xts_indices α)
    (cmpfn : xts_indices α → Nat → Nat → Int) (nx ny : Nat)
    (hfit : nx + ny + 2 ≤ 2147483647) (lj rj : Bool) :
    merge_index_length_int idx cmpfn (nx : Int) (ny : Int) lj rj =
      (merge_index_length idx cmpfn nx ny lj rj).map (fun n => (n : Int)) := by
  have hm : wrap_int (wrap_int ((nx : Int) + ny) + 1) = ((nx + ny + 1 : Nat) : Int) := by
    rw [wrap_int_of_fits ((nx : Int) + ny) (by omega) (by omega),
      wrap_int_of_fits _ (by omega) (by omega)]
    push_cast
    rfl
  have hf : ((nx : Int) + ny + 1).toNat = nx + ny + 1 := by omega
  unfold merge_index_length_int merge_index_length
  simp only [hm, hf]
  by_cases hb : (rj && lj) = true
  · rw [if_pos hb, if_pos hb]
    exact both_int_eq idx cmpfn nx ny hfit _ 0 1 1 (by omega) (by omega) (by omega) (by omega)
      (by omega)
  · rw [if_neg hb, if_neg hb]
    exact generic_int_eq idx cmpfn nx ny lj rj hfit _ 0 1 1 (by omega) (by omega) (by omega)
      (by omega) (by omega)

/-- The generic loop returns the count as it is when its guard fails. -/
theorem generic_int_exit {α : Type} (idx : xts_indices α)
    (cmpfn : xts_indices α → Nat → Nat → Int) (nx ny max_length : Int) (lj rj : Bool)
    (fuel : Nat) (i xi yi : Int) (h : ¬ wrap_int (xi + yi) ≤ max_length) :
    merge_index_length_generic_int idx cmpfn nx ny max_length lj rj fuel i xi yi = .ok i := by
  cases fuel with
  | zero => rw [merge_index_length_generic_int, if_neg h]
  | succ fuel => rw [merge_index_length_generic_int, if_neg h]

/-- The loop for both flags returns the count as it is when its guard
fails. -/
theorem both_int_exit {α : Type} (idx : xts_indices α)
    (cmpfn : xts_indices α → Nat → Nat → Int) (nx ny max_length : Int)
    (fuel : Nat) (i xi yi : Int) (h : ¬ wrap_int (xi + yi) ≤ max_length) :
    merge_index_length_both_int idx cmpfn nx ny max_length fuel i xi yi = .ok i := by
  cases fuel with
  | zero => rw [merge_index_length_both_int, if_neg h]
  | succ fuel => rw [merge_index_length_both_int, if_neg h]

/-- When `nx + ny` reaches `INT_MAX`, `max_length = nx + ny + 1` wraps around
to a negative value, the guard `xi + yi <= max_length` fails at once and the
count is 0, whatever the indices and the flags are. -/
theorem merge_index_length_int_overflow {α : Type} (idx : xts_indices α)
    (cmpfn : xts_indices α → Nat → Nat → Int) (nx ny : Int)
    (hx0 : 0 ≤ nx) (hx : nx ≤ 2147483647) (hy0 : 0 ≤ ny) (hy : ny ≤ 2147483647)
    (hsum : 2147483647 ≤ nx + ny) (lj rj : Bool) :
    merge_index_length_int idx cmpfn nx ny lj rj = .ok 0 := by
  have hg : ¬ wrap_int ((1 : Int) + 1) ≤ wrap_int (wrap_int (nx + ny) + 1) := by
    unfold wrap_int
    omega
  unfold merge_index_length_int
  simp only
  by_cases hb : (rj && lj) = true
  · rw [if_pos hb]
    exact both_int_exit idx cmpfn nx ny _ _ 0 1 1 hg
  · rw [if_neg hb]
    exact generic_int_exit idx cmpfn nx ny _ lj rj _ 0 1 1 hg

/-- A pass of the generic loop with the arithmetic of C `int`s is the test of
the guard, then the body, then the rest of the loop. -/
theorem generic_int_succ_step {α : Type} (idx : xts_indices α)
    (cmpfn : xts_indices α → Nat → Nat → Int) (nx ny max_length : Int) (lj rj : Bool)
    (fuel : Nat) (i xi yi : Int) :
    merge_index_length_generic_int idx cmpfn nx ny max_length lj rj (fuel + 1) i xi yi =
      if wrap_int (xi + yi) ≤ max_length then
        match merge_index_length_generic_int_step idx cmpfn nx ny lj rj i xi yi with
        | .ok t =>
          merge_index_length_generic_int idx cmpfn nx ny max_length lj rj fuel t.1 t.2.1 t.2.2
        | .error err => .error err
      else .ok i := by
  rw [merge_index_length_generic_int]
  unfold merge_index_length_generic_int_step
  simp only
  split_ifs <;> rfl

/-- The cursors after a pass through the body of the generic loop with the
arithmetic of C `int`s do not depend on the flags or on the count. -/
theorem generic_int_step_flags {α : Type} (idx : xts_indices α)
    (cmpfn : xts_indices α → Nat → Nat → Int) (nx ny : Int) (lj rj lj1 rj1 : Bool)
    (i i1 xi yi : Int) :
    (merge_index_length_generic_int_step idx cmpfn nx ny lj rj i xi yi).map (fun t => t.2) =
      (merge_index_length_generic_int_step idx cmpfn nx ny lj1 rj1 i1 xi yi).map
        (fun t => t.2) := by
  unfold merge_index_length_generic_int_step
  simp only
  split_ifs <;> rfl

/-! ## Properties of the merge -/

/-- C1. Inner join (both flags false) of strictly ascending indices `X` and
`Y`: `merge_index_length` returns the number of the values of `X` that occur
in `Y`; the fill loop ends with a merged index that is the ascending list of
these values; every output row `k` comes from a pair `(i, j)` with
`X[i] = Y[j]` and holds in every cell the cell of row `i` of the left table
or of row `j` of the right table, not the fill value; and every pair `(i, j)`
with `X[i] = Y[j]` has its output row. -/
theorem inner_join_rows {β : Type} (R : RApi β) (t : SEXPTYPE)
    (set_result : List β → List β → Nat → Nat → List β)
    (ht : set_result_of R t = .ok set_result)
    (X Y : List Int) (hX : X.Pairwise (· < ·)) (hY : Y.Pairwise (· < ·))
    (dx dy df : List β) (ncx ncy : Nat) :
    merge_index_length { r := [], x := X, y := Y } compare_indexes_int X.length Y.length
        false false = .ok (X.filter (fun v => decide (v ∈ Y))).length ∧
    ∃ s, merge_loop
        (merge_env_int set_result dx dy df X.length ncx Y.length ncy false false
          (X.filter (fun v => decide (v ∈ Y))).length)
        (X.length + Y.length)
        (merge_init R X Y ncx ncy (X.filter (fun v => decide (v ∈ Y))).length) = .ok s ∧
      s.idx.r = X.filter (fun v => decide (v ∈ Y)) ∧
      s.idx.r.Pairwise (· < ·) ∧
      (∀ k, k < s.idx.r.length → ∃ i j, i < X.length ∧ j < Y.length ∧
        X.getD i 0 = Y.getD j 0 ∧ s.idx.r.getD k 0 = X.getD i 0 ∧
        (∀ c, c < ncx → cell R s.result s.idx.r.length k c = cell R dx X.length i c) ∧
        (∀ c, c < ncy → cell R s.result s.idx.r.length k (c + ncx) = cell R dy Y.length j c)) ∧
      (∀ i j, i < X.length → j < Y.length → X.getD i 0 = Y.getD j 0 →
        ∃ k, k < s.idx.r.length ∧ s.idx.r.getD k 0 = X.getD i 0 ∧
        (∀ c, c < ncx → cell R s.result s.idx.r.length k c = cell R dx X.length i c) ∧
        (∀ c, c < ncy → cell R s.result s.idx.r.length k (c + ncx) = cell R dy Y.length j c)) := by
  have hidx : rows_index X Y (JoinWalker X Y ⟨false, false⟩) = X.filter (fun v => decide (v ∈ Y)) := by
    have := walk_inner_join X Y hX hY (X.length + Y.length) 0 0 (by simp)
    simpa [JoinWalker] using this
  have hlen : (JoinWalker X Y ⟨false, false⟩).length = (X.filter (fun v => decide (v ∈ Y))).length := by
    have := congrArg List.length hidx
    simpa [rows_index] using this
  have hwf := walk_row_wf X Y ⟨false, false⟩ (X.length + Y.length) 0 0 (by simp)
  have hcomp := walk_matched_complete X Y ⟨false, false⟩ hX hY (X.length + Y.length) 0 0 (by simp)
  refine ⟨by rw [merge_index_length_walk, hlen], ?_⟩
  obtain ⟨s, h1, h2, _, h4, _⟩ := merge_loop_rows R set_result
    (set_result_of_spec R t set_result ht) X Y dx dy df ncx ncy false false
  have hrlen : s.idx.r.length = (JoinWalker X Y ⟨false, false⟩).length := by
    rw [h2]; simp [rows_index]
  rw [hlen] at h1
  have hrow : ∀ k (hk : k < (JoinWalker X Y ⟨false, false⟩).length) i j,
      (JoinWalker X Y ⟨false, false⟩).get ⟨k, hk⟩ = ⟨.Matched, some i, some j⟩ →
      s.idx.r.getD k 0 = X.getD i 0 ∧
      (∀ c, c < ncx → cell R s.result s.idx.r.length k c = cell R dx X.length i c) ∧
      (∀ c, c < ncy → cell R s.result s.idx.r.length k (c + ncx) = cell R dy Y.length j c) := by
    intro k hk i j hget
    obtain ⟨a1, a2, a3⟩ := h4 k hk
    rw [hget] at a1 a2 a3
    rw [hrlen]
    refine ⟨getD_of_getElem? a1, fun c hc => ?_, fun c hc => ?_⟩
    · exact getD_of_getElem? (a2 c hc)
    · exact getD_of_getElem? (a3 c hc)
  refine ⟨s, h1, by rw [h2, hidx], ?_, ?_, ?_⟩
  · rw [h2, hidx]
    exact hX.sublist (List.filter_sublist X)
  · intro k hk
    rw [hrlen] at hk
    have hmem : (JoinWalker X Y ⟨false, false⟩).get ⟨k, hk⟩ ∈ JoinWalker X Y ⟨false, false⟩ :=
      List.get_mem _ _ _
    have hw := hwf _ hmem
    generalize hrw : (JoinWalker X Y ⟨false, false⟩).get ⟨k, hk⟩ = row at hw
    obtain ⟨kind, lp, rp⟩ := row
    cases kind
    · exact absurd hw.1 (by simp)
    · exact absurd hw.1 (by simp)
    · obtain ⟨i, j, hl, hr, hi, hj, he⟩ := hw
      simp only at hl hr
      subst hl hr
      exact ⟨i, j, hi, hj, he, hrow k hk i j hrw⟩
  · intro i j hi hj he
    have hmem := hcomp i j (Nat.zero_le _) (Nat.zero_le _) hi hj he
    obtain ⟨⟨k, hk⟩, hget⟩ := List.mem_iff_get.mp hmem
    exact ⟨k, by rw [hrlen]; exact hk, hrow k hk i j hget⟩

/-- An instance of C1: the inner join of the indices `[1, 2, 3]` and
`[2, 3, 4]` has the two rows of the index values `2` and `3`. -/
theorem inner_join_rows_witness :
    set_result_of RInt .INTSXP = .ok (set_result_int RInt) ∧
    List.Pairwise (· < ·) ([1, 2, 3] : List Int) ∧
    List.Pairwise (· < ·) ([2, 3, 4] : List Int) ∧
    merge_index_length ({ r := [], x := [1, 2, 3], y := [2, 3, 4] } : xts_indices Int)
      compare_indexes_int 3 3 false false = .ok 2 :=
  ⟨rfl, by decide, by decide,
    (inner_join_rows RInt .INTSXP (set_result_int RInt) rfl [1, 2, 3] [2, 3, 4] (by decide)
      (by decide) [10, 20, 30] [200, 300, 400] [-1] 1 1).1⟩

/-- C2. Full outer join (both flags true) of strictly ascending indices `X`
and `Y`: `merge_index_length` returns `|X| + |Y| - m`, where `m` is the number
of the values common to both; the fill loop ends with a merged index that is
strictly ascending and holds exactly the values of `X` and of `Y`, that is
the sorted union of the two indices without duplicates. -/
theorem full_outer_join_index {β : Type} (R : RApi β) (t : SEXPTYPE)
    (set_result : List β → List β → Nat → Nat → List β)
    (ht : set_result_of R t = .ok set_result)
    (X Y : List Int) (hX : X.Pairwise (· < ·)) (hY : Y.Pairwise (· < ·))
    (dx dy df : List β) (ncx ncy : Nat) :
    merge_index_length { r := [], x := X, y := Y } compare_indexes_int X.length Y.length
        true true
      = .ok (X.length + Y.length - (X.filter (fun v => decide (v ∈ Y))).length) ∧
    ∃ s, merge_loop
        (merge_env_int set_result dx dy df X.length ncx Y.length ncy true true
          (X.length + Y.length - (X.filter (fun v => decide (v ∈ Y))).length))
        (X.length + Y.length)
        (merge_init R X Y ncx ncy
          (X.length + Y.length - (X.filter (fun v => decide (v ∈ Y))).length)) = .ok s ∧
      s.idx.r.Pairwise (· < ·) ∧
      (∀ v, v ∈ s.idx.r ↔ (v ∈ X ∨ v ∈ Y)) ∧
      s.idx.r = Finset.sort (· ≤ ·) (X.toFinset ∪ Y.toFinset) := by
  have hmem : ∀ v, v ∈ rows_index X Y (JoinWalker X Y ⟨true, true⟩) ↔ (v ∈ X ∨ v ∈ Y) := by
    have := walk_outer_join_mem X Y (X.length + Y.length) 0 0 (by simp)
    simpa [JoinWalker] using this
  have hsorted : (rows_index X Y (JoinWalker X Y ⟨true, true⟩)).Pairwise (· < ·) :=
    (walk_sorted X Y ⟨true, true⟩ hX hY (X.length + Y.length) 0 0 (by simp)).1
  have hlen : (JoinWalker X Y ⟨true, true⟩).length =
      X.length + Y.length - (X.filter (fun v => decide (v ∈ Y))).length := by
    have := walk_outer_join_length X Y hX hY (X.length + Y.length) 0 0 (by simp)
    simp only [List.drop_zero, Nat.sub_zero] at this
    rw [JoinWalker]
    omega
  refine ⟨by rw [merge_index_length_walk, hlen], ?_⟩
  obtain ⟨s, h1, h2, _⟩ := merge_loop_rows R set_result (set_result_of_spec R t set_result ht)
    X Y dx dy df ncx ncy true true
  rw [hlen] at h1
  refine ⟨s, h1, by rw [h2]; exact hsorted, by rw [h2]; exact hmem, ?_⟩
  rw [h2]
  have hnodup : (rows_index X Y (JoinWalker X Y ⟨true, true⟩)).Nodup :=
    hsorted.imp (fun h => ne_of_lt h)
  have hle : (rows_index X Y (JoinWalker X Y ⟨true, true⟩)).Sorted (· ≤ ·) :=
    hsorted.imp (fun h => le_of_lt h)
  have hfin : (rows_index X Y (JoinWalker X Y ⟨true, true⟩)).toFinset
      = X.toFinset ∪ Y.toFinset := by
    ext v
    simp only [List.mem_toFinset, Finset.mem_union]
    exact hmem v
  rw [← hfin]
  exact ((List.toFinset_sort (· ≤ ·) hnodup).mpr hle).symm

/-- An instance of C2: the full outer join of the indices `[1, 2, 3]` and
`[2, 3, 4]` has `3 + 3 - 2` rows. -/
theorem full_outer_join_index_witness :
    set_result_of RInt .INTSXP = .ok (set_result_int RInt) ∧
    List.Pairwise (· < ·) ([1, 2, 3] : List Int) ∧
    List.Pairwise (· < ·) ([2, 3, 4] : List Int) ∧
    merge_index_length ({ r := [], x := [1, 2, 3], y := [2, 3, 4] } : xts_indices Int)
      compare_indexes_int 3 3 true true = .ok 4 :=
  ⟨rfl, by decide, by decide,
    (full_outer_join_index RInt .INTSXP (set_result_int RInt) rfl [1, 2, 3] [2, 3, 4]
      (by decide) (by decide) [10, 20, 30] [200, 300, 400] [-1] 1 1).1⟩

/-- C3. Left join (`left_join` true, `right_join` false): for every left index
`X` and every right index `Y`, whatever they hold, `merge_index_length`
returns the length of `X`, and the fill loop of `do_merge_xts` ends with a
merged index that is `X` itself. -/
theorem left_join_index_is_left_index {β : Type} (R : RApi β) (t : SEXPTYPE)
    (set_result : List β → List β → Nat → Nat → List β)
    (ht : set_result_of R t = .ok set_result)
    (X Y : List Int) (dx dy df : List β) (ncx ncy : Nat) :
    merge_index_length { r := [], x := X, y := Y } compare_indexes_int X.length Y.length
        true false = .ok X.length ∧
    ∃ s, merge_loop
        (merge_env_int set_result dx dy df X.length ncx Y.length ncy true false X.length)
        (X.length + Y.length) (merge_init R X Y ncx ncy X.length) = .ok s ∧
      s.idx.r = X := by
  have hidx : rows_index X Y (JoinWalker X Y ⟨true, false⟩) = X := by
    have := walk_left_join X Y (X.length + Y.length) 0 0 (by simp)
    simpa [JoinWalker] using this
  have hlen : (JoinWalker X Y ⟨true, false⟩).length = X.length := by
    have := congrArg List.length hidx
    simpa [rows_index] using this
  refine ⟨by rw [merge_index_length_walk, hlen], ?_⟩
  obtain ⟨s, h1, h2, _⟩ := merge_loop_rows R set_result (set_result_of_spec R t set_result ht)
    X Y dx dy df ncx ncy true false
  rw [hlen] at h1
  exact ⟨s, h1, by rw [h2, hidx]⟩

/-- An instance of C3: the left index `[1, 2, 3]` is the merged index of the
left join with the right index `[2, 3, 4]`. -/
theorem left_join_index_is_left_index_witness :
    set_result_of RInt .INTSXP = .ok (set_result_int RInt) ∧
    (merge_index_length ({ r := [], x := [1, 2, 3], y := [2, 3, 4] } : xts_indices Int)
        compare_indexes_int 3 3 true false = .ok 3 ∧
    ∃ s, merge_loop
        (merge_env_int (set_result_int RInt) [10, 20, 30] [200, 300, 400] [-1]
          3 1 3 1 true false 3)
        (3 + 3)
        (merge_init RInt [1, 2, 3] [2, 3, 4] 1 1 3) = .ok s ∧
      s.idx.r = [1, 2, 3]) :=
  ⟨rfl, left_join_index_is_left_index RInt .INTSXP (set_result_int RInt) rfl [1, 2, 3] [2, 3, 4]
    [10, 20, 30] [200, 300, 400] [-1] 1 1⟩

/-- C6. A merge of two objects `x` and `y` whose computed length `n` is not
zero returns a result whose index has `n` values and whose cells are
`ncx + ncy` columns of `n` cells each, stored column after column: for the
`k`-th row of the traversal the cell `(k, c)` of a column `c < ncx` is stored
at `k + c * n` and holds the value of column `c` of `x` for that row, and the
cell of column `c < ncy` of `y` is stored in column `c + ncx`, at
`k + (c + ncx) * n`. Here `o` holds the numbers of rows and columns that
`do_merge_xts` uses, `cx` and `cy` are the operands after the coercion and
`f` is the fill vector. -/
theorem result_columns_layout {β : Type} (R : RApi β) (x y : SEXP β) (all : Bool × Bool)
    (fill : SEXP β) (retside : Bool × Bool) (coerce : Bool)
    (o : merge_operands β) (cx cy f : SEXP β)
    (set_result : List β → List β → Nat → Nat → List β) (n : Nat)
    (ho : zero_width_operands R x y retside = o)
    (hcx : coerce_operand R coerce o.x o.y o.x = cx)
    (hcy : coerce_operand R coerce o.x o.y o.y = cy)
    (hf : ensure_fill R fill cx.type = f)
    (hnrx : o.nrx = x.index.length) (hnry : o.nry = y.index.length)
    (hchk : check_index_int x.index y.index o.nrx o.nry = .ok ())
    (hn : merge_index_length { r := [], x := x.index, y := y.index } compare_indexes_int
      o.nrx o.nry all.1 all.2 = .ok n)
    (hn0 : n ≠ 0)
    (hset : set_result_of R cx.type = .ok set_result) :
    ∃ r, do_merge_xts R (some x) (some y) all fill retside coerce = .ok (some r) ∧
      r.type = cx.type ∧
      r.index.length = n ∧
      r.data.length = (o.ncx + o.ncy) * n ∧
      r.dim = result_dim retside cx cy n o.ncx o.ncy ∧
      ∀ k, k < n → ∃ row, (JoinWalker x.index y.index ⟨all.1, all.2⟩)[k]? = some row ∧
        r.index.getD k 0 = row.index x.index y.index ∧
        (∀ c, c < o.ncx → r.data.getD (k + c * n) R.uninit = row.left_cell R cx.data f.data o.nrx c) ∧
        (∀ c, c < o.ncy →
          r.data.getD (k + (c + o.ncx) * n) R.uninit = row.right_cell R cy.data f.data o.nry c) := by
  subst ho hcx hcy hf
  rw [hnrx, hnry, merge_index_length_walk] at hn
  have hlen : (JoinWalker x.index y.index ⟨all.1, all.2⟩).length = n := by
    injection hn
  have hrows : JoinWalker x.index y.index ⟨all.1, all.2⟩ ≠ [] := by
    intro h; rw [h] at hlen; exact hn0 hlen.symm
  rw [hnrx, hnry] at hchk
  obtain ⟨r, h1, h2, h3, h4, h5, h6⟩ := do_merge_xts_rows R x y all fill retside coerce
    set_result hnrx hnry hchk hrows hset
  refine ⟨r, h1, h2, ?_, ?_, ?_, ?_⟩
  · rw [h3, ← hlen]; simp [rows_index]
  · rw [h5, hlen]
  · rw [h4, hlen]
  · intro k hk
    have hk' : k < (JoinWalker x.index y.index ⟨all.1, all.2⟩).length := by omega
    obtain ⟨a1, a2, a3⟩ := h6 k hk'
    refine ⟨(JoinWalker x.index y.index ⟨all.1, all.2⟩).get ⟨k, hk'⟩, ?_, ?_, ?_, ?_⟩
    · simp [List.getElem?_eq_getElem hk']
    · exact getD_of_getElem? a1
    · intro c hc
      rw [← hlen, hnrx]
      exact getD_of_getElem? (a2 c hc)
    · intro c hc
      rw [← hlen, hnry]
      exact getD_of_getElem? (a3 c hc)

/-- An instance of C6: the full outer join of the concrete scenario has two
columns of four cells. -/
theorem result_columns_layout_witness :
    zero_width_operands RInt scenario_left scenario_right (true, true)
      = { nrx := 3, ncx := 1, nry := 3, ncy := 1, x := scenario_left, y := scenario_right } ∧
    check_index_int scenario_left.index scenario_right.index 3 3 = .ok () ∧
    merge_index_length
      ({ r := [], x := scenario_left.index, y := scenario_right.index } : xts_indices Int)
      compare_indexes_int 3 3 true true = .ok 4 ∧
    (4 : Nat) ≠ 0 ∧
    set_result_of RInt scenario_left.type = .ok (set_result_int RInt) ∧
    ∃ r, do_merge_xts RInt (some scenario_left) (some scenario_right) (true, true)
        scenario_fill (true, true) false = .ok (some r) ∧
      r.index.length = 4 ∧ r.data.length = (1 + 1) * 4 :=
  ⟨rfl, rfl, rfl, by decide, rfl,
    (result_columns_layout RInt scenario_left scenario_right (true, true) scenario_fill
      (true, true) false
      { nrx := 3, ncx := 1, nry := 3, ncy := 1, x := scenario_left, y := scenario_right }
      scenario_left scenario_right scenario_fill (set_result_int RInt) 4
      rfl rfl rfl rfl rfl rfl rfl rfl (by decide) rfl).elim
      (fun r h => ⟨r, h.1, h.2.2.1, h.2.2.2.1⟩)⟩

/-- C7. For every pair of indices and every combination of the two flags the
count pass returns the number of rows that the complete traversal of the
walker emits, and the fill loop, run for that many rows, stores exactly the
rows of the complete traversal, in their order: the index values and the
cells that the specification gives for each row. What is left of the
traversal at the cursors where the fill loop stops emits no row. -/
theorem count_and_fill_follow_walker {β : Type} (R : RApi β) (t : SEXPTYPE)
    (set_result : List β → List β → Nat → Nat → List β)
    (ht : set_result_of R t = .ok set_result)
    (X Y : List Int) (dx dy df : List β) (ncx ncy : Nat) (left_join right_join : Bool) :
    merge_index_length { r := [], x := X, y := Y } compare_indexes_int X.length Y.length
        left_join right_join = .ok (JoinWalker X Y ⟨left_join, right_join⟩).length ∧
    ∃ s, merge_loop
        (merge_env_int set_result dx dy df X.length ncx Y.length ncy left_join right_join
          (JoinWalker X Y ⟨left_join, right_join⟩).length)
        (X.length + Y.length)
        (merge_init R X Y ncx ncy (JoinWalker X Y ⟨left_join, right_join⟩).length) = .ok s ∧
      s.idx.r = (JoinWalker X Y ⟨left_join, right_join⟩).map (JoinRow.index X Y) ∧
      s.result.length = (ncx + ncy) * (JoinWalker X Y ⟨left_join, right_join⟩).length ∧
      (∀ k (hk : k < (JoinWalker X Y ⟨left_join, right_join⟩).length) c,
        (c < ncx → cell R s.result (JoinWalker X Y ⟨left_join, right_join⟩).length k c =
          ((JoinWalker X Y ⟨left_join, right_join⟩).get ⟨k, hk⟩).left_cell R dx df X.length c) ∧
        (c < ncy →
          cell R s.result (JoinWalker X Y ⟨left_join, right_join⟩).length k (c + ncx) =
          ((JoinWalker X Y ⟨left_join, right_join⟩).get ⟨k, hk⟩).right_cell R dy df
            Y.length c)) ∧
      JoinWalker.walk X Y ⟨left_join, right_join⟩ (X.length + Y.length) (s.xp - 1) (s.yp - 1)
        = [] := by
  refine ⟨merge_index_length_walk [] X Y left_join right_join, ?_⟩
  obtain ⟨s, h1, h2, h3, h4, h5⟩ := merge_loop_rows R set_result
    (set_result_of_spec R t set_result ht) X Y dx dy df ncx ncy left_join right_join
  refine ⟨s, h1, h2, h3, ?_, h5⟩
  intro k hk c
  obtain ⟨_, a2, a3⟩ := h4 k hk
  exact ⟨fun hc => getD_of_getElem? (a2 c hc), fun hc => getD_of_getElem? (a3 c hc)⟩

/-- An instance of C7: the left join of the concrete scenario. -/
theorem count_and_fill_follow_walker_witness :
    set_result_of RInt .INTSXP = .ok (set_result_int RInt) ∧
    merge_index_length ({ r := [], x := [1, 2, 3], y := [2, 3, 4] } : xts_indices Int)
      compare_indexes_int 3 3 true false = .ok 3 :=
  ⟨rfl,
    (count_and_fill_follow_walker RInt .INTSXP (set_result_int RInt) rfl [1, 2, 3] [2, 3, 4]
      [10, 20, 30] [200, 300, 400] [-1] 1 1 true false).1⟩

/-- C9, as amended. For three tables `a`, `b`, `c` of one supported data
kind, with strictly ascending integer indices that are not empty and hold no
`NA`, for the inner, the left and the full outer join (`all.2` true only with
`all.1` true), and when the index merged from the three is not empty: the
pairwise merge `do_merge_xts (do_merge_xts a b) c`, returning both sides,
succeeds; when the kind is logical, integer or double, `mergeXts` of the
three objects succeeds and gives the same index, the same cells, the same
type and, when there is a column, the same dimensions; when the kind is
complex or character, `mergeXts` of the three objects stops with the error
of an unsupported data type. -/
theorem mergeXts_three_eq_pairwise {β : Type} (R : RApi β) (t : SEXPTYPE)
    (hkind : t = .LGLSXP ∨ t = .INTSXP ∨ t = .REALSXP ∨ t = .CPLXSXP ∨ t = .STRSXP)
    (a b c : SEXP β) (ha : Table a) (hb : Table b) (hc : Table c)
    (hta : a.type = t) (htb : b.type = t) (htc : c.type = t)
    (hsa : a.index.Pairwise (· < ·)) (hsb : b.index.Pairwise (· < ·))
    (hsc : c.index.Pairwise (· < ·))
    (hNAa : NA_INTEGER ∉ a.index) (hNAb : NA_INTEGER ∉ b.index) (hNAc : NA_INTEGER ∉ c.index)
    (hna : a.index ≠ []) (hnb : b.index ≠ []) (hnc : c.index ≠ [])
    (all : Bool × Bool) (hall : all.2 = true → all.1 = true) (fill : SEXP β)
    (hne : merged_index (merged_index a.index b.index all) c.index all ≠ []) :
    ∃ ab p, do_merge_xts R (some a) (some b) all fill (true, true) false = .ok (some ab) ∧
      do_merge_xts R (some ab) (some c) all fill (true, true) false = .ok (some p) ∧
      ((t = .LGLSXP ∨ t = .INTSXP ∨ t = .REALSXP) →
        ∃ r, mergeXts R all fill (true, true) [some a, some b, some c] = .ok (some r) ∧
          r.index = p.index ∧ r.data = p.data ∧ r.type = p.type ∧
          (0 < ncols a + ncols b + ncols c → r.dim = p.dim)) ∧
      ((t = .CPLXSXP ∨ t = .STRSXP) →
        mergeXts R all fill (true, true) [some a, some b, some c] =
          .error .unsupported_type) := by
  obtain ⟨sr, hsup⟩ := set_result_of_five R hkind
  obtain ⟨ab, p, hab, hp, hpt, hpi, hpd, hpl, hpa, hpb, hpc⟩ := pairwise_three_tables R t sr
    hsup a b c ha hb hc hta htb htc hsa hsb hsc hNAa hNAb hNAc hna hnb hnc all hall fill hne
  refine ⟨ab, p, hab, hp, ?_, ?_⟩
  · intro hk3
    obtain ⟨r, hr, hrt, hri, hrd, hrl, hra, hrb, hrc⟩ := mergeXts_three_tables R t hk3 a b c
      ha hb hc hta htb htc hsa hsb hsc hNAa hNAb hNAc hna hnb hnc all hall fill hne
    have hidx : r.index = p.index := by rw [hri, hpi]
    have hn0 : r.index.length ≠ 0 := by
      intro h
      exact hne (by rw [← hri]; exact List.eq_nil_of_length_eq_zero h)
    refine ⟨r, hr, hidx, ?_, by rw [hrt, hpt], ?_⟩
    · refine data_ext r.data p.data r.index.length (ncols a + ncols b + ncols c) hn0 hrl
        (by rw [hpl, hidx]) ?_
      intro k j hk hj
      by_cases h1 : j < ncols a
      · rw [hra k j hk h1]
        have := hpa k j (by rw [← hidx]; exact hk) h1
        rw [← hidx] at this
        rw [this]
      · by_cases h2 : j < ncols a + ncols b
        · obtain ⟨j', rfl⟩ : ∃ j', j = j' + ncols a := ⟨j - ncols a, by omega⟩
          rw [hrb k j' hk (by omega)]
          have := hpb k j' (by rw [← hidx]; exact hk) (by omega)
          rw [← hidx] at this
          rw [this]
        · obtain ⟨j', rfl⟩ : ∃ j', j = j' + (ncols a + ncols b) :=
            ⟨j - (ncols a + ncols b), by omega⟩
          rw [hrc k j' hk (by omega)]
          have := hpc k j' (by rw [← hidx]; exact hk) (by omega)
          rw [← hidx] at this
          rw [this]
    · intro hpos
      rw [hrd, hpd, if_pos hpos, hidx]
  · intro hk2
    exact mergeXts_three_tables_unsupported R t hk2 a b c ha hb hc hta htb htc hsa hsb hsc
      hNAa hNAb hNAc hna hnb hnc all hall fill hne

/-- Two instances of C9 as amended: the full outer join of the three integer
tables of the examples, and the left join of three tables of complex
cells. -/
theorem mergeXts_three_eq_pairwise_witness :
    (∃ r ab p, mergeXts RInt (true, true) scenario_fill (true, true)
        [some scenario_left, some scenario_right, some scenario_third] = .ok (some r) ∧
      do_merge_xts RInt (some scenario_left) (some scenario_right) (true, true) scenario_fill
        (true, true) false = .ok (some ab) ∧
      do_merge_xts RInt (some ab) (some scenario_third) (true, true) scenario_fill
        (true, true) false = .ok (some p) ∧
      r.index = p.index ∧ r.data = p.data ∧ r.type = p.type ∧ r.dim = p.dim) ∧
    mergeXts RInt (true, false) { scenario_fill with type := .CPLXSXP } (true, true)
      [some { scenario_left with type := .CPLXSXP },
       some { scenario_right with type := .CPLXSXP },
       some { scenario_third with type := .CPLXSXP }] = .error .unsupported_type := by
  constructor
  · obtain ⟨ab, p, h1, h2, h3, -⟩ := mergeXts_three_eq_pairwise RInt .INTSXP
      (Or.inr (Or.inl rfl)) scenario_left scenario_right scenario_third ⟨rfl, rfl⟩ ⟨rfl, rfl⟩
      ⟨rfl, rfl⟩ rfl rfl rfl (by decide) (by decide) (by decide) (by decide) (by decide)
      (by decide) (by decide) (by decide) (by decide) (true, true) (fun _ => rfl)
      scenario_fill (by decide)
    obtain ⟨r, g1, g2, g3, g4, g5⟩ := h3 (Or.inr (Or.inl rfl))
    exact ⟨r, ab, p, g1, h1, h2, g2, g3, g4, g5 (by decide)⟩
  · obtain ⟨ab, p, -, -, -, h4⟩ := mergeXts_three_eq_pairwise RInt .CPLXSXP
      (Or.inr (Or.inr (Or.inr (Or.inl rfl)))) { scenario_left with type := .CPLXSXP }
      { scenario_right with type := .CPLXSXP } { scenario_third with type := .CPLXSXP }
      ⟨rfl, rfl⟩ ⟨rfl, rfl⟩ ⟨rfl, rfl⟩ rfl rfl rfl (by decide) (by decide) (by decide)
      (by decide) (by decide) (by decide) (by decide) (by decide) (by decide) (true, false)
      (fun h => by cases h) { scenario_fill with type := .CPLXSXP } (by decide)
    exact h4 (Or.inl rfl)

/-- C9 as stated fails in two ways. Three tables of character cells, full
outer join: `mergeXts` stops with the error for an unsupported data type,
while the pairwise merges return a table of five rows and three columns.
Three integer tables, right join: `mergeXts` returns the columns of the
first two tables as they are, under the index of the third table, while the
pairwise merges look the rows up by their index values. -/
theorem mergeXts_three_ne_pairwise :
    (mergeXts RInt (true, true) { scenario_fill with type := .STRSXP } (true, true)
        [some { scenario_left with type := .STRSXP },
         some { scenario_right with type := .STRSXP },
         some { scenario_third with type := .STRSXP }] = .error .unsupported_type ∧
      do_merge_xts RInt (some { scenario_left with type := .STRSXP })
        (some { scenario_right with type := .STRSXP }) (true, true)
        { scenario_fill with type := .STRSXP } (true, true) false =
        .ok (some { type := .STRSXP, data := [10, 20, 30, -1, -1, 200, 300, 400],
                    dim := some (4, 2), index := [1, 2, 3, 4] }) ∧
      do_merge_xts RInt
        (some { type := .STRSXP, data := [10, 20, 30, -1, -1, 200, 300, 400],
                dim := some (4, 2), index := [1, 2, 3, 4] })
        (some { scenario_third with type := .STRSXP }) (true, true)
        { scenario_fill with type := .STRSXP } (true, true) false =
        .ok (some { type := .STRSXP,
                    data := [10, 20, 30, -1, -1, -1, 200, 300, 400, -1, -1, -1, 3000, 4000, 5000],
                    dim := some (5, 3), index := [1, 2, 3, 4, 5] })) ∧
    (mergeXts RInt (false, true) scenario_fill (true, true)
        [some scenario_left, some scenario_right, some scenario_third] =
        .ok (some { type := .INTSXP,
                    data := [10, 20, 30, 200, 300, 400, 3000, 4000, 5000],
                    dim := some (3, 3), index := [3, 4, 5] }) ∧
      do_merge_xts RInt (some scenario_left) (some scenario_right) (false, true) scenario_fill
        (true, true) false =
        .ok (some { type := .INTSXP, data := [20, 30, -1, 200, 300, 400], dim := some (3, 2),
                    index := [2, 3, 4] }) ∧
      do_merge_xts RInt
        (some { type := .INTSXP, data := [20, 30, -1, 200, 300, 400], dim := some (3, 2),
                index := [2, 3, 4] })
        (some scenario_third) (false, true) scenario_fill (true, true) false =
        .ok (some { type := .INTSXP,
                    data := [30, -1, -1, 300, 400, -1, 3000, 4000, 5000],
                    dim := some (3, 3), index := [3, 4, 5] })) := by
  refine ⟨⟨?_, ?_, ?_⟩, ?_, ?_, ?_⟩ <;> rfl

/-- C10 fails for the right join. With the three integer tables of the
examples and the flags `(false, true)`, the common index built by
`mergeXts_index` is the index `[3, 4, 5]` of the last table, but the merge
of that skeleton with the first table under the same flags has the index
`[1, 2, 3]` of the first table, not the index of the skeleton; `mergeXts`
stores these columns under the index `[3, 4, 5]`, so that the row of index
value `3` holds `10` and `200`, the cells of the index values `1` and `2`.
With a last table of one row the skeleton has one row and the merge of the
skeleton with the first table has three rows. -/
theorem mergeXts_right_join_projection :
    mergeXts_index RInt (false, true) scenario_fill false (some scenario_left)
        [some scenario_right, some scenario_third] =
      .ok (some { type := .INTSXP, data := [], dim := some (3, 0), index := [3, 4, 5] }) ∧
    do_merge_xts RInt
        (some { type := .INTSXP, data := [], dim := some (3, 0), index := [3, 4, 5] })
        (some scenario_left) (false, true) scenario_fill (true, true) false =
      .ok (some { type := .INTSXP, data := [10, 20, 30], dim := some (3, 1),
                  index := [1, 2, 3] }) ∧
    mergeXts RInt (false, true) scenario_fill (true, true)
        [some scenario_left, some scenario_right, some scenario_third] =
      .ok (some { type := .INTSXP, data := [10, 20, 30, 200, 300, 400, 3000, 4000, 5000],
                  dim := some (3, 3), index := [3, 4, 5] }) ∧
    mergeXts_index RInt (false, true) scenario_fill false (some scenario_left)
        [some scenario_right, some scenario_last] =
      .ok (some { type := .INTSXP, data := [], dim := some (1, 0), index := [5] }) ∧
    do_merge_xts RInt
        (some { type := .INTSXP, data := [], dim := some (1, 0), index := [5] })
        (some scenario_left) (false, true) scenario_fill (true, true) false =
      .ok (some { type := .INTSXP, data := [10, 20, 30], dim := some (3, 1),
                  index := [1, 2, 3] }) := by
  refine ⟨?_, ?_, ?_, ?_, ?_⟩ <;> rfl

/-- C11, as amended. For every table `t` of a supported cell type whose index
is not empty and holds no `NA` (ascending or not), the inner join of `t`
with itself without forced coercion succeeds. With both sides returned the
result has the index and the type of `t` and holds the columns of `t`
followed by the columns of `t` once more, `ncols t + ncols t` columns in
all; with the left side alone returned the result is `t` itself. -/
theorem self_inner_join_columns {β : Type} (R : RApi β) (t : SEXP β) (ht : Table t)
    (set_result : List β → List β → Nat → Nat → List β)
    (hsup : set_result_of R t.type = .ok set_result)
    (hNA : NA_INTEGER ∉ t.index) (hn : t.index ≠ []) (fill : SEXP β) :
    (∃ r, do_merge_xts R (some t) (some t) (false, false) fill (true, true) false
        = .ok (some r) ∧
      r.index = t.index ∧ r.type = t.type ∧ r.data = t.data ++ t.data ∧
      r.dim = some (t.index.length, ncols t + ncols t)) ∧
    do_merge_xts R (some t) (some t) (false, false) fill (true, false) false = .ok (some t) := by
  have hl0 : t.index.length ≠ 0 := fun h => hn (List.eq_nil_of_length_eq_zero h)
  have hdl : t.data.length = t.index.length * ncols t := by rw [ht.2, ht.1]
  constructor
  · obtain ⟨r, h1, h2, h3, h4, h5, h6, h7⟩ := do_merge_xts_self R t ht set_result hsup hNA hn
      (false, false) fill true true
    simp only [if_true] at h4 h5 h6 h7
    refine ⟨r, h1, h3, h2, ?_, ?_⟩
    · symm
      refine data_ext (t.data ++ t.data) r.data t.index.length (ncols t + ncols t) hl0
        (by rw [List.length_append, hdl, Nat.mul_add]) h5 ?_
      intro k j hk hj
      by_cases hj1 : j < ncols t
      · rw [h6 k j hk hj1]
        have hb : k + j * t.index.length < t.data.length := by
          rw [hdl, Nat.mul_comm t.index.length (ncols t)]; exact slot_lt hk hj1
        rw [List.getElem?_append_left hb]
      · obtain ⟨c, rfl⟩ : ∃ c, j = c + ncols t := ⟨j - ncols t, by omega⟩
        rw [h7 k c hk (by omega)]
        have hb : t.data.length ≤ k + (c + ncols t) * t.index.length := by
          rw [hdl, Nat.add_mul, Nat.mul_comm t.index.length (ncols t)]; omega
        rw [List.getElem?_append_right hb]
        congr 1
        rw [hdl, Nat.add_mul, Nat.mul_comm t.index.length (ncols t)]; omega
    · rw [h4]
      simp [result_dim]
  · obtain ⟨r, h1, h2, h3, h4, h5, h6, -⟩ := do_merge_xts_self R t ht set_result hsup hNA hn
      (false, false) fill true false
    simp only [if_true, Bool.false_eq_true, if_false, Nat.add_zero] at h4 h5 h6
    rw [h1]
    have hdata : r.data = t.data := by
      symm
      exact data_ext t.data r.data t.index.length (ncols t) hl0 hdl h5
        (fun k j hk hj => (h6 k j hk hj).symm)
    have hdim : r.dim = t.dim := by
      rw [h4]
      have h1' := ht.1
      unfold nrows at h1'
      unfold ncols
      unfold result_dim
      cases hd : t.dim with
      | none => simp
      | some d =>
        rw [hd] at h1'
        simp only [Bool.not_false, Bool.and_true, Option.isNone_some, Bool.and_false,
          Bool.false_eq_true, if_false, Bool.not_true]
        simp [h1']
    cases r
    cases t
    simp_all

/-- An instance of C11 as amended: the left table of the concrete scenario
merged with itself. -/
theorem self_inner_join_columns_witness :
    NA_INTEGER ∉ scenario_left.index ∧
    (∃ r, do_merge_xts RInt (some scenario_left) (some scenario_left) (false, false)
        scenario_fill (true, true) false = .ok (some r) ∧
      r.index = scenario_left.index ∧ r.type = scenario_left.type ∧
      r.data = scenario_left.data ++ scenario_left.data ∧
      r.dim = some (scenario_left.index.length, ncols scenario_left + ncols scenario_left)) ∧
    do_merge_xts RInt (some scenario_left) (some scenario_left) (false, false) scenario_fill
      (true, false) false = .ok (some scenario_left) :=
  ⟨by decide,
    self_inner_join_columns RInt scenario_left ⟨rfl, rfl⟩ (set_result_int RInt) rfl (by decide)
      (by decide) scenario_fill⟩

/-- C11 as stated fails: the inner join of the left table of the concrete
scenario with itself has two columns, the column `[10, 20, 30]` twice, where
the table has one column. -/
theorem self_inner_join_doubles_columns :
    ∃ r, do_merge_xts RInt (some scenario_left) (some scenario_left) (false, false)
        scenario_fill (true, true) false = .ok (some r) ∧
      r.data = [10, 20, 30, 10, 20, 30] ∧ r.dim = some (3, 2) ∧ r.index = [1, 2, 3] ∧
      ncols r = 2 ∧ ncols scenario_left = 1 ∧ r ≠ scenario_left :=
  ⟨_, rfl, rfl, rfl, rfl, rfl, rfl, by decide⟩

/-- C12. A merge whose right operand has no cells and an index of length zero
never returns a result in the embedding: either the check of the index
stops at a missing last value of the left index, or it reads the position
`nry - 1` with `nry = 0` of the right index, which is outside of the vector.
The check of a double index likewise reads outside of an empty right index
unless it stops at the left index. The count pass on its own, run on a left
index `X` and an empty right index, returns `X.length` for the left join and
`0` for the right join. -/
theorem zero_row_operand_reads_outside {β : Type} (R : RApi β) (t : SEXP β) (ty : SEXPTYPE)
    (d : Option (Nat × Nat)) (all : Bool × Bool) (fill : SEXP β) (retside : Bool × Bool)
    (coerce : Bool) (X : List Int) (D : List RDouble) (nrx : Nat) :
    (do_merge_xts R (some t) (some ⟨ty, [], d, []⟩) all fill retside coerce
        = .error .out_of_bounds ∨
      do_merge_xts R (some t) (some ⟨ty, [], d, []⟩) all fill retside coerce
        = .error .invalid_index) ∧
    (check_index_double D [] nrx 0 = .error .out_of_bounds ∨
      check_index_double D [] nrx 0 = .error .invalid_index) ∧
    merge_index_length { r := [], x := X, y := [] } compare_indexes_int X.length 0 true false
      = .ok X.length ∧
    merge_index_length { r := [], x := X, y := [] } compare_indexes_int X.length 0 false true
      = .ok 0 := by
  refine ⟨?_, ?_, ?_, ?_⟩
  · have hnry : (zero_width_operands R t ⟨ty, [], d, []⟩ retside).nry = 0 := by
      simp [zero_width_operands, zero_width, LENGTH]
    unfold do_merge_xts
    simp only [hnry]
    rcases check_index_int_zero_y t.index []
      (zero_width_operands R t ⟨ty, [], d, []⟩ retside).nrx with h | h <;> rw [h] <;> simp
  · exact check_index_double_zero_y D [] nrx
  · have h := merge_index_length_walk [] X [] true false
    have hl := walk_left_join X [] (X.length + 0) 0 0 (by simp)
    have : (JoinWalker X [] ⟨true, false⟩).length = X.length := by
      have := congrArg List.length hl
      simpa [rows_index, JoinWalker] using this
    rw [this] at h
    exact h
  · have h := merge_index_length_walk [] X [] false true
    have hl := walk_right_join X [] (X.length + 0) 0 0 (by simp)
    have : (JoinWalker X [] ⟨false, true⟩).length = 0 := by
      have := congrArg List.length hl
      simpa [rows_index, JoinWalker] using this
    rw [this] at h
    exact h

/-- C13. On the concrete scenario (left index `[1, 2, 3]` with the column
`[10, 20, 30]`, right index `[2, 3, 4]` with the column `[200, 300, 400]`) and
for every fill value `f`, `do_merge_xts` returns: for the inner join the index
`[2, 3]` and the columns `[20, 30]`, `[200, 300]`; for the full outer join the
index `[1, 2, 3, 4]` and the columns `[10, 20, 30, f]`, `[f, 200, 300, 400]`;
for the left join the index `[1, 2, 3]` and the columns `[10, 20, 30]`,
`[f, 200, 300]`; for the right join the index `[2, 3, 4]` and the columns
`[20, 30, f]`, `[200, 300, 400]`. The cells are stored column after column. -/
theorem concrete_scenario (f : Int) :
    do_merge_xts RInt (some scenario_left) (some scenario_right) (false, false)
        { type := .INTSXP, data := [f], dim := none, index := [] } (true, true) false =
      .ok (some { type := .INTSXP, data := [20, 30, 200, 300], dim := some (2, 2),
                  index := [2, 3] }) ∧
    do_merge_xts RInt (some scenario_left) (some scenario_right) (true, true)
        { type := .INTSXP, data := [f], dim := none, index := [] } (true, true) false =
      .ok (some { type := .INTSXP, data := [10, 20, 30, f, f, 200, 300, 400],
                  dim := some (4, 2), index := [1, 2, 3, 4] }) ∧
    do_merge_xts RInt (some scenario_left) (some scenario_right) (true, false)
        { type := .INTSXP, data := [f], dim := none, index := [] } (true, true) false =
      .ok (some { type := .INTSXP, data := [10, 20, 30, f, 200, 300], dim := some (3, 2),
                  index := [1, 2, 3] }) ∧
    do_merge_xts RInt (some scenario_left) (some scenario_right) (false, true)
        { type := .INTSXP, data := [f], dim := none, index := [] } (true, true) false =
      .ok (some { type := .INTSXP, data := [20, 30, f, 200, 300, 400], dim := some (3, 2),
                  index := [2, 3, 4] }) := by
  refine ⟨?_, ?_, ?_, ?_⟩ <;> rfl

/-- C14, as amended. For a double index `do_merge_xts_double` of two tables
with indices that are not empty fails with the error of an invalid index
exactly when the first or the last value of the left or of the right index is
not finite. For an integer index `do_merge_xts` of two tables with indices
that are not empty fails with the error of an invalid index exactly when the
last value of the left or of the right index is `NA_INTEGER`: the first
values are not looked at. In both functions the check comes before the count
pass, and a call that fails returns no result. -/
theorem index_check_boundaries {β : Type} (R : RApi β) (xd yd : SEXP_double β)
    (hxd : Table_double xd) (hyd : Table_double yd)
    (hnxd : xd.index ≠ []) (hnyd : yd.index ≠ [])
    (x y : SEXP β) (hx : Table x) (hy : Table y)
    (hnx : x.index ≠ []) (hny : y.index ≠ []) (all : Bool × Bool) (fill : SEXP β)
    (retside : Bool × Bool) (coerce : Bool) :
    (do_merge_xts_double R (some xd) (some yd) all fill retside coerce =
        .error .invalid_index ↔
      (R_FINITE (xd.index.getD 0 .nan) = false ∨
        R_FINITE (xd.index.getD (xd.index.length - 1) .nan) = false ∨
        R_FINITE (yd.index.getD 0 .nan) = false ∨
        R_FINITE (yd.index.getD (yd.index.length - 1) .nan) = false)) ∧
    (do_merge_xts R (some x) (some y) all fill retside coerce = .error .invalid_index ↔
      (x.index.getD (x.index.length - 1) 0 = NA_INTEGER ∨
        y.index.getD (y.index.length - 1) 0 = NA_INTEGER)) := by
  constructor
  · have hlx : 0 < xd.index.length := List.length_pos.mpr hnxd
    have hly : 0 < yd.index.length := List.length_pos.mpr hnyd
    obtain ⟨hrx, hry⟩ := zero_width_operands_double_rows R xd yd hxd hyd retside
    have hchk := check_index_double_eq xd.index yd.index xd.index.length yd.index.length hlx
      (Nat.le_refl _) hly (Nat.le_refl _)
    constructor
    · intro h
      rcases do_merge_xts_double_error R xd yd all fill retside coerce _ h with h | h | h
      · rw [hrx, hry, hchk] at h
        by_contra hc
        rw [if_neg hc] at h
        cases h
      · cases h
      · cases h
    · intro h
      apply do_merge_xts_double_check
      rw [hrx, hry, hchk, if_pos h]
  · have hlx : 0 < x.index.length := List.length_pos.mpr hnx
    have hly : 0 < y.index.length := List.length_pos.mpr hny
    obtain ⟨hrx, hry⟩ := zero_width_operands_rows R x y hx hy retside
    have hchk := check_index_int_eq x.index y.index x.index.length y.index.length hlx
      (Nat.le_refl _) hly (Nat.le_refl _)
    constructor
    · intro h
      rcases do_merge_xts_error R x y all fill retside coerce _ h with h | h | h
      · rw [hrx, hry, hchk] at h
        by_contra hc
        rw [if_neg hc] at h
        cases h
      · cases h
      · cases h
    · intro h
      unfold do_merge_xts
      simp only [hrx, hry, hchk, if_pos h]

/-- An instance of C14 as amended: the merge of a table with the double index
`[2, Inf]` to the table with the double index `[1, NaN, 3]` fails with the
error of an invalid index, and so does the merge of a table with the integer
index `[2, 3, NA_INTEGER]`. -/
theorem index_check_boundaries_witness :
    do_merge_xts_double RInt (some scenario_left_nan)
      (some { scenario_left_nan with index := [.finite 2, .finite 3, .pos_inf] }) (true, true)
      scenario_fill (true, true) false = .error .invalid_index ∧
    do_merge_xts RInt (some scenario_left)
      (some { scenario_right with index := [2, 3, NA_INTEGER] }) (true, true) scenario_fill
      (true, true) false = .error .invalid_index :=
  ⟨(index_check_boundaries RInt scenario_left_nan
      { scenario_left_nan with index := [.finite 2, .finite 3, .pos_inf] } ⟨rfl, rfl⟩
      ⟨rfl, rfl⟩ (by decide) (by decide) scenario_left
      { scenario_right with index := [2, 3, NA_INTEGER] } ⟨rfl, rfl⟩ ⟨rfl, rfl⟩ (by decide)
      (by decide) (true, true) scenario_fill (true, true) false).1.mpr
      (Or.inr (Or.inr (Or.inr rfl))),
    (index_check_boundaries RInt scenario_left_nan
      { scenario_left_nan with index := [.finite 2, .finite 3, .pos_inf] } ⟨rfl, rfl⟩
      ⟨rfl, rfl⟩ (by decide) (by decide) scenario_left
      { scenario_right with index := [2, 3, NA_INTEGER] } ⟨rfl, rfl⟩ ⟨rfl, rfl⟩ (by decide)
      (by decide) (true, true) scenario_fill (true, true) false).2.mpr (Or.inr rfl)⟩

/-- C14 as stated fails for the integer index: a left index that holds
`NA_INTEGER` at its first position, which is ascending because `NA_INTEGER`
is the least `int`, is merged without an error. -/
theorem integer_index_first_NA_accepted :
    do_merge_xts RInt (some { scenario_left with index := [NA_INTEGER, 1, 2] })
      (some scenario_right) (true, true) scenario_fill (true, true) false =
      .ok (some { type := .INTSXP, data := [10, 20, 30, -1, -1, -1, -1, 200, 300, 400],
                  dim := some (5, 2), index := [NA_INTEGER, 1, 2, 3, 4] }) ∧
    ([NA_INTEGER, 1, 2] : List Int).Pairwise (· < ·) := by
  refine ⟨rfl, by decide⟩

/-- C15, as amended. For two tables of one cell type that is none of logical,
integer, double, complex and character, with integer indices that are not
empty and hold no `NA`, without forced coercion and with a fill value that is
a list only when the tables are lists (so that no cell of a list is
converted): the count pass returns a length `n`; when `n` is zero
`do_merge_xts` returns the empty result of that type without an error, and
otherwise it fails with the error of an unsupported data type. This holds for
every pair of flags and whatever sides are returned. -/
theorem unsupported_type_fails_unless_empty {β : Type} (R : RApi β) (x y : SEXP β)
    (hx : Table x) (hy : Table y) (ht : x.type = y.type)
    (hkind : x.type ≠ .LGLSXP ∧ x.type ≠ .INTSXP ∧ x.type ≠ .REALSXP ∧ x.type ≠ .CPLXSXP ∧
      x.type ≠ .STRSXP)
    (hnx : x.index ≠ []) (hny : y.index ≠ [])
    (hNAx : NA_INTEGER ∉ x.index) (hNAy : NA_INTEGER ∉ y.index)
    (all : Bool × Bool) (fill : SEXP β) (_hfill : fill.type = .VECSXP → x.type = .VECSXP)
    (retside : Bool × Bool) :
    ∃ n, merge_index_length { r := [], x := x.index, y := y.index } compare_indexes_int
        x.index.length y.index.length all.1 all.2 = .ok n ∧
      do_merge_xts R (some x) (some y) all fill retside false =
        if n = 0 then .ok (some { type := x.type, data := [], dim := none, index := [] })
        else .error .unsupported_type := by
  obtain ⟨b1, b2⟩ := retside
  have ho := zero_width_operands_sides R x y hx hy ht hnx hny b1 b2
  have hchk := check_index_int_ok hnx hny hNAx hNAy
  have hcount := merge_index_length_walk [] x.index y.index all.1 all.2
  refine ⟨_, hcount, ?_⟩
  by_cases hn : (JoinWalker x.index y.index ⟨all.1, all.2⟩).length = 0
  · rw [if_pos hn]
    have := do_merge_xts_zero R x y all fill (b1, b2) false (by rw [ho]; exact hchk)
      (by rw [ho]; simp only; rw [hcount, hn])
    rw [this, ho]
  · rw [if_neg hn]
    have hun : set_result_of R x.type = .error .unsupported_type := by
      obtain ⟨k1, k2, k3, k4, k5⟩ := hkind
      cases hty : x.type <;> simp_all [set_result_of]
    unfold do_merge_xts
    simp only [ho, hchk, hcount, if_neg hn]
    have hco : (coerce_operand R false x y x) = x := by
      simp [coerce_operand, ht]
    rw [hco, hun]

/-- An instance of C15 as amended: the left join of the tables of the concrete
scenario, taken as tables of list cells, has a computed length of three and
fails. -/
theorem unsupported_type_fails_unless_empty_witness :
    do_merge_xts RInt (some { scenario_left with type := .VECSXP })
      (some { scenario_right with type := .VECSXP }) (true, false) scenario_fill
      (true, true) false = .error .unsupported_type := by
  obtain ⟨n, h1, h2⟩ := unsupported_type_fails_unless_empty RInt
    { scenario_left with type := .VECSXP } { scenario_right with type := .VECSXP }
    ⟨rfl, rfl⟩ ⟨rfl, rfl⟩ rfl ⟨by decide, by decide, by decide, by decide, by decide⟩
    (by decide) (by decide) (by decide) (by decide) (true, false) scenario_fill
    (fun _ => rfl) (true, true)
  have h4 : merge_index_length
      ({ r := [], x := [1, 2, 3], y := [2, 3, 4] } : xts_indices Int) compare_indexes_int
      3 3 true false = .ok 3 := rfl
  have hn : n = 3 := by
    have := h1.symm.trans h4
    injection this
  subst hn
  exact h2

/-- C15 as stated fails: the inner join of two tables of list cells with the
disjoint indices `[1, 2, 3]` and `[5]` has a computed length of zero and
returns the empty result without an error. -/
theorem unsupported_type_empty_result_accepted :
    merge_index_length ({ r := [], x := [1, 2, 3], y := [5] } : xts_indices Int)
      compare_indexes_int 3 1 false false = .ok 0 ∧
    do_merge_xts RInt (some { scenario_left with type := .VECSXP })
      (some { scenario_last with type := .VECSXP }) (false, false) scenario_fill
      (true, true) false =
      .ok (some { type := .VECSXP, data := [], dim := none, index := [] }) := by
  refine ⟨rfl, rfl⟩

/-- C16. When the left operand of `do_merge_xts` is `NULL` the call returns
the right operand as it is, and when the right operand is `NULL` it returns
the left operand as it is, for every pair of flags, every fill value, every
choice of the returned sides and either value of the coercion flag, and
whatever the index of the other operand holds. -/
theorem null_operand_returns_other {β : Type} (R : RApi β) (x : SEXP β) (y : Option (SEXP β))
    (all : Bool × Bool) (fill : SEXP β) (retside : Bool × Bool) (coerce : Bool) :
    do_merge_xts R none y all fill retside coerce = .ok y ∧
    do_merge_xts R (some x) none all fill retside coerce = .ok (some x) :=
  ⟨rfl, rfl⟩

/-- C17. Whenever the check of the index passes and the count pass returns 0,
`do_merge_xts` returns a result whose index is empty, whose cells are empty
and which has no `dim`; its type is the type of `x` after the test for
zero-width objects. Nothing is asked of the type of the cells, which the
fill pass would need to be a supported one. -/
theorem zero_rows_returns_empty {β : Type} (R : RApi β) (x y : SEXP β) (all : Bool × Bool)
    (fill : SEXP β) (retside : Bool × Bool) (coerce : Bool)
    (hchk : check_index_int x.index y.index (zero_width_operands R x y retside).nrx
      (zero_width_operands R x y retside).nry = .ok ())
    (hcount : merge_index_length { r := [], x := x.index, y := y.index } compare_indexes_int
      (zero_width_operands R x y retside).nrx (zero_width_operands R x y retside).nry
      all.1 all.2 = .ok 0) :
    ∃ r, do_merge_xts R (some x) (some y) all fill retside coerce = .ok (some r) ∧
      r.index = [] ∧ r.data = [] ∧ r.dim = none ∧
      r.type = (zero_width_operands R x y retside).x.type :=
  ⟨_, do_merge_xts_zero R x y all fill retside coerce hchk hcount, rfl, rfl, rfl, rfl⟩

/-- An instance of C17: the inner join of two tables of list cells with the
disjoint indices `[1, 2, 3]` and `[5]`. -/
theorem zero_rows_returns_empty_witness :
    ∃ r, do_merge_xts RInt (some { scenario_left with type := .VECSXP })
        (some { scenario_last with type := .VECSXP }) (false, false) scenario_fill
        (true, true) true = .ok (some r) ∧
      r.index = [] ∧ r.data = [] ∧ r.dim = none ∧
      r.type = (zero_width_operands RInt { scenario_left with type := .VECSXP }
        { scenario_last with type := .VECSXP } (true, true)).x.type :=
  zero_rows_returns_empty RInt { scenario_left with type := .VECSXP }
    { scenario_last with type := .VECSXP } (false, false) scenario_fill (true, true) true
    rfl rfl

/-- C18, as amended. For two tables with indices that are not empty and hold
no `NA`, when the type of the result is a supported one, `do_merge_xts`
returns a result of this type: when the computed length is zero, the type of
`x`, or the type of `y` when `x` is zero-width; otherwise double when the
coercion is forced or when neither object is zero-width and their types
differ, and else the type of `x`, or the type of `y` when `x` is
zero-width. -/
theorem result_type_rule {β : Type} (R : RApi β) (x y : SEXP β) (hx : Table x) (hy : Table y)
    (hnx : x.index ≠ []) (hny : y.index ≠ [])
    (hNAx : NA_INTEGER ∉ x.index) (hNAy : NA_INTEGER ∉ y.index)
    (all : Bool × Bool) (fill : SEXP β) (retside : Bool × Bool) (coerce : Bool)
    (hsup : ∃ set_result, set_result_of R
      (if coerce = true ∨ (zero_width x retside.1 = false ∧ zero_width y retside.2 = false ∧
          x.type ≠ y.type) then .REALSXP
        else if zero_width x retside.1 then y.type else x.type) = .ok set_result) :
    ∃ n r, merge_index_length { r := [], x := x.index, y := y.index } compare_indexes_int
        x.index.length y.index.length all.1 all.2 = .ok n ∧
      do_merge_xts R (some x) (some y) all fill retside coerce = .ok (some r) ∧
      r.type =
        if n = 0 then (if zero_width x retside.1 then y.type else x.type)
        else if coerce = true ∨ (zero_width x retside.1 = false ∧
          zero_width y retside.2 = false ∧ x.type ≠ y.type) then .REALSXP
        else if zero_width x retside.1 then y.type else x.type := by
  obtain ⟨hrx, hry⟩ := zero_width_operands_rows R x y hx hy retside
  obtain ⟨htx, hty⟩ := zero_width_operands_type R x y retside
  have hchk := check_index_int_ok hnx hny hNAx hNAy
  have hcount := merge_index_length_walk [] x.index y.index all.1 all.2
  have hc : ∀ (z : SEXP β) (t : SEXPTYPE), (coerceVector R z t).type = t := by
    intro z t
    unfold coerceVector
    split_ifs with h
    · exact h
    · rfl
  have hcx : (coerce_operand R coerce (zero_width_operands R x y retside).x
      (zero_width_operands R x y retside).y (zero_width_operands R x y retside).x).type =
      if coerce = true ∨ (zero_width x retside.1 = false ∧ zero_width y retside.2 = false ∧
          x.type ≠ y.type) then .REALSXP
        else if zero_width x retside.1 then y.type else x.type := by
    unfold coerce_operand
    rw [htx, hty]
    cases coerce <;> cases h1 : zero_width x retside.1 <;> cases h2 : zero_width y retside.2 <;>
      by_cases h3 : x.type = y.type <;> simp [hc, h3, htx, h1]
  by_cases hn : (JoinWalker x.index y.index ⟨all.1, all.2⟩).length = 0
  · have := do_merge_xts_zero R x y all fill retside coerce (by rw [hrx, hry]; exact hchk)
      (by rw [hrx, hry, hcount, hn])
    refine ⟨_, _, hcount, this, ?_⟩
    rw [if_pos hn]
    exact htx
  · obtain ⟨sr, hsr⟩ := hsup
    have hrows : JoinWalker x.index y.index ⟨all.1, all.2⟩ ≠ [] := by
      intro h
      exact hn (by rw [h]; rfl)
    obtain ⟨r, h1, h2, -⟩ := do_merge_xts_rows R x y all fill retside coerce sr hrx hry hchk
      hrows (by rw [hcx]; exact hsr)
    refine ⟨_, r, hcount, h1, ?_⟩
    rw [if_neg hn, h2, hcx]

/-- An instance of C18 as amended: the full outer join of an integer table and
a double table has a computed length of four and a double result. -/
theorem result_type_rule_witness :
    ∃ r, do_merge_xts RInt (some scenario_left) (some { scenario_right with type := .REALSXP })
        (true, true) scenario_fill (true, true) false = .ok (some r) ∧
      r.type = .REALSXP := by
  obtain ⟨n, r, h1, h2, h3⟩ := result_type_rule RInt scenario_left
    { scenario_right with type := .REALSXP } ⟨rfl, rfl⟩ ⟨rfl, rfl⟩ (by decide) (by decide)
    (by decide) (by decide) (true, true) scenario_fill (true, true) false
    ⟨set_result_dbl RInt, rfl⟩
  have h4 : merge_index_length
      ({ r := [], x := [1, 2, 3], y := [2, 3, 4] } : xts_indices Int) compare_indexes_int
      3 3 true true = .ok 4 := rfl
  have hn : n = 4 := by
    have := h1.symm.trans h4
    injection this
  subst hn
  exact ⟨r, h2, h3⟩

/-- C18 as stated fails: an inner join with a computed length of zero returns
an integer result for an integer and a double table, and also when the
coercion is forced; a zero-width logical object merged with an integer table
gives an integer result. -/
theorem result_type_not_floating :
    do_merge_xts RInt (some scenario_left) (some { scenario_last with type := .REALSXP })
      (false, false) scenario_fill (true, true) false =
      .ok (some { type := .INTSXP, data := [], dim := none, index := [] }) ∧
    do_merge_xts RInt (some scenario_left) (some scenario_last)
      (false, false) scenario_fill (true, true) true =
      .ok (some { type := .INTSXP, data := [], dim := none, index := [] }) ∧
    do_merge_xts RInt
      (some { type := .LGLSXP, data := [], dim := some (3, 0), index := [1, 2, 3] })
      (some scenario_right) (true, true) scenario_fill (true, true) false =
      .ok (some { type := .INTSXP, data := [-1, 200, 300, 400], dim := some (4, 1),
                  index := [1, 2, 3, 4] }) := by
  refine ⟨rfl, rfl, rfl⟩

/-- C19. For every pair of strictly ascending indices, every pair of flags and
every supported cell type, the count pass returns a length `n` and the fill
loop run for `n` rows returns a state whose result index has `n` values and
is strictly ascending. -/
theorem fill_pass_index_ascending {β : Type} (R : RApi β) (t : SEXPTYPE)
    (set_result : List β → List β → Nat → Nat → List β)
    (ht : set_result_of R t = .ok set_result)
    (X Y : List Int) (hX : X.Pairwise (· < ·)) (hY : Y.Pairwise (· < ·))
    (dx dy df : List β) (ncx ncy : Nat) (left_join right_join : Bool) :
    ∃ n s, merge_index_length { r := [], x := X, y := Y } compare_indexes_int X.length Y.length
        left_join right_join = .ok n ∧
      merge_loop
        (merge_env_int set_result dx dy df X.length ncx Y.length ncy left_join right_join n)
        (X.length + Y.length) (merge_init R X Y ncx ncy n) = .ok s ∧
      s.idx.r.length = n ∧ s.idx.r.Pairwise (· < ·) := by
  obtain ⟨s, h1, h2, -⟩ := merge_loop_rows R set_result (set_result_of_spec R t set_result ht)
    X Y dx dy df ncx ncy left_join right_join
  refine ⟨_, s, merge_index_length_walk [] X Y left_join right_join, h1, ?_, ?_⟩
  · rw [h2]; simp [rows_index]
  · rw [h2]
    exact merged_index_sorted X Y (left_join, right_join) hX hY

/-- An instance of C19: the full outer join of the concrete scenario. -/
theorem fill_pass_index_ascending_witness :
    ∃ n s, merge_index_length
        ({ r := [], x := [1, 2, 3], y := [2, 3, 4] } : xts_indices Int) compare_indexes_int
        3 3 true true = .ok n ∧
      merge_loop
        (merge_env_int (set_result_int RInt) [10, 20, 30] [200, 300, 400] [-1] 3 1 3 1
          true true n)
        (3 + 3) (merge_init RInt [1, 2, 3] [2, 3, 4] 1 1 n) = .ok s ∧
      s.idx.r.length = n ∧ s.idx.r.Pairwise (· < ·) :=
  fill_pass_index_ascending RInt .INTSXP (set_result_int RInt) rfl [1, 2, 3] [2, 3, 4]
    (by decide) (by decide) [10, 20, 30] [200, 300, 400] [-1] 1 1 true true

/-- C20. For every pair of positions `compare_indexes_int` returns `1` with
the left value greater, `-1` with the left value less, or `0` with equal
values; and neither `merge_index_length` nor the fill loop nor `do_merge_xts`
as a whole, run with this comparison, stops with the error of an invalid
comparison, for any input. -/
theorem invalid_comparison_unreachable {β : Type} (R : RApi β) (idx : xts_indices Int)
    (xp yp nx ny : Nat) (ljoin rjoin : Bool)
    (set_result : List β → List β → Nat → Nat → List β) (dx dy df : List β)
    (nrx ncx nry ncy num_rows fuel : Nat) (s : merge_state Int β)
    (x y : Option (SEXP β)) (all : Bool × Bool) (fill : SEXP β) (retside : Bool × Bool)
    (coerce : Bool) :
    ((compare_indexes_int idx xp yp = 1 ∧ idx.x.getD xp 0 > idx.y.getD yp 0) ∨
      (compare_indexes_int idx xp yp = -1 ∧ idx.x.getD xp 0 < idx.y.getD yp 0) ∨
      (compare_indexes_int idx xp yp = 0 ∧ idx.x.getD xp 0 = idx.y.getD yp 0)) ∧
    merge_index_length idx compare_indexes_int nx ny ljoin rjoin ≠ .error .invalid_comparison ∧
    merge_loop (merge_env_int set_result dx dy df nrx ncx nry ncy ljoin rjoin num_rows) fuel s
      ≠ .error .invalid_comparison ∧
    do_merge_xts R x y all fill retside coerce ≠ .error .invalid_comparison := by
  refine ⟨?_, ?_, ?_, ?_⟩
  · unfold compare_indexes_int
    by_cases h1 : idx.x.getD xp 0 > idx.y.getD yp 0
    · left
      rw [if_pos h1]
      exact ⟨rfl, h1⟩
    · by_cases h2 : idx.x.getD xp 0 < idx.y.getD yp 0
      · right; left
        rw [if_neg h1, if_pos h2]
        exact ⟨rfl, h2⟩
      · right; right
        rw [if_neg h1, if_neg h2]
        exact ⟨rfl, by omega⟩
  · intro h
    cases merge_index_length_error_fuel _ _ _ _ _ _ _ h
  · intro h
    cases merge_loop_error_fuel _ _ _ _ h
  · intro h
    cases x with
    | none => cases h
    | some x =>
      cases y with
      | none => cases h
      | some y =>
        rcases do_merge_xts_error R x y all fill retside coerce _ h with h | h | h
        · rcases check_index_int_error _ _ _ _ _ h with h | h <;> cases h
        · cases h
        · cases h

/-- C21. For every pair of integer indices (of any lengths) and every pair of
flags, the count pass returns a length `n`, and the fill loop run for `n`
rows ends and every row that it reads or writes on its way is inside of the
vectors: a read of the index or of the cells of x is at a row `p` with
`0 ≤ p < nrx`, a read of y at a row with `0 ≤ p < nry`, and a store to the
index or to the cells of the result is at a slot `i` with `0 ≤ i < n`, also
after passes that skip a row and keep the slot. Every slot below `n` is
written. -/
theorem fill_loop_accesses_in_bounds {β : Type} (R : RApi β)
    (set_result : List β → List β → Nat → Nat → List β) (X Y : List Int) (dx dy df : List β)
    (ncx ncy : Nat) (left_join right_join : Bool) :
    ∃ n acc, merge_index_length { r := [], x := X, y := Y } compare_indexes_int X.length Y.length
        left_join right_join = .ok n ∧
      merge_loop_accesses
        (merge_env_int set_result dx dy df X.length ncx Y.length ncy left_join right_join n)
        (X.length + Y.length) (merge_init R X Y ncx ncy n) = .ok acc ∧
      (∀ a ∈ acc, a.in_bounds X.length Y.length n) ∧
      (∀ k : Nat, k < n → Access.result_row k ∈ acc) := by
  obtain ⟨s', acc, -, h2, -, h4, h5⟩ := merge_loop_accesses_inv set_result X Y dx dy df ncx ncy
    left_join right_join _ _ _ (merge_init_cursor R X Y ncx ncy left_join right_join)
  exact ⟨_, acc, merge_index_length_walk [] X Y left_join right_join, h2, h4,
    fun k hk => h5 k (Nat.zero_le k) hk⟩

/-- C23. For every pair of integer indices `X` and `Y` and every pair of
flags, swapping the operands together with the flags keeps the computed
length, and the fill loops of the two merges end with the same result
index. -/
theorem swap_operands_and_flags {β : Type} (R : RApi β) (t : SEXPTYPE)
    (set_result : List β → List β → Nat → Nat → List β)
    (ht : set_result_of R t = .ok set_result)
    (X Y : List Int) (dx dy df : List β) (ncx ncy : Nat) (l r : Bool) :
    merge_index_length { r := [], x := X, y := Y } compare_indexes_int X.length Y.length l r =
      merge_index_length { r := [], x := Y, y := X } compare_indexes_int Y.length X.length r l ∧
    ∃ n s s1,
      merge_index_length { r := [], x := X, y := Y } compare_indexes_int X.length Y.length l r
        = .ok n ∧
      merge_loop (merge_env_int set_result dx dy df X.length ncx Y.length ncy l r n)
        (X.length + Y.length) (merge_init R X Y ncx ncy n) = .ok s ∧
      merge_loop (merge_env_int set_result dy dx df Y.length ncy X.length ncx r l n)
        (Y.length + X.length) (merge_init R Y X ncy ncx n) = .ok s1 ∧
      s.idx.r = s1.idx.r := by
  have hsw := merged_index_swap X Y l r
  have hlen : (JoinWalker X Y ⟨l, r⟩).length = (JoinWalker Y X ⟨r, l⟩).length := by
    have := congrArg List.length hsw
    simpa [rows_index] using this
  have c1 := merge_index_length_walk [] X Y l r
  have c2 := merge_index_length_walk [] Y X r l
  obtain ⟨s, h1, h2, -⟩ := merge_loop_rows R set_result (set_result_of_spec R t set_result ht)
    X Y dx dy df ncx ncy l r
  obtain ⟨s1, g1, g2, -⟩ := merge_loop_rows R set_result (set_result_of_spec R t set_result ht)
    Y X dy dx df ncy ncx r l
  refine ⟨by rw [c1, c2, hlen], _, s, s1, c1, h1, by rw [hlen]; exact g1, ?_⟩
  rw [h2, g2, hsw]

/-- An instance of C23: the left join of the concrete scenario and the right
join of the swapped operands have the same computed length. -/
theorem swap_operands_and_flags_witness :
    merge_index_length ({ r := [], x := [1, 2, 3], y := [2, 3, 4] } : xts_indices Int)
        compare_indexes_int 3 3 true false =
      merge_index_length ({ r := [], x := [2, 3, 4], y := [1, 2, 3] } : xts_indices Int)
        compare_indexes_int 3 3 false true :=
  (swap_operands_and_flags RInt .INTSXP (set_result_int RInt) rfl [1, 2, 3] [2, 3, 4]
    [10, 20, 30] [200, 300, 400] [-1] 1 1 true false).1

/-- C24, on `merge_index_length` with the arithmetic of C `int`s. For every
pair of indices and every comparison function (no order is assumed) the
cursors after a pass of the generic loop do not depend on the flags. For all
lengths with `nx + ny + 2 ≤ INT_MAX` the four computed lengths satisfy
`inner + outer = nx + ny = left + right`, with `left = nx` and `right = ny`,
and `inner ≤ min nx ny ≤ max nx ny ≤ outer ≤ nx + ny`. For all lengths of
`int` with `INT_MAX ≤ nx + ny`, `max_length = nx + ny + 1` overflows and
the computed length is 0 for all flags, so that the relations fail: the left
join of `nx = INT_MAX` rows with `ny = 0` rows has computed length 0. -/
theorem join_lengths_relations {α : Type} (idx : xts_indices α)
    (cmpfn : xts_indices α → Nat → Nat → Int) (nx ny : Nat) :
    (∀ (lj rj lj1 rj1 : Bool) (i i1 xi yi : Int),
      (merge_index_length_generic_int_step idx cmpfn nx ny lj rj i xi yi).map
          (fun t => t.2) =
        (merge_index_length_generic_int_step idx cmpfn nx ny lj1 rj1 i1 xi yi).map
          (fun t => t.2)) ∧
    (nx + ny + 2 ≤ 2147483647 →
      ∃ inner left right outer : Nat,
        merge_index_length_int idx cmpfn nx ny false false = .ok (inner : Int) ∧
        merge_index_length_int idx cmpfn nx ny true false = .ok (left : Int) ∧
        merge_index_length_int idx cmpfn nx ny false true = .ok (right : Int) ∧
        merge_index_length_int idx cmpfn nx ny true true = .ok (outer : Int) ∧
        inner + outer = nx + ny ∧ left + right = nx + ny ∧ left = nx ∧ right = ny ∧
        inner ≤ min nx ny ∧ min nx ny ≤ max nx ny ∧ max nx ny ≤ outer ∧ outer ≤ nx + ny) ∧
    (nx ≤ 2147483647 → ny ≤ 2147483647 → 2147483647 ≤ nx + ny →
      ∀ lj rj : Bool, merge_index_length_int idx cmpfn nx ny lj rj = .ok 0) := by
  refine ⟨fun lj rj lj1 rj1 i i1 xi yi =>
    generic_int_step_flags idx cmpfn nx ny lj rj lj1 rj1 i i1 xi yi, ?_, ?_⟩
  · intro hfit
    obtain ⟨m, l, r, hm, hr, h⟩ := generic_count_parts idx cmpfn nx ny (nx + ny + 1) 1 1
      (by omega) (by omega) (by omega)
    have hb := both_eq_generic idx cmpfn nx ny (nx + ny + 1) 0 1 1 (by omega) (by omega)
      (by omega)
    refine ⟨m, m + l, m + r, m + l + r, ?_, ?_, ?_, ?_, by omega, by omega, by omega,
      by omega, ?_, ?_, ?_, by omega⟩
    · rw [merge_index_length_int_eq idx cmpfn nx ny hfit]
      unfold merge_index_length
      simp [h]
      rfl
    · rw [merge_index_length_int_eq idx cmpfn nx ny hfit]
      unfold merge_index_length
      simp [h]
      rfl
    · rw [merge_index_length_int_eq idx cmpfn nx ny hfit]
      unfold merge_index_length
      simp [h]
      rfl
    · rw [merge_index_length_int_eq idx cmpfn nx ny hfit]
      unfold merge_index_length
      simp [hb, h]
      rfl
    · simp only [Nat.le_min]; omega
    · exact le_trans (min_le_left nx ny) (le_max_left nx ny)
    · simp only [Nat.max_le]; omega
  · intro hx hy hsum lj rj
    exact merge_index_length_int_overflow idx cmpfn nx ny (by omega) (by omega) (by omega)
      (by omega) (by omega) lj rj

/-- C24 at concrete lengths. Within the range of `int`, for the indices
`[1, 2, 3]` and `[2, 3, 4]`, the inner join has length 2, the left and the
right join 3 and the full outer join 4. With `nx = INT_MAX` and `ny = 0` the
computed length of every join is 0, also of the left join. -/
theorem join_lengths_relations_witness :
    (∃ inner left right outer : Nat,
      merge_index_length_int ({ r := [], x := [1, 2, 3], y := [2, 3, 4] } : xts_indices Int)
        compare_indexes_int (3 : Nat) (3 : Nat) false false = .ok (inner : Int) ∧
      merge_index_length_int ({ r := [], x := [1, 2, 3], y := [2, 3, 4] } : xts_indices Int)
        compare_indexes_int (3 : Nat) (3 : Nat) true false = .ok (left : Int) ∧
      merge_index_length_int ({ r := [], x := [1, 2, 3], y := [2, 3, 4] } : xts_indices Int)
        compare_indexes_int (3 : Nat) (3 : Nat) false true = .ok (right : Int) ∧
      merge_index_length_int ({ r := [], x := [1, 2, 3], y := [2, 3, 4] } : xts_indices Int)
        compare_indexes_int (3 : Nat) (3 : Nat) true true = .ok (outer : Int) ∧
      inner + outer = 3 + 3 ∧ left + right = 3 + 3 ∧ left = 3 ∧ right = 3 ∧
      inner ≤ min 3 3 ∧ min 3 3 ≤ max 3 3 ∧ max 3 3 ≤ outer ∧ outer ≤ 3 + 3) ∧
    (∀ lj rj : Bool,
      merge_index_length_int ({ r := [], x := [], y := [] } : xts_indices Int)
        compare_indexes_int (2147483647 : Nat) (0 : Nat) lj rj = .ok 0) :=
  ⟨(join_lengths_relations ({ r := [], x := [1, 2, 3], y := [2, 3, 4] } : xts_indices Int)
      compare_indexes_int 3 3).2.1 (by decide),
    (join_lengths_relations ({ r := [], x := [], y := [] } : xts_indices Int)
      compare_indexes_int 2147483647 0).2.2 (by decide) (by decide) (by decide)⟩

/-- C25. `mergeXts` of one object, or of one object followed by a single
`NULL`, returns the object as it is, for every pair of flags, every fill
value and every choice of the returned sides, and whatever the index and the
type of the object are. -/
theorem single_table_returned {β : Type} (R : RApi β) (all : Bool × Bool) (fill : SEXP β)
    (retside : Bool × Bool) (t : SEXP β) :
    mergeXts R all fill retside [some t] = .ok (some t) ∧
    mergeXts R all fill retside [some t, none] = .ok (some t) :=
  ⟨rfl, rfl⟩

end XtsMerge
